import Mathlib

/-!
# MatrixPIM: instruction model, memory mapper, front end, optimizer and simulators

A shallow embedding of `src/pim_isa/instructions.cpp`, `src/memorymap/memorymap.cpp`,
`src/frontend/parser.cpp`, `src/optimizer/optimizer.cpp`, the line readers of
`sim/pim_simulator.cpp` and `sim/lut_visualizer.cpp`, and `multiply_cpu` of
`test/cpu_benchmark.cpp`, and of the code generator declared in `include/backend/codegen.h`
as the specification describes it (its implementation file is not part of the sources).

Conventions of the embedding:
* machine integers are natural numbers; a conversion to a narrower unsigned type is written
  as an explicit `% 2 ^ w`; the `int` values of the benchmark are integers reduced to 32-bit
  two's complement by `CpuBenchmark.wrapInt`;
* a `std::string` is read through its list of characters; the members of `std::string` and
  the library calls used by the simulators are in `StdString`;
* a C++ function that may throw returns `Except Exn _`; a member function that mutates the
  object and may throw returns the outcome together with the state of the object afterwards;
* `std::map<std::string, _>` is an association list that holds at most one pair per key
  (only `find`, `at`, `operator[]` and `clear` are used by the code).
-/

/-- The exceptions thrown by the code, with their `what()` message. `division_by_zero` and
`out_of_bounds` are not C++ exceptions: the first marks an integer division whose divisor is
zero, the second an access through `operator[]` of a `std::vector` past its end; the language
leaves both undefined. -/
inductive Exn where
  | runtime_error (what : String)
  | out_of_range (what : String)
  | division_by_zero
  | invalid_argument (what : String)
  | length_error (what : String)
  | out_of_bounds
  deriving DecidableEq, Repr

deriving instance DecidableEq for Except

namespace PIM_ISA

/-- Instruction opcodes, `enum class InstructionType : uint8_t`. -/
inductive InstructionType where
  | PROG
  | EXE
  | END
  deriving DecidableEq, Repr

/-- The numeric value of an enumerator: `static_cast<uint32_t>(type)`. -/
def InstructionType.toNat : InstructionType → Nat
  | .PROG => 0
  | .EXE => 1
  | .END => 2

/-- Core operations, `enum class CoreOpType : uint8_t`. -/
inductive CoreOpType where
  | MULTIPLIER
  | ADDER
  | MAC
  | SHIFTER
  | LOGIC_AND
  | LOGIC_OR
  | LOGIC_XOR
  | COMPARATOR
  | CUSTOM
  deriving DecidableEq, Repr

/-- The record `struct Instruction`. The anonymous union of `readPtr` and `corePtr` is one byte
of storage, kept here as the single field `corePtr`. `coreOpType` is `none` when the
constructor that built the value did not initialise it. -/
structure Instruction where
  type : InstructionType
  corePtr : Nat
  read : Bool
  write : Bool
  rowAddress : Nat
  coreOpType : Option CoreOpType
  lutConfig : List Nat
  deriving DecidableEq, Repr

/-- The union member `readPtr`: the same storage as `corePtr`. -/
def Instruction.readPtr (i : Instruction) : Nat := i.corePtr

/-- Constructor for EXE and END instructions:
`Instruction(InstructionType type, uint8_t ptr, bool rd, bool wr, uint16_t address)`. -/
def Instruction.mkExeEnd (type : InstructionType) (ptr : Nat) (rd wr : Bool) (address : Nat) :
    Instruction :=
  { type := type
    corePtr := if type = InstructionType.EXE then ptr else 0
    read := rd
    write := wr
    rowAddress := address
    coreOpType := none
    lutConfig := [] }

/-- Constructor for PROG instructions:
`Instruction(uint8_t ptr, CoreOpType opType, const std::vector<uint8_t>& config)`. -/
def Instruction.mkProg (ptr : Nat) (opType : CoreOpType) (config : List Nat) : Instruction :=
  { type := InstructionType.PROG
    corePtr := ptr
    read := false
    write := false
    rowAddress := 0
    coreOpType := some opType
    lutConfig := config }

/-- Binary representation, `Instruction::toBinary`: the fields are or-ed into a 32-bit word. -/
def Instruction.toBinary (i : Instruction) : Nat :=
  let binary := 0
  -- Bits 17-18: Opcode
  let binary := (binary ||| ((i.type.toNat &&& 0x3) <<< 17)) % 2 ^ 32
  -- Bits 11-16: Read/Core Ptr
  let binary := (binary ||| ((i.corePtr &&& 0x3F) <<< 11)) % 2 ^ 32
  -- Bit 10: Read flag
  let binary := (binary ||| ((if i.read then 1 else 0) <<< 10)) % 2 ^ 32
  -- Bit 9: Write flag
  let binary := (binary ||| ((if i.write then 1 else 0) <<< 9)) % 2 ^ 32
  -- Bits 0-8: Row Address
  let binary := (binary ||| (i.rowAddress &&& 0x1FF)) % 2 ^ 32
  binary

/-- The name written for a core operation by the inner `switch` of `toString`; a value that
is none of the nine enumerators takes the `default` branch. -/
def coreOpName : Option CoreOpType → String
  | some .MULTIPLIER => "MULTIPLIER"
  | some .ADDER => "ADDER"
  | some .MAC => "MAC"
  | some .SHIFTER => "SHIFTER"
  | some .LOGIC_AND => "LOGIC_AND"
  | some .LOGIC_OR => "LOGIC_OR"
  | some .LOGIC_XOR => "LOGIC_XOR"
  | some .COMPARATOR => "COMPARATOR"
  | some .CUSTOM => "CUSTOM"
  | none => "UNKNOWN"

/-- Stream output of an `int` in decimal (the default base of a new `std::stringstream`). -/
def renderDec (n : Nat) : String := Nat.repr n

/-- Stream output of an `int` under `std::hex << std::setw(2) << std::setfill('0')`: the
lowercase hexadecimal digits, filled on the left with zeros up to width 2. -/
def renderHex2 (n : Nat) : String :=
  String.mk (List.replicate (2 - (Nat.toDigits 16 n).length) (Char.ofNat 48) ++ Nat.toDigits 16 n)

/-- The loop of `toString` over `lutConfig`, from index `i` on: `", "` before every byte but
the first, then `"0x"` and the byte in two-digit hexadecimal. -/
def renderLutConfig : Nat → List Nat → String
  | _, [] => ""
  | i, b :: rest =>
    (if i > 0 then ", " else "") ++ ("0x" ++ renderHex2 b) ++ renderLutConfig (i + 1) rest

/-- String representation, `Instruction::toString`. -/
def Instruction.toString (i : Instruction) : String :=
  match i.type with
  | .PROG =>
    "PROG Core" ++ renderDec i.corePtr ++ " " ++ coreOpName i.coreOpType
      ++ (if !i.lutConfig.isEmpty then " [" ++ renderLutConfig 0 i.lutConfig ++ "]" else "")
  | .EXE =>
    "EXE "
      ++ (if i.read && !i.write then "Read"
          else if !i.read && i.write then "Write"
          else if i.read && i.write then "ReadWrite"
          else "CorePtr" ++ renderDec i.corePtr)
      ++ (" RowAddress" ++ renderDec i.rowAddress)
  | .END => "END"

/-- Factory `createProgInstruction`. -/
def createProgInstruction (corePtr : Nat) (opType : CoreOpType) (lutConfig : List Nat) :
    Except Exn Instruction :=
  if corePtr > 63 then
    .error (.out_of_range "Core pointer out of range (must be 0-63)")
  else
    .ok (Instruction.mkProg corePtr opType lutConfig)

/-- Factory `createMemoryInstruction`: an EXE instruction for a memory operation. -/
def createMemoryInstruction (readPtr : Nat) (read write : Bool) (rowAddress : Nat) :
    Except Exn Instruction :=
  if readPtr > 63 then
    .error (.out_of_range "Read pointer out of range (must be 0-63)")
  else if rowAddress > 511 then
    .error (.out_of_range "Row address out of range (must be 0-511)")
  else
    .ok (Instruction.mkExeEnd InstructionType.EXE readPtr read write rowAddress)

/-- Factory `createComputeInstruction`: an EXE instruction for a computation. -/
def createComputeInstruction (corePtr : Nat) (rowAddress : Nat) : Except Exn Instruction :=
  if corePtr > 63 then
    .error (.out_of_range "Core pointer out of range (must be 0-63)")
  else if rowAddress > 511 then
    .error (.out_of_range "Row address out of range (must be 0-511)")
  else
    .ok (Instruction.mkExeEnd InstructionType.EXE corePtr false false rowAddress)

/-- Factory `createEndInstruction`. -/
def createEndInstruction : Instruction :=
  Instruction.mkExeEnd InstructionType.END 0 false false 0

/-- An instruction returned by one of the four factory functions. -/
def FactoryMade (i : Instruction) : Prop :=
  (∃ (corePtr : Nat) (opType : CoreOpType) (lutConfig : List Nat),
      createProgInstruction corePtr opType lutConfig = .ok i)
  ∨ (∃ (readPtr : Nat) (read write : Bool) (rowAddress : Nat),
      createMemoryInstruction readPtr read write rowAddress = .ok i)
  ∨ (∃ (corePtr rowAddress : Nat), createComputeInstruction corePtr rowAddress = .ok i)
  ∨ i = createEndInstruction

end PIM_ISA

namespace MemoryMap

/-- Matrix dimensions, `struct MatrixDimensions` (two `uint32_t`). -/
structure MatrixDimensions where
  rows : Nat
  cols : Nat
  deriving DecidableEq, Repr

/-- Memory address range, `struct AddressRange` (two `uint16_t`). -/
structure AddressRange where
  startAddress : Nat
  endAddress : Nat
  deriving DecidableEq, Repr

/-- The state of a `MemoryMapper` object: `matrixMap_` (matrix name to start address and
dimensions) and the allocation counter `nextRowAddress_` (`uint16_t`). -/
structure MemoryMapper where
  matrixMap_ : List (String × (Nat × MatrixDimensions))
  nextRowAddress_ : Nat
  deriving DecidableEq, Repr

/-- Assignment through `operator[]` of the map: the pair for `key` is replaced or inserted. -/
def mapAssign (l : List (String × (Nat × MatrixDimensions))) (key : String)
    (value : Nat × MatrixDimensions) : List (String × (Nat × MatrixDimensions)) :=
  (key, value) :: l.filter (fun kv => !(kv.1 == key))

/-- The constructor `MemoryMapper::MemoryMapper()`. -/
def MemoryMapper.new : MemoryMapper :=
  { matrixMap_ := [], nextRowAddress_ := 0 }

/-- Member `isMatrixMapped`: `matrixMap_.find(matrixName) != matrixMap_.end()`. -/
def MemoryMapper.isMatrixMapped (m : MemoryMapper) (matrixName : String) : Bool :=
  (m.matrixMap_.lookup matrixName).isSome

/-- Member `calculateMatrixSize`. The product is a `uint32_t` product. The quotient by `256.0`
is taken in `double`, where it is exact for every 32-bit operand, so `std::ceil` of it is the
integer ceiling; the result is converted to `uint16_t`, written here as `% 2 ^ 16` (the
language defines that conversion only for a ceiling of at most 65535). -/
def calculateMatrixSize (dimensions : MatrixDimensions) : Nat :=
  let numElements := (dimensions.rows * dimensions.cols) % 2 ^ 32
  let numRows := ((numElements + 255) / 256) % 2 ^ 16
  max numRows 1

/-- Member `mapMatrix`: the outcome (the start address, or the exception thrown) and the
state of the mapper after the call. -/
def MemoryMapper.mapMatrix (m : MemoryMapper) (matrixName : String)
    (dimensions : MatrixDimensions) : Except Exn Nat × MemoryMapper :=
  if m.isMatrixMapped matrixName then
    (.error (.runtime_error ("Matrix '" ++ matrixName ++ "' is already mapped")), m)
  else
    let matrixSize := calculateMatrixSize dimensions
    if m.nextRowAddress_ + matrixSize > 512 then
      (.error (.runtime_error
        ("Not enough memory space to map matrix '" ++ matrixName ++ "'")), m)
    else
      let startAddress := m.nextRowAddress_
      (.ok startAddress,
        { matrixMap_ := mapAssign m.matrixMap_ matrixName (startAddress, dimensions)
          nextRowAddress_ := (m.nextRowAddress_ + matrixSize) % 2 ^ 16 })

/-- Member `getElementAddress`. -/
def MemoryMapper.getElementAddress (m : MemoryMapper) (matrixName : String) (row col : Nat) :
    Except Exn Nat :=
  if !m.isMatrixMapped matrixName then
    .error (.runtime_error ("Matrix '" ++ matrixName ++ "' is not mapped"))
  else
    match m.matrixMap_.lookup matrixName with
    | none => .error (.out_of_range "map::at")
    | some (startAddress, dimensions) =>
      if row ≥ dimensions.rows ∨ col ≥ dimensions.cols then
        .error (.out_of_range "Matrix indices out of range")
      else
        let rowOffset := (((row * dimensions.cols) % 2 ^ 32) / 256) % 2 ^ 16
        let elementAddress := (startAddress + rowOffset) % 2 ^ 16
        .ok elementAddress

/-- Member `getRowAddress`. Both divisions are integer divisions; a zero divisor is reported
as `Exn.division_by_zero`. -/
def MemoryMapper.getRowAddress (m : MemoryMapper) (matrixName : String) (row : Nat) :
    Except Exn Nat :=
  if !m.isMatrixMapped matrixName then
    .error (.runtime_error ("Matrix '" ++ matrixName ++ "' is not mapped"))
  else
    match m.matrixMap_.lookup matrixName with
    | none => .error (.out_of_range "map::at")
    | some (startAddress, dimensions) =>
      if row ≥ dimensions.rows then
        .error (.out_of_range "Matrix row index out of range")
      else if dimensions.cols = 0 then
        .error .division_by_zero
      else
        let rowsPerMemoryRow := (min (256 / dimensions.cols) 1) % 2 ^ 16
        if rowsPerMemoryRow = 0 then
          .error .division_by_zero
        else
          let rowOffset := (row / rowsPerMemoryRow) % 2 ^ 16
          .ok ((startAddress + rowOffset) % 2 ^ 16)

/-- Member `getBankIndex`: a `uint32_t` sum, reduced modulo 4, stored in a `uint8_t`. -/
def MemoryMapper.getBankIndex (m : MemoryMapper) (matrixName : String) (row col : Nat) :
    Except Exn Nat :=
  if !m.isMatrixMapped matrixName then
    .error (.runtime_error ("Matrix '" ++ matrixName ++ "' is not mapped"))
  else
    match m.matrixMap_.lookup matrixName with
    | none => .error (.out_of_range "map::at")
    | some (_, dimensions) =>
      if row ≥ dimensions.rows ∨ col ≥ dimensions.cols then
        .error (.out_of_range "Matrix indices out of range")
      else
        let bankIndex := (((row + col) % 2 ^ 32) % 4) % 2 ^ 8
        .ok bankIndex

/-- Member `getMatrixDimensions`. -/
def MemoryMapper.getMatrixDimensions (m : MemoryMapper) (matrixName : String) :
    Except Exn MatrixDimensions :=
  if !m.isMatrixMapped matrixName then
    .error (.runtime_error ("Matrix '" ++ matrixName ++ "' is not mapped"))
  else
    match m.matrixMap_.lookup matrixName with
    | none => .error (.out_of_range "map::at")
    | some (_, dimensions) => .ok dimensions

/-- Member `getMatrixAddressRange`. -/
def MemoryMapper.getMatrixAddressRange (m : MemoryMapper) (matrixName : String) :
    Except Exn AddressRange :=
  if !m.isMatrixMapped matrixName then
    .error (.runtime_error ("Matrix '" ++ matrixName ++ "' is not mapped"))
  else
    match m.matrixMap_.lookup matrixName with
    | none => .error (.out_of_range "map::at")
    | some (startAddress, dimensions) =>
      let matrixSize := calculateMatrixSize dimensions
      let endAddress := (startAddress + matrixSize - 1) % 2 ^ 16
      .ok { startAddress := startAddress, endAddress := endAddress }

/-- Member `reset`: `matrixMap_.clear(); nextRowAddress_ = 0;`. -/
def MemoryMapper.reset (_m : MemoryMapper) : MemoryMapper :=
  { matrixMap_ := [], nextRowAddress_ := 0 }

/-- A call made on a mapper by a client: the two members that change its state. -/
inductive Call where
  | mapMatrix (matrixName : String) (dimensions : MatrixDimensions)
  | reset
  deriving DecidableEq, Repr

/-- The state after one call; a call that throws leaves the state `mapMatrix` reports. -/
def MemoryMapper.step (m : MemoryMapper) : Call → MemoryMapper
  | .mapMatrix matrixName dimensions => (m.mapMatrix matrixName dimensions).2
  | .reset => m.reset

/-- The state after a sequence of calls, made in order. -/
def MemoryMapper.run (m : MemoryMapper) (calls : List Call) : MemoryMapper :=
  calls.foldl MemoryMapper.step m

/-- The outcomes of successive `mapMatrix` calls, made in order on one mapper. -/
def MemoryMapper.mapAll (m : MemoryMapper) :
    List (String × MatrixDimensions) → List (Except Exn Nat)
  | [] => []
  | (matrixName, dimensions) :: rest =>
    (m.mapMatrix matrixName dimensions).1 :: (m.mapMatrix matrixName dimensions).2.mapAll rest

/-- The rows taken by the calls that succeeded among the first `k` of a sequence of
`mapMatrix` calls with the given outcomes. -/
def rowsMappedBefore (calls : List (String × MatrixDimensions))
    (outcomes : List (Except Exn Nat)) (k : Nat) : Nat :=
  ((((calls.zip outcomes).take k).filter (fun co => co.2.toBool)).map
    (fun co => calculateMatrixSize co.1.2)).sum

/-- The allocation invariant of a mapper state: the cursor is at most 512, the rows of every
mapped matrix end at or before the cursor, and the rows of two different mapped matrices do
not overlap. -/
def MemoryMapper.Allocated (m : MemoryMapper) : Prop :=
  m.nextRowAddress_ ≤ 512
  ∧ (∀ (n : String) (s : Nat) (d : MatrixDimensions),
      m.matrixMap_.lookup n = some (s, d) → s + calculateMatrixSize d ≤ m.nextRowAddress_)
  ∧ (∀ (n1 n2 : String) (s1 s2 : Nat) (d1 d2 : MatrixDimensions), n1 ≠ n2 →
      m.matrixMap_.lookup n1 = some (s1, d1) → m.matrixMap_.lookup n2 = some (s2, d2) →
      s1 + calculateMatrixSize d1 ≤ s2 ∨ s2 + calculateMatrixSize d2 ≤ s1)

/-- The size in rows that the specification gives: `ceil(rows*cols / 256)`, at least 1, on
the exact product. -/
def specMatrixSize (rows cols : Nat) : Nat :=
  max 1 ((rows * cols + 255) / 256)

end MemoryMap

namespace Frontend

/-- A matrix in the source code, `struct MatrixInfo`. -/
structure MatrixInfo where
  name : String
  rows : Nat
  cols : Nat
  isInput : Bool
  isOutput : Bool
  deriving DecidableEq, Repr

/-- The kind of a matrix operation, `enum class OperationType`. -/
inductive OperationType where
  | MULTIPLY
  | ADD
  | SUBTRACT
  | TRANSPOSE
  deriving DecidableEq, Repr

/-- A matrix operation, `struct MatrixOperation`. -/
structure MatrixOperation where
  type : OperationType
  inputs : List String
  output : String
  deriving DecidableEq, Repr

/-- One match of the declaration regex of `parseMatrixDeclarations`
(`Matrix A(3, 4)` or `Matrix<int> A(3, 4)`): the captured name and the values of the two
captured digit strings. -/
structure DeclarationMatch where
  name : String
  rows : Nat
  cols : Nat
  deriving DecidableEq, Repr

/-- One match of the multiplication regex of `parseMatrixOperations` (`C = A * B;`): the three
captured names. -/
structure MultiplyMatch where
  outputName : String
  inputName1 : String
  inputName2 : String
  deriving DecidableEq, Repr

/-- The library call `std::stoi` on a digit string of the given value: it throws
`std::out_of_range` when the value does not fit an `int`. -/
def stoi (value : Nat) : Except Exn Nat :=
  if value > 2147483647 then .error (.out_of_range "stoi") else .ok value

/-- The state of a `Parser` object: `matrices_`, a `std::map` kept in the order of its keys,
and `operations_`. -/
structure Parser where
  matrices_ : List (String × MatrixInfo)
  operations_ : List MatrixOperation
  deriving DecidableEq, Repr

/-- Lexicographic comparison of two character sequences by character code. -/
def charsLess : List Char → List Char → Bool
  | [], [] => false
  | [], _ :: _ => true
  | _ :: _, [] => false
  | a :: as, b :: bs =>
    if a.toNat < b.toNat then true
    else if b.toNat < a.toNat then false
    else charsLess as bs

/-- The order `operator<` of `std::string`, the key order of the map. -/
def stringLess (a b : String) : Bool :=
  charsLess a.data b.data

/-- The place of a new key in the key order of the map. -/
def insertSorted (l : List (String × MatrixInfo)) (key : String) (value : MatrixInfo) :
    List (String × MatrixInfo) :=
  match l with
  | [] => [(key, value)]
  | (k, v) :: rest =>
    if stringLess key k then (key, value) :: (k, v) :: rest
    else (k, v) :: insertSorted rest key value

/-- The library call `std::map::insert`: a key that is present keeps its value. -/
def mapInsert (l : List (String × MatrixInfo)) (key : String) (value : MatrixInfo) :
    List (String × MatrixInfo) :=
  if (l.lookup key).isSome then l else insertSorted l key value

/-- The update `it->second.isOutput = true` on the entry of `outputName`, when there is one. -/
def markOutput (l : List (String × MatrixInfo)) (outputName : String) :
    List (String × MatrixInfo) :=
  l.map (fun kv => if kv.1 == outputName then (kv.1, { kv.2 with isOutput := true }) else kv)

/-- The constructor `Parser::Parser()`. -/
def Parser.new : Parser :=
  { matrices_ := [], operations_ := [] }

/-- Member `hasMatrix`. -/
def Parser.hasMatrix (p : Parser) (name : String) : Bool :=
  (p.matrices_.lookup name).isSome

/-- Member `getMatrixInfo`. -/
def Parser.getMatrixInfo (p : Parser) (name : String) : Except Exn MatrixInfo :=
  match p.matrices_.lookup name with
  | none => .error (.runtime_error ("Matrix '" ++ name ++ "' not found"))
  | some info => .ok info

/-- Member `getMatrices`: the values of the map, in key order. -/
def Parser.getMatrices (p : Parser) : List MatrixInfo :=
  p.matrices_.map Prod.snd

/-- Member `getOperations`. -/
def Parser.getOperations (p : Parser) : List MatrixOperation :=
  p.operations_

/-- Member `getOperationCount`. -/
def Parser.getOperationCount (p : Parser) : Nat :=
  p.operations_.length

/-- The body of the loop of `parseMatrixDeclarations` on one match. -/
def Parser.declare (p : Parser) (d : DeclarationMatch) : Except Exn Unit × Parser :=
  match stoi d.rows with
  | .error e => (.error e, p)
  | .ok rows =>
    match stoi d.cols with
    | .error e => (.error e, p)
    | .ok cols =>
      let info : MatrixInfo :=
        { name := d.name, rows := rows % 2 ^ 32, cols := cols % 2 ^ 32, isInput := true,
          isOutput := false }
      (.ok (), { p with matrices_ := mapInsert p.matrices_ d.name info })

/-- Member `parseMatrixDeclarations`, on the matches of its regex in source order: the outcome
and the state of the parser afterwards. -/
def Parser.parseMatrixDeclarations : Parser → List DeclarationMatch → Except Exn Unit × Parser
  | p, [] => (.ok (), p)
  | p, d :: rest =>
    match p.declare d with
    | (.error e, p1) => (.error e, p1)
    | (.ok _, p1) => Parser.parseMatrixDeclarations p1 rest

/-- The message of the dimension error of `parseMatrixOperations`. -/
def dimensionMessage (inputName1 inputName2 : String) (m1 m2 : MatrixInfo) : String :=
  "Invalid matrix dimensions for multiplication: "
    ++ inputName1 ++ "(" ++ Nat.repr m1.rows ++ "x" ++ Nat.repr m1.cols ++ ") * "
    ++ inputName2 ++ "(" ++ Nat.repr m2.rows ++ "x" ++ Nat.repr m2.cols ++ ")"

/-- The block `if (!hasMatrix(outputName))` of `parseMatrixOperations`: the output matrix
is created from the operands after the dimension check. -/
def Parser.createOutput (p : Parser) (s : MultiplyMatch) : Except Exn Parser :=
  if !p.hasMatrix s.outputName then
    match p.getMatrixInfo s.inputName1 with
    | .error e => .error e
    | .ok inputMatrix1 =>
      match p.getMatrixInfo s.inputName2 with
      | .error e => .error e
      | .ok inputMatrix2 =>
        if inputMatrix1.cols ≠ inputMatrix2.rows then
          .error (.runtime_error
            (dimensionMessage s.inputName1 s.inputName2 inputMatrix1 inputMatrix2))
        else
          let info : MatrixInfo :=
            { name := s.outputName, rows := inputMatrix1.rows, cols := inputMatrix2.cols,
              isInput := false, isOutput := true }
          .ok { p with matrices_ := mapInsert p.matrices_ s.outputName info }
  else
    .ok p

/-- The body of the loop of `parseMatrixOperations` on one match. -/
def Parser.multiply (p : Parser) (s : MultiplyMatch) : Except Exn Unit × Parser :=
  if !p.hasMatrix s.inputName1 then
    (.error (.runtime_error
      ("Matrix '" ++ s.inputName1 ++ "' used in operation but not declared")), p)
  else if !p.hasMatrix s.inputName2 then
    (.error (.runtime_error
      ("Matrix '" ++ s.inputName2 ++ "' used in operation but not declared")), p)
  else
    match p.createOutput s with
    | .error e => (.error e, p)
    | .ok p1 =>
      let operation : MatrixOperation :=
        { type := OperationType.MULTIPLY, inputs := [s.inputName1, s.inputName2],
          output := s.outputName }
      (.ok (),
        { matrices_ := markOutput p1.matrices_ s.outputName,
          operations_ := p1.operations_ ++ [operation] })

/-- Member `parseMatrixOperations`, on the matches of its regex in source order: the outcome
and the state of the parser afterwards. -/
def Parser.parseMatrixOperations : Parser → List MultiplyMatch → Except Exn Unit × Parser
  | p, [] => (.ok (), p)
  | p, s :: rest =>
    match p.multiply s with
    | (.error e, p1) => (.error e, p1)
    | (.ok _, p1) => Parser.parseMatrixOperations p1 rest

/-- The reference invariant of a parser state: every entry of the table is stored under its
own name, and every operation is a MULTIPLY with two inputs and an output that are in the
table. -/
def Parser.WellReferenced (p : Parser) : Prop :=
  (∀ (k : String) (v : MatrixInfo), p.matrices_.lookup k = some v → v.name = k)
  ∧ ∀ op ∈ p.operations_, op.type = OperationType.MULTIPLY
      ∧ ∃ i1 i2, op.inputs = [i1, i2] ∧ p.hasMatrix i1 = true ∧ p.hasMatrix i2 = true
          ∧ p.hasMatrix op.output = true

/-- Member `parseFile`. The argument is `none` when the file cannot be opened, and otherwise
the matches of the two regexes in the contents of the file. Every exception of the two passes
is caught and turned into `false`. -/
def Parser.parseFile (_p : Parser)
    (source : Option (List DeclarationMatch × List MultiplyMatch)) : Bool × Parser :=
  let cleared : Parser := { matrices_ := [], operations_ := [] }
  match source with
  | none => (false, cleared)
  | some (declarations, multiplications) =>
    match cleared.parseMatrixDeclarations declarations with
    | (.error _, p1) => (false, p1)
    | (.ok _, p1) =>
      match p1.parseMatrixOperations multiplications with
      | (.error _, p2) => (false, p2)
      | (.ok _, p2) => (true, p2)

end Frontend

namespace Backend

open PIM_ISA MemoryMap Frontend

/-- Modelled from the spec: the configuration of a `CodeGenerator`. `codegen.h` declares
`generateMultiplierConfig`, `generateAdderConfig` and `generateMACConfig`, whose bodies are
not in the sources; the specification asks for "a fixed LUT configuration byte sequence
specific to that function", any deterministic one. It names no value for the pointer field of
the memory instructions, kept here as `memoryPtr`. -/
structure CodeGenerator where
  multiplierConfig : List Nat
  adderConfig : List Nat
  macConfig : List Nat
  memoryPtr : Nat
  deriving DecidableEq, Repr

/-- Modelled from the spec: `generateInitInstructions`, missing from the sources. "Emit three
Prog instructions programming cores 0 (Multiplier), 1 (Adder), 2 (MAC), each carrying a fixed
LUT configuration byte sequence". -/
def generateInitInstructions (g : CodeGenerator) : Except Exn (List Instruction) := do
  let multiplier ← createProgInstruction 0 CoreOpType.MULTIPLIER g.multiplierConfig
  let adder ← createProgInstruction 1 CoreOpType.ADDER g.adderConfig
  let mac ← createProgInstruction 2 CoreOpType.MAC g.macConfig
  pure [multiplier, adder, mac]

/-- Modelled from the spec: a loop of the generator, missing from the sources. The body is
run for each index in order and what it emits is appended; "any failure propagates as a
compile failure (fail-fast)". -/
def emitForEach (body : Nat → Except Exn (List Instruction)) :
    List Nat → Except Exn (List Instruction)
  | [] => pure []
  | x :: xs => do
    let first ← body x
    let others ← emitForEach body xs
    pure (first ++ others)

/-- Modelled from the spec: one step of the inner loop of
`generateMatrixMultiplyInstructions`, missing from the sources. "Emit a memory-read
instruction for A[i][k]'s address, a memory-read instruction for B[k][j]'s address, then a
compute instruction on the MAC core referencing the current row address"; the current row is
taken to be the row staged by the last read. -/
def generateMacStep (g : CodeGenerator) (mm : MemoryMapper) (a b : String) (i j k : Nat) :
    Except Exn (List Instruction) := do
  let addressA ← mm.getElementAddress a i k
  let readA ← createMemoryInstruction g.memoryPtr true false addressA
  let addressB ← mm.getElementAddress b k j
  let readB ← createMemoryInstruction g.memoryPtr true false addressB
  let compute ← createComputeInstruction 2 addressB
  pure [readA, readB, compute]

/-- Modelled from the spec: the instructions of one output element C[i][j] in
`generateMatrixMultiplyInstructions`, missing from the sources. "For each k in [0,m): ...
After the inner loop completes, emit one memory-write instruction targeting C[i][j]'s
address." -/
def generateElement (g : CodeGenerator) (mm : MemoryMapper) (a b c : String) (i j m : Nat) :
    Except Exn (List Instruction) := do
  let macs ← emitForEach (fun k => generateMacStep g mm a b i j k) (List.range m)
  let addressC ← mm.getElementAddress c i j
  let write ← createMemoryInstruction g.memoryPtr false true addressC
  pure (macs ++ [write])

/-- Modelled from the spec: step 1 of the algorithm of the generator, missing from the
sources. "For every matrix referenced not yet mapped, call mapMatrix"; a mapper failure is a
compile failure. -/
def ensureMapped (mm : MemoryMapper) (name : String) (dims : MatrixDimensions) :
    Except Exn MemoryMapper :=
  if mm.isMatrixMapped name then
    pure mm
  else
    match mm.mapMatrix name dims with
    | (.ok _, mm1) => pure mm1
    | (.error e, _) => throw e

/-- Modelled from the spec: the lookup of a matrix record by name in the list handed to the
generator, missing from the sources. -/
def findMatrix (matrices : List MatrixInfo) (name : String) : Option MatrixInfo :=
  matrices.find? (fun mi => mi.name == name)

/-- Modelled from the spec: `generateMatrixMultiplyInstructions`, missing from the sources.
The operands must be declared ("a missing reference is a fatal compile error") and
`left.cols = right.rows` ("DimensionMismatch"); an output that is not declared has
`rows = left.rows`, `cols = right.cols`; the three matrices are mapped in the order A, B, C;
then for each output element C[i][j], i in [0,n), j in [0,p), the instructions of
`generateElement`. The result is the instructions and the mapper after the mappings. -/
def generateMatrixMultiplyInstructions (g : CodeGenerator) (matrices : List MatrixInfo)
    (mm : MemoryMapper) (op : MatrixOperation) : Except Exn (List Instruction × MemoryMapper) :=
  match op.inputs with
  | [a, b] =>
    match findMatrix matrices a, findMatrix matrices b with
    | some left, some right =>
      if left.cols ≠ right.rows then
        throw (.runtime_error "DimensionMismatch")
      else do
        let dimsC : MatrixDimensions :=
          match findMatrix matrices op.output with
          | some out => { rows := out.rows, cols := out.cols }
          | none => { rows := left.rows, cols := right.cols }
        let mm1 ← ensureMapped mm a { rows := left.rows, cols := left.cols }
        let mm2 ← ensureMapped mm1 b { rows := right.rows, cols := right.cols }
        let mm3 ← ensureMapped mm2 op.output dimsC
        let body ← emitForEach
          (fun i => emitForEach
            (fun j => generateElement g mm3 a b op.output i j left.cols)
            (List.range right.cols))
          (List.range left.rows)
        pure (body, mm3)
    | _, _ => throw (.runtime_error "MissingMatrix")
  | _ => throw (.runtime_error "MissingMatrix")

/-- Modelled from the spec: the lowering of the operation list in `generateInstructions`,
missing from the sources. Operations are lowered in order; an operation other than Multiply
is skipped. -/
def generateOperations (g : CodeGenerator) (matrices : List MatrixInfo) :
    MemoryMapper → List MatrixOperation → Except Exn (List Instruction × MemoryMapper)
  | mm, [] => pure ([], mm)
  | mm, op :: rest => do
    let first ←
      match op.type with
      | .MULTIPLY => generateMatrixMultiplyInstructions g matrices mm op
      | _ => pure ([], mm)
    let others ← generateOperations g matrices first.2 rest
    pure (first.1 ++ others.1, others.2)

/-- Modelled from the spec: `CodeGenerator::generateInstructions`, declared in `codegen.h`,
missing from the sources. The three Prog instructions once, before any Exe instruction; the
lowered operations; "after all operations are lowered, emit exactly one End instruction". The
mapper is the one the generator holds; the result carries its state after the call. -/
def generateInstructions (g : CodeGenerator) (mm : MemoryMapper) (matrices : List MatrixInfo)
    (operations : List MatrixOperation) : Except Exn (List Instruction × MemoryMapper) := do
  let init ← generateInitInstructions g
  let body ← generateOperations g matrices mm operations
  pure (init ++ body.1 ++ [createEndInstruction], body.2)

/-- The instructions the specification lists for one step (i, j, k) of a Multiply: the read of
A[i][k], the read of B[k][j] and the compute on core 2 on the row of the last read. A is
n x m at `startA`, B is m x p at `startB`. -/
def macStepStream (ptr startA startB m p i k : Nat) : List Instruction :=
  [Instruction.mkExeEnd InstructionType.EXE ptr true false (startA + i * m / 256),
    Instruction.mkExeEnd InstructionType.EXE ptr true false (startB + k * p / 256),
    Instruction.mkExeEnd InstructionType.EXE 2 false false (startB + k * p / 256)]

/-- The write of C[i][j], C being n x p at `startC`. -/
def writeInstruction (ptr startC p i : Nat) : Instruction :=
  Instruction.mkExeEnd InstructionType.EXE ptr false true (startC + i * p / 256)

/-- The instructions the specification lists for one output element (i, j): the steps for
k in [0, m), then the write of C[i][j]. -/
def elementStream (ptr startA startB startC m p i : Nat) : List Instruction :=
  (List.range m).flatMap (macStepStream ptr startA startB m p i)
    ++ [writeInstruction ptr startC p i]

/-- The instructions the specification lists for one Multiply of an n x m by an m x p matrix
placed at the given start addresses: the instructions of each output element (i, j), i in
[0, n), j in [0, p). -/
def multiplyStream (ptr startA startB startC n m p : Nat) : List Instruction :=
  (List.range n).flatMap (fun i => (List.range p).flatMap (fun _j =>
    elementStream ptr startA startB startC m p i))

/-- The instruction is a PROG instruction. -/
def isProg (i : Instruction) : Bool := i.type == InstructionType.PROG

/-- The instruction is a memory read: EXE with read set and write clear. -/
def isRead (i : Instruction) : Bool := i.type == InstructionType.EXE && i.read && !i.write

/-- The instruction is a memory write: EXE with write set and read clear. -/
def isWrite (i : Instruction) : Bool := i.type == InstructionType.EXE && !i.read && i.write

/-- The instruction is a compute instruction: EXE with both flags clear. -/
def isCompute (i : Instruction) : Bool := i.type == InstructionType.EXE && !i.read && !i.write

/-- The instruction is an END instruction. -/
def isEnd (i : Instruction) : Bool := i.type == InstructionType.END

end Backend

namespace Optimizer

open PIM_ISA Frontend

set_option linter.dupNamespace false

/-- The state of an `Optimizer` object: `optimizationLevel_` (an `int`) and `verbose_`. What
the members print on the console is not part of the state. -/
structure Optimizer where
  optimizationLevel_ : Int
  verbose_ : Bool
  deriving DecidableEq, Repr

/-- The constructor `Optimizer::Optimizer()`. -/
def Optimizer.new : Optimizer :=
  { optimizationLevel_ := 0, verbose_ := false }

/-- Member `setOptimizationLevel`. -/
def Optimizer.setOptimizationLevel (o : Optimizer) (level : Int) : Optimizer :=
  if level < 0 ∨ level > 3 then
    { o with optimizationLevel_ := 0 }
  else
    { o with optimizationLevel_ := level }

/-- Member `setVerbose`. -/
def Optimizer.setVerbose (o : Optimizer) (verbose : Bool) : Optimizer :=
  { o with verbose_ := verbose }

/-- The erase-remove idiom `v.erase(std::remove_if(v.begin(), v.end(), pred), v.end())`: the
elements on which the predicate is false, in their order. -/
def eraseRemoveIf {α : Type} (pred : α → Bool) (v : List α) : List α :=
  v.filter (fun x => !pred x)

/-- Member `optimizeOperations`. -/
def Optimizer.optimizeOperations (o : Optimizer) (operations : List MatrixOperation) :
    List MatrixOperation :=
  if o.optimizationLevel_ = 0 then
    operations
  else
    let optimizedOps := operations
    let optimizedOps :=
      if o.optimizationLevel_ ≥ 1 then eraseRemoveIf (fun _ => false) optimizedOps
      else optimizedOps
    optimizedOps

/-- Member `applyLoopUnrolling`. -/
def Optimizer.applyLoopUnrolling (_o : Optimizer) (instructions : List Instruction) :
    List Instruction :=
  instructions

/-- Member `applyInstructionReordering`. -/
def Optimizer.applyInstructionReordering (_o : Optimizer) (instructions : List Instruction) :
    List Instruction :=
  let reorderedInst := instructions
  reorderedInst

/-- Member `applyMemoryAccessOptimization`. -/
def Optimizer.applyMemoryAccessOptimization (_o : Optimizer)
    (instructions : List Instruction) : List Instruction :=
  let optimizedInst := instructions
  optimizedInst

/-- Member `applyInstructionScheduling`. -/
def Optimizer.applyInstructionScheduling (_o : Optimizer) (instructions : List Instruction) :
    List Instruction :=
  let scheduledInst := instructions
  scheduledInst

/-- Member `optimizeInstructions`. -/
def Optimizer.optimizeInstructions (o : Optimizer) (instructions : List Instruction) :
    List Instruction :=
  if o.optimizationLevel_ = 0 then
    instructions
  else
    let optimizedInst := instructions
    let optimizedInst :=
      if o.optimizationLevel_ ≥ 1 then o.applyInstructionReordering optimizedInst
      else optimizedInst
    let optimizedInst :=
      if o.optimizationLevel_ ≥ 2 then
        o.applyInstructionScheduling (o.applyMemoryAccessOptimization optimizedInst)
      else optimizedInst
    let optimizedInst :=
      if o.optimizationLevel_ ≥ 3 then o.applyLoopUnrolling optimizedInst
      else optimizedInst
    optimizedInst

end Optimizer

namespace StdString

/-- The constant `std::string::npos`, the largest value of `size_t` (64 bits). -/
def npos : Nat := 2 ^ 64 - 1

/-- The scan of `find`: the index of the first place, from the front of the characters that
are left, where the pattern starts; `i` is the index of the first character left. -/
def findFrom (pattern : List Char) : List Char → Nat → Nat
  | [], i => if pattern.isEmpty then i else npos
  | c :: cs, i => if pattern.isPrefixOf (c :: cs) then i else findFrom pattern cs (i + 1)

/-- Member `find(pattern, pos)` of `std::string`. -/
def find (s pattern : List Char) (pos : Nat) : Nat :=
  if pos > s.length then npos else findFrom pattern (s.drop pos) pos

/-- Member `substr(pos, len)` of `std::string`. -/
def substr (s : List Char) (pos len : Nat) : Except Exn (List Char) :=
  if pos > s.length then .error (.out_of_range "basic_string::substr")
  else .ok ((s.drop pos).take len)

/-- Member `find_first_not_of(set)` of `std::string`. -/
def find_first_not_of (set : List Char) : List Char → Nat → Nat
  | [], _ => npos
  | c :: cs, i => if set.contains c then find_first_not_of set cs (i + 1) else i

/-- Member `find_last_not_of(set)` of `std::string`: `last` is the index found so far. -/
def find_last_not_of (set : List Char) : List Char → Nat → Nat → Nat
  | [], _, last => last
  | c :: cs, i, last =>
    if set.contains c then find_last_not_of set cs (i + 1) last
    else find_last_not_of set cs (i + 1) i

/-- Member `erase(pos, len)` of `std::string`. -/
def erase (s : List Char) (pos len : Nat) : Except Exn (List Char) :=
  if pos > s.length then .error (.out_of_range "basic_string::erase")
  else .ok (s.take pos ++ (s.drop pos).drop len)

/-- The test `std::isspace` in the "C" locale. -/
def isspace (c : Char) : Bool :=
  c == ' ' || (9 ≤ c.toNat && c.toNat ≤ 13)

/-- The value of a character as a digit in the given base, as `strtol` reads it. -/
def digitValue (base : Nat) (c : Char) : Option Nat :=
  let v :=
    if 48 ≤ c.toNat ∧ c.toNat ≤ 57 then c.toNat - 48
    else if 97 ≤ c.toNat ∧ c.toNat ≤ 122 then c.toNat - 97 + 10
    else if 65 ≤ c.toNat ∧ c.toNat ≤ 90 then c.toNat - 65 + 10
    else base
  if v < base then some v else none

/-- The value of the longest front part of the characters that consists of digits. -/
def readDigits (base : Nat) : List Char → Nat → Nat
  | [], acc => acc
  | c :: cs, acc =>
    match digitValue base c with
    | some d => readDigits base cs (acc * base + d)
    | none => acc

/-- Whether the characters start with a digit of the base. -/
def startsWithDigit (base : Nat) : List Char → Bool
  | [] => false
  | c :: _ => (digitValue base c).isSome

/-- The optional sign read by `strtol`: whether it is a minus, and the characters after it. -/
def readSign : List Char → Bool × List Char
  | '-' :: cs => (true, cs)
  | '+' :: cs => (false, cs)
  | cs => (false, cs)

/-- The library call `std::stoi(str)`: white space, an optional sign and decimal digits; it
throws `std::invalid_argument` when there is no digit and `std::out_of_range` when the value
does not fit an `int`. -/
def stoi (str : List Char) : Except Exn Int :=
  let afterSpace := str.dropWhile isspace
  let (negative, digits) := readSign afterSpace
  if !startsWithDigit 10 digits then .error (.invalid_argument "stoi")
  else
    let magnitude := readDigits 10 digits 0
    let value : Int := if negative then - (magnitude : Int) else (magnitude : Int)
    if value < -2147483648 ∨ value > 2147483647 then .error (.out_of_range "stoi")
    else .ok value

/-- The optional prefix `0x` or `0X` that `strtoul` skips in base 16 when a hexadecimal digit
follows it. -/
def skipHexPrefix : List Char → List Char
  | '0' :: x :: cs =>
    if (x == 'x' || x == 'X') && startsWithDigit 16 cs then cs else '0' :: x :: cs
  | cs => cs

/-- The library call `std::stoul(str, nullptr, 16)`: white space, an optional sign, an
optional prefix and hexadecimal digits; it throws `std::invalid_argument` when there is no
digit and `std::out_of_range` when the value does not fit an `unsigned long` (64 bits); a
minus sign negates the value in `unsigned long`. -/
def stoul16 (str : List Char) : Except Exn Nat :=
  let afterSpace := str.dropWhile isspace
  let (negative, rest) := readSign afterSpace
  let digits := skipHexPrefix rest
  if !startsWithDigit 16 digits then .error (.invalid_argument "stoul")
  else
    let magnitude := readDigits 16 digits 0
    if magnitude > 2 ^ 64 - 1 then .error (.out_of_range "stoul")
    else .ok (if negative then (2 ^ 64 - magnitude) % 2 ^ 64 else magnitude)

/-- The tokens read by the loop `while (std::getline(stream, token, delim))` from a stream
with the given characters: a token ends at the delimiter or at the end of the stream, and the
loop stops when nothing is left to read. `acc` holds the characters of the current token in
reverse. -/
def getlineAll (delim : Char) : List Char → List Char → List (List Char)
  | [], [] => []
  | [], c :: acc => [(c :: acc).reverse]
  | c :: cs, acc =>
    if c == delim then acc.reverse :: getlineAll delim cs []
    else getlineAll delim cs (c :: acc)

end StdString

namespace PimSimulator

open StdString

/-- Instruction types of the simulator, `enum class InstructionType` of `pim_simulator.cpp`. -/
inductive InstructionType where
  | PROG
  | EXE_READ
  | EXE_WRITE
  | EXE_COMPUTE
  | END
  | UNKNOWN
  deriving DecidableEq, Repr

/-- Instruction representation of the simulator, `struct Instruction` of
`pim_simulator.cpp`. -/
structure Instruction where
  type : InstructionType
  params : String
  cycles : Int
  deriving DecidableEq, Repr

/-- The body of the loop of `parseAssembly` on one line of the file: `none` when the line is
skipped, and otherwise the instruction pushed onto the result. -/
def parseAssemblyLine (line : String) : Option Instruction :=
  if line.data.isEmpty || line.data.headD (Char.ofNat 0) == '/'
      || line.data.headD (Char.ofNat 0) == ' ' then
    none
  else if find line.data "PROG".data 0 = 0 then
    some { type := InstructionType.PROG, params := line, cycles := 10 }
  else if find line.data "EXE Read".data 0 = 0 then
    some { type := InstructionType.EXE_READ, params := line, cycles := 2 }
  else if find line.data "EXE Write".data 0 = 0 then
    some { type := InstructionType.EXE_WRITE, params := line, cycles := 2 }
  else if find line.data "EXE CorePtr".data 0 = 0 then
    some { type := InstructionType.EXE_COMPUTE, params := line, cycles := 1 }
  else if find line.data "END".data 0 = 0 then
    some { type := InstructionType.END, params := line, cycles := 1 }
  else
    some { type := InstructionType.UNKNOWN, params := line, cycles := 0 }

/-- Function `parseAssembly`, on the lines of the file (`none` when the file cannot be
opened): the instructions of the lines that are not skipped, in order. -/
def parseAssembly (file : Option (List String)) : List Instruction :=
  match file with
  | none => []
  | some lines => lines.filterMap parseAssemblyLine

end PimSimulator

namespace LutVisualizer

open StdString

/-- What the PROG branch of `visualizeLUTProgramming` extracts from a line and passes to
`programCore`: the core id (`uint8_t`), the core type and the LUT data (bytes). -/
structure ProgLine where
  coreId : Nat
  coreType : String
  lutData : List Nat
  deriving DecidableEq, Repr

/-- The body of the loop over the tokens of the LUT data: white space and the prefix `0x`
are removed, and the rest is read as a hexadecimal number kept in a `uint8_t`. -/
def parseHexToken (token : List Char) : Except Exn Nat := do
  let hex ← erase token 0 (find_first_not_of [' ', Char.ofNat 9] token 0)
  let hex ← erase hex ((find_last_not_of [' ', Char.ofNat 9] hex 0 npos + 1) % 2 ^ 64) npos
  let front ← substr hex 0 2
  let hex ← if front = "0x".data then substr hex 2 npos else pure hex
  let value ← stoul16 hex
  pure (value % 2 ^ 8)

/-- The loop `while (std::getline(ss, hex, ','))` on the tokens it reads: the bytes pushed
onto `lutData`; an exception thrown on a token ends the loop. -/
def readLutData : List (List Char) → Except Exn (List Nat)
  | [] => .ok []
  | token :: rest =>
    match parseHexToken token with
    | .error e => .error e
    | .ok byte =>
      match readLutData rest with
      | .error e => .error e
      | .ok bytes => .ok (byte :: bytes)

/-- The body of the loop of `visualizeLUTProgramming` on one line of the assembly file:
`none` when the line is skipped or is not a PROG line, and otherwise the arguments passed to
`programCore`. The positions are `size_t` values, with sums and differences modulo 2^64. -/
def parseProgLine (line : String) : Except Exn (Option ProgLine) :=
  if line.data.isEmpty || line.data.headD (Char.ofNat 0) == '/'
      || line.data.headD (Char.ofNat 0) == Char.ofNat 10 then
    .ok none
  else if find line.data "PROG Core".data 0 = npos then
    .ok none
  else do
    -- Extract core ID
    let coreIdPos := (find line.data "Core".data 0 + 4) % 2 ^ 64
    let coreIdEnd := find line.data " ".data coreIdPos
    let coreId ←
      if coreIdPos ≠ npos ∧ coreIdEnd ≠ npos then do
        let digits ← substr line.data coreIdPos ((coreIdEnd + 2 ^ 64 - coreIdPos) % 2 ^ 64)
        let value ← stoi digits
        pure (value % 2 ^ 8).toNat
      else pure 0
    -- Extract core type (operation)
    let typePos := (coreIdEnd + 1) % 2 ^ 64
    let typeEnd := find line.data " ".data typePos
    let coreType ←
      if typePos ≠ npos ∧ typeEnd ≠ npos then
        substr line.data typePos ((typeEnd + 2 ^ 64 - typePos) % 2 ^ 64)
      else pure []
    -- Extract LUT data
    let dataStart := find line.data "[".data 0
    let dataEnd := find line.data "]".data 0
    let lutData ←
      if dataStart ≠ npos ∧ dataEnd ≠ npos then do
        let dataStr ← substr line.data ((dataStart + 1) % 2 ^ 64)
          ((dataEnd + 2 ^ 64 - dataStart + 2 ^ 64 - 1) % 2 ^ 64)
        readLutData (getlineAll ',' dataStr [])
      else pure []
    pure (some { coreId := coreId, coreType := String.mk coreType, lutData := lutData })

end LutVisualizer

namespace CpuBenchmark

/-- The value of an `int` expression whose mathematical result is `x`: the result reduced to
32-bit two's complement. (The language leaves signed overflow undefined; the usual targets
wrap.) -/
def wrapInt (x : Int) : Int :=
  (x + 2147483648) % 4294967296 - 2147483648

/-- Conversion of an `int` to `size_t` (64 bits). -/
def toSizeT (x : Int) : Nat :=
  (x % 18446744073709551616).toNat

/-- The class `Matrix` of `cpu_benchmark.cpp`: `rows_`, `cols_` and the elements `data_` in
row-major order. -/
structure Matrix where
  rows_ : Int
  cols_ : Int
  data_ : List Int
  deriving DecidableEq, Repr

/-- The largest size of a `std::vector<int>` (`max_size()` with 64-bit pointers and 4-byte
elements). -/
def vectorMaxSize : Nat := 2305843009213693951

/-- The constructor `Matrix(int rows, int cols)`: `data_(rows * cols, 0)` converts the `int`
product to `size_t` and throws `std::length_error` above `max_size()`. Failure of the
allocation itself is not modelled. -/
def Matrix.new (rows cols : Int) : Except Exn Matrix :=
  let count := toSizeT (wrapInt (rows * cols))
  if count > vectorMaxSize then
    .error (.length_error "cannot create std::vector larger than max_size()")
  else
    .ok { rows_ := rows, cols_ := cols, data_ := List.replicate count 0 }

/-- Member `rows()`. -/
def Matrix.rows (m : Matrix) : Int := m.rows_

/-- Member `cols()`. -/
def Matrix.cols (m : Matrix) : Int := m.cols_

/-- The index `row * cols_ + col` of `operator()`, an `int` converted to `size_t`. -/
def Matrix.index (m : Matrix) (row col : Int) : Nat :=
  toSizeT (wrapInt (wrapInt (row * m.cols_) + col))

/-- Member `operator()(row, col) const`, read: `data_[row * cols_ + col]`; an index past the
end is reported as `Exn.out_of_bounds`. -/
def Matrix.get (m : Matrix) (row col : Int) : Except Exn Int :=
  match m.data_[m.index row col]? with
  | some value => .ok value
  | none => .error .out_of_bounds

/-- Member `operator()(row, col)`, written: `data_[row * cols_ + col] = value`. -/
def Matrix.set (m : Matrix) (row col : Int) (value : Int) : Except Exn Matrix :=
  if m.index row col < m.data_.length then
    .ok { m with data_ := m.data_.set (m.index row col) value }
  else
    .error .out_of_bounds

/-- The loop `for (int k = ...; k < A.cols(); ++k) sum += A(i, k) * B(k, j);` with `n`
iterations left, the counter at `k` and the accumulator at `sum`. -/
def sumLoop (A B : Matrix) (i j : Int) : Nat → Int → Int → Except Exn Int
  | 0, _, sum => .ok sum
  | n + 1, k, sum =>
    match A.get i k with
    | .error e => .error e
    | .ok a =>
      match B.get k j with
      | .error e => .error e
      | .ok b => sumLoop A B i j n (wrapInt (k + 1)) (wrapInt (sum + wrapInt (a * b)))

/-- The loop `for (int j = ...; j < B.cols(); ++j)` with `n` iterations left and the counter
at `j`: each iteration computes a sum and stores it in `C(i, j)`. -/
def colLoop (A B : Matrix) (i : Int) : Nat → Int → Matrix → Except Exn Matrix
  | 0, _, C => .ok C
  | n + 1, j, C =>
    match sumLoop A B i j A.cols.toNat 0 0 with
    | .error e => .error e
    | .ok sum =>
      match C.set i j sum with
      | .error e => .error e
      | .ok C1 => colLoop A B i n (wrapInt (j + 1)) C1

/-- The loop `for (int i = ...; i < A.rows(); ++i)` with `n` iterations left and the counter
at `i`. -/
def rowLoop (A B : Matrix) : Nat → Int → Matrix → Except Exn Matrix
  | 0, _, C => .ok C
  | n + 1, i, C =>
    match colLoop A B i B.cols.toNat 0 C with
    | .error e => .error e
    | .ok C1 => rowLoop A B n (wrapInt (i + 1)) C1

/-- Function `multiply_cpu` of `cpu_benchmark.cpp`. A loop `for (int x = 0; x < bound; ++x)`
runs `bound` times when `bound` is positive and not at all otherwise. -/
def multiply_cpu (A B : Matrix) : Except Exn Matrix :=
  if A.cols ≠ B.rows then
    .error (.invalid_argument "Matrix dimensions don't match for multiplication")
  else
    match Matrix.new A.rows B.cols with
    | .error e => .error e
    | .ok C => rowLoop A B A.rows.toNat 0 C

/-- The element in row `i` and column `k` of a matrix, in the row-major order of `data_`
(0 past the end). -/
def Matrix.entry (m : Matrix) (i k : Nat) : Int :=
  m.data_.getD (i * m.cols_.toNat + k) 0

/-- A matrix as the constructor builds it from dimensions that are not negative and whose
product fits an `int`, possibly with elements written through `operator()`. -/
def Matrix.WellFormed (m : Matrix) : Prop :=
  0 ≤ m.rows_ ∧ m.rows_ ≤ 2147483647 ∧ 0 ≤ m.cols_ ∧ m.cols_ ≤ 2147483647
  ∧ m.rows_ * m.cols_ ≤ 2147483647 ∧ m.data_.length = (m.rows_ * m.cols_).toNat

/-- The sum over k below `m` of A(i, k) * B(k, j), on the integers. -/
def dotProduct (A B : Matrix) (i j : Nat) (m : Nat) : Int :=
  ((List.range m).map (fun k => A.entry i k * B.entry k j)).sum

end CpuBenchmark

namespace PIM_ISA

/-- Or-ing a value below `2 ^ i` into a multiple of `2 ^ i` adds it. -/
theorem or_eq_add_of_dvd_of_lt (i a b : Nat) (ha : 2 ^ i ∣ a) (hb : b < 2 ^ i) :
    a ||| b = a + b := by
  obtain ⟨c, rfl⟩ := ha
  exact (Nat.mul_add_lt_is_or hb c).symm

/-- The five or-steps of `toBinary` on in-range fields, as a sum of the shifted fields. -/
theorem pack_eq_sum (t p r w a : Nat) (ht : t ≤ 3) (hp : p ≤ 63) (hr : r ≤ 1) (hw : w ≤ 1)
    (ha : a ≤ 511) :
    (((((0 ||| (t <<< 17)) % 2 ^ 32 ||| (p <<< 11)) % 2 ^ 32 ||| (r <<< 10)) % 2 ^ 32
        ||| (w <<< 9)) % 2 ^ 32 ||| a) % 2 ^ 32
      = t * 131072 + p * 2048 + r * 1024 + w * 512 + a := by
  have s1 : (0 : Nat) ||| (t <<< 17) = t * 131072 := by
    rw [Nat.zero_or, Nat.shiftLeft_eq]
  have s2 : t * 131072 ||| (p <<< 11) = t * 131072 + p * 2048 := by
    rw [Nat.shiftLeft_eq]
    exact or_eq_add_of_dvd_of_lt 17 _ _ ⟨t, by omega⟩ (by omega)
  have s3 : (t * 131072 + p * 2048) ||| (r <<< 10) = t * 131072 + p * 2048 + r * 1024 := by
    rw [Nat.shiftLeft_eq]
    exact or_eq_add_of_dvd_of_lt 11 _ _ ⟨t * 64 + p, by omega⟩ (by omega)
  have s4 : (t * 131072 + p * 2048 + r * 1024) ||| (w <<< 9)
      = t * 131072 + p * 2048 + r * 1024 + w * 512 := by
    rw [Nat.shiftLeft_eq]
    exact or_eq_add_of_dvd_of_lt 10 _ _ ⟨t * 128 + p * 2 + r, by omega⟩ (by omega)
  have s5 : (t * 131072 + p * 2048 + r * 1024 + w * 512) ||| a
      = t * 131072 + p * 2048 + r * 1024 + w * 512 + a :=
    or_eq_add_of_dvd_of_lt 9 _ _ ⟨t * 256 + p * 4 + r * 2 + w, by omega⟩ (by omega)
  have m1 : t * 131072 % 2 ^ 32 = t * 131072 := Nat.mod_eq_of_lt (by omega)
  have m2 : (t * 131072 + p * 2048) % 2 ^ 32 = t * 131072 + p * 2048 :=
    Nat.mod_eq_of_lt (by omega)
  have m3 : (t * 131072 + p * 2048 + r * 1024) % 2 ^ 32 = t * 131072 + p * 2048 + r * 1024 :=
    Nat.mod_eq_of_lt (by omega)
  have m4 : (t * 131072 + p * 2048 + r * 1024 + w * 512) % 2 ^ 32
      = t * 131072 + p * 2048 + r * 1024 + w * 512 := Nat.mod_eq_of_lt (by omega)
  have m5 : (t * 131072 + p * 2048 + r * 1024 + w * 512 + a) % 2 ^ 32
      = t * 131072 + p * 2048 + r * 1024 + w * 512 + a := Nat.mod_eq_of_lt (by omega)
  rw [s1, m1, s2, m2, s3, m3, s4, m4, s5, m5]

/-- Masking with `0x3F` keeps a value that fits in six bits. -/
theorem and_0x3F_of_le (p : Nat) (hp : p ≤ 63) : p &&& 0x3F = p := by
  have h := Nat.and_pow_two_sub_one_eq_mod p 6
  have e : (2 : Nat) ^ 6 - 1 = 0x3F := by decide
  rw [e] at h
  rw [h]
  exact Nat.mod_eq_of_lt (by omega)

/-- Masking with `0x1FF` keeps a value that fits in nine bits. -/
theorem and_0x1FF_of_le (a : Nat) (ha : a ≤ 511) : a &&& 0x1FF = a := by
  have h := Nat.and_pow_two_sub_one_eq_mod a 9
  have e : (2 : Nat) ^ 9 - 1 = 0x1FF := by decide
  rw [e] at h
  rw [h]
  exact Nat.mod_eq_of_lt (by omega)

/-- The flag expression of `toBinary` is the numeric value of the flag. -/
theorem ite_one_zero_eq_toNat (b : Bool) : (if b then 1 else 0 : Nat) = b.toNat := by
  cases b <;> rfl

/-- The word of an EXE instruction with in-range fields, as a sum of its shifted fields. -/
theorem toBinary_mkExe (ptr rowAddress : Nat) (read write : Bool)
    (hp : ptr ≤ 63) (ha : rowAddress ≤ 511) :
    (Instruction.mkExeEnd InstructionType.EXE ptr read write rowAddress).toBinary
      = 131072 + ptr * 2048 + read.toNat * 1024 + write.toNat * 512 + rowAddress := by
  have h := pack_eq_sum 1 ptr read.toNat write.toNat rowAddress (by omega) hp
    (Bool.toNat_le read) (Bool.toNat_le write) ha
  have e0 : (1 : Nat) &&& 0x3 = 1 := by decide
  simp only [Instruction.toBinary, Instruction.mkExeEnd, InstructionType.toNat, if_true,
    and_0x3F_of_le ptr hp, and_0x1FF_of_le rowAddress ha, e0, ite_one_zero_eq_toNat]
  rw [h]

/-- Reading the fields back from a word that is the sum of in-range shifted fields. -/
theorem fields_of_sum (p r w a : Nat) (hp : p ≤ 63) (hr : r ≤ 1) (hw : w ≤ 1) (ha : a ≤ 511) :
    ((131072 + p * 2048 + r * 1024 + w * 512 + a) >>> 17) &&& 3 = 1
    ∧ ((131072 + p * 2048 + r * 1024 + w * 512 + a) >>> 11) &&& 0x3F = p
    ∧ (131072 + p * 2048 + r * 1024 + w * 512 + a) / 2 ^ 10 % 2 = r
    ∧ (131072 + p * 2048 + r * 1024 + w * 512 + a) / 2 ^ 9 % 2 = w
    ∧ (131072 + p * 2048 + r * 1024 + w * 512 + a) &&& 0x1FF = a := by
  have e2 : (3 : Nat) = 2 ^ 2 - 1 := by decide
  have e6 : (0x3F : Nat) = 2 ^ 6 - 1 := by decide
  have e9 : (0x1FF : Nat) = 2 ^ 9 - 1 := by decide
  rw [e2, e6, e9]
  simp only [Nat.and_pow_two_sub_one_eq_mod, Nat.shiftRight_eq_div_pow]
  refine ⟨?_, ?_, ?_, ?_, ?_⟩ <;> omega

/-- Bit `n` of a word as a flag. -/
theorem testBit_eq_of_div_mod (x n : Nat) (b : Bool) (h : x / 2 ^ n % 2 = b.toNat) :
    x.testBit n = b := by
  rw [Nat.testBit_to_div_mod, h]
  cases b <;> simp

/-- C1. Encode round trip: for every ptr in [0,63], rowAddress in [0,511], read and write,
`createMemoryInstruction` returns an instruction whose word `w = toBinary` gives the original
fields back: `(w >> 17) & 3 = 1` (EXE), `(w >> 11) & 0x3F = ptr`, bit 10 of `w` is `read`,
bit 9 is `write`, `w & 0x1FF = rowAddress`; and any valid EXE instruction with the same word
was built from the same four fields (`toBinary` is injective on valid EXE instructions). -/
theorem toBinary_createMemoryInstruction_round_trip (ptr rowAddress : Nat) (read write : Bool)
    (hp : ptr ≤ 63) (ha : rowAddress ≤ 511) :
    ∃ i, createMemoryInstruction ptr read write rowAddress = .ok i
      ∧ (i.toBinary >>> 17) &&& 3 = 1
      ∧ (i.toBinary >>> 11) &&& 0x3F = ptr
      ∧ i.toBinary.testBit 10 = read
      ∧ i.toBinary.testBit 9 = write
      ∧ i.toBinary &&& 0x1FF = rowAddress
      ∧ ∀ (ptr2 rowAddress2 : Nat) (read2 write2 : Bool) (i2 : Instruction),
          ptr2 ≤ 63 → rowAddress2 ≤ 511 →
          createMemoryInstruction ptr2 read2 write2 rowAddress2 = .ok i2 →
          i2.toBinary = i.toBinary →
          ptr2 = ptr ∧ read2 = read ∧ write2 = write ∧ rowAddress2 = rowAddress ∧ i2 = i := by
  refine ⟨Instruction.mkExeEnd InstructionType.EXE ptr read write rowAddress, ?_, ?_⟩
  · simp only [createMemoryInstruction]
    rw [if_neg (by omega), if_neg (by omega)]
  · have hw := toBinary_mkExe ptr rowAddress read write hp ha
    obtain ⟨f1, f2, f3, f4, f5⟩ :=
      fields_of_sum ptr read.toNat write.toNat rowAddress hp (Bool.toNat_le read)
        (Bool.toNat_le write) ha
    rw [hw]
    refine ⟨f1, f2, testBit_eq_of_div_mod _ _ _ f3, testBit_eq_of_div_mod _ _ _ f4, f5, ?_⟩
    intro ptr2 rowAddress2 read2 write2 i2 hp2 ha2 hc hEq
    simp only [createMemoryInstruction] at hc
    rw [if_neg (by omega), if_neg (by omega)] at hc
    have hi2 : i2 = Instruction.mkExeEnd InstructionType.EXE ptr2 read2 write2 rowAddress2 := by
      cases hc; rfl
    rw [hi2, toBinary_mkExe ptr2 rowAddress2 read2 write2 hp2 ha2] at hEq
    have hr := Bool.toNat_le read
    have hw1 := Bool.toNat_le write
    have hr2 := Bool.toNat_le read2
    have hw2 := Bool.toNat_le write2
    have eP : ptr2 = ptr := by omega
    have eR : read2.toNat = read.toNat := by omega
    have eW : write2.toNat = write.toNat := by omega
    have eA : rowAddress2 = rowAddress := by omega
    have eR2 : read2 = read := by
      cases read <;> cases read2 <;> simp_all
    have eW2 : write2 = write := by
      cases write <;> cases write2 <;> simp_all
    subst eP eA eR2 eW2
    exact ⟨rfl, rfl, rfl, rfl, hi2⟩

/-- The round trip at ptr = 63, rowAddress = 511 with both flags set. -/
theorem toBinary_createMemoryInstruction_round_trip_witness :
    ∃ i, createMemoryInstruction 63 true true 511 = .ok i
      ∧ (i.toBinary >>> 17) &&& 3 = 1
      ∧ (i.toBinary >>> 11) &&& 0x3F = 63
      ∧ i.toBinary.testBit 10 = true
      ∧ i.toBinary.testBit 9 = true
      ∧ i.toBinary &&& 0x1FF = 511
      ∧ ∀ (ptr2 rowAddress2 : Nat) (read2 write2 : Bool) (i2 : Instruction),
          ptr2 ≤ 63 → rowAddress2 ≤ 511 →
          createMemoryInstruction ptr2 read2 write2 rowAddress2 = .ok i2 →
          i2.toBinary = i.toBinary →
          ptr2 = 63 ∧ read2 = true ∧ write2 = true ∧ rowAddress2 = 511 ∧ i2 = i :=
  toBinary_createMemoryInstruction_round_trip 63 511 true true (by decide) (by decide)

/-- C2. `createMemoryInstruction(ptr, read, write, rowAddress)` raises `out_of_range` if and
only if `ptr > 63` or `rowAddress > 511`; `ptr = 64` fails, `rowAddress = 512` fails, and
`ptr = 63` with `rowAddress = 511` succeeds; when it succeeds the result is an EXE instruction
whose ptr, read, write and rowAddress are exactly the arguments. -/
theorem createMemoryInstruction_raises_iff (ptr rowAddress : Nat) (read write : Bool) :
    ((∃ msg, createMemoryInstruction ptr read write rowAddress = .error (.out_of_range msg))
        ↔ (ptr > 63 ∨ rowAddress > 511))
    ∧ ((∃ e, createMemoryInstruction ptr read write rowAddress = .error e)
        ↔ (ptr > 63 ∨ rowAddress > 511))
    ∧ (∀ i, createMemoryInstruction ptr read write rowAddress = .ok i →
        i.type = InstructionType.EXE ∧ i.readPtr = ptr ∧ i.corePtr = ptr ∧ i.read = read
          ∧ i.write = write ∧ i.rowAddress = rowAddress)
    ∧ (¬ (ptr > 63 ∨ rowAddress > 511) →
        ∃ i, createMemoryInstruction ptr read write rowAddress = .ok i)
    ∧ (∃ e, createMemoryInstruction 64 read write rowAddress = .error e)
    ∧ (∃ e, createMemoryInstruction ptr read write 512 = .error e)
    ∧ (∃ i, createMemoryInstruction 63 read write 511 = .ok i) := by
  refine ⟨?_, ?_, ?_, ?_, ?_, ?_, ?_⟩
  · unfold createMemoryInstruction
    constructor
    · rintro ⟨msg, h⟩
      by_contra hc
      rw [if_neg (by omega), if_neg (by omega)] at h
      cases h
    · intro h
      by_cases h1 : ptr > 63
      · exact ⟨_, by rw [if_pos h1]⟩
      · have h2 : rowAddress > 511 := by omega
        exact ⟨_, by rw [if_neg h1, if_pos h2]⟩
  · unfold createMemoryInstruction
    constructor
    · rintro ⟨e, h⟩
      by_contra hc
      rw [if_neg (by omega), if_neg (by omega)] at h
      cases h
    · intro h
      by_cases h1 : ptr > 63
      · exact ⟨_, by rw [if_pos h1]⟩
      · have h2 : rowAddress > 511 := by omega
        exact ⟨_, by rw [if_neg h1, if_pos h2]⟩
  · intro i h
    unfold createMemoryInstruction at h
    by_cases h1 : ptr > 63
    · rw [if_pos h1] at h; cases h
    · by_cases h2 : rowAddress > 511
      · rw [if_neg h1, if_pos h2] at h; cases h
      · rw [if_neg h1, if_neg h2] at h
        cases h
        simp [Instruction.mkExeEnd, Instruction.readPtr]
  · intro h
    unfold createMemoryInstruction
    exact ⟨_, by rw [if_neg (by omega), if_neg (by omega)]⟩
  · exact ⟨_, by unfold createMemoryInstruction; rw [if_pos (by decide)]⟩
  · unfold createMemoryInstruction
    by_cases h1 : ptr > 63
    · exact ⟨_, by rw [if_pos h1]⟩
    · exact ⟨_, by rw [if_neg h1, if_pos (by decide)]⟩
  · exact ⟨_, by unfold createMemoryInstruction; rw [if_neg (by decide), if_neg (by decide)]⟩

end PIM_ISA

namespace MemoryMap

/-- After an assignment the key is bound to the assigned value. -/
theorem lookup_mapAssign_self (l : List (String × (Nat × MatrixDimensions))) (key : String)
    (value : Nat × MatrixDimensions) : (mapAssign l key value).lookup key = some value := by
  simp [mapAssign, List.lookup]

/-- Dropping the pairs of one key does not change what another key is bound to. -/
theorem lookup_filter_ne (l : List (String × (Nat × MatrixDimensions))) (key other : String)
    (h : other ≠ key) :
    (l.filter (fun kv => !(kv.1 == key))).lookup other = l.lookup other := by
  induction l with
  | nil => rfl
  | cons kv rest ih =>
    obtain ⟨k, v⟩ := kv
    by_cases hk : k = key
    · subst hk
      have h1 : (other == k) = false := by simpa using h
      simp [List.filter, List.lookup, h1, ih]
    · have h2 : (k == key) = false := by simpa using hk
      simp only [List.filter, h2, Bool.not_false, List.lookup]
      rw [ih]

/-- An assignment leaves every other key as it was. -/
theorem lookup_mapAssign_ne (l : List (String × (Nat × MatrixDimensions))) (key other : String)
    (value : Nat × MatrixDimensions) (h : other ≠ key) :
    (mapAssign l key value).lookup other = l.lookup other := by
  have h1 : (other == key) = false := by simpa using h
  simp only [mapAssign, List.lookup, h1]
  exact lookup_filter_ne l key other h

/-- The first guard of `mapMatrix`: the name is already mapped. -/
theorem mapMatrix_of_mapped (m : MemoryMapper) (name : String) (dims : MatrixDimensions)
    (h : m.isMatrixMapped name = true) :
    m.mapMatrix name dims
      = (.error (.runtime_error ("Matrix '" ++ name ++ "' is already mapped")), m) := by
  simp [MemoryMapper.mapMatrix, h]

/-- The second guard of `mapMatrix`: the matrix does not fit. -/
theorem mapMatrix_of_full (m : MemoryMapper) (name : String) (dims : MatrixDimensions)
    (h : m.isMatrixMapped name = false)
    (hfull : m.nextRowAddress_ + calculateMatrixSize dims > 512) :
    m.mapMatrix name dims
      = (.error (.runtime_error ("Not enough memory space to map matrix '" ++ name ++ "'")),
          m) := by
  simp [MemoryMapper.mapMatrix, h, hfull]

/-- The successful path of `mapMatrix`. -/
theorem mapMatrix_of_fits (m : MemoryMapper) (name : String) (dims : MatrixDimensions)
    (h : m.isMatrixMapped name = false)
    (hfits : m.nextRowAddress_ + calculateMatrixSize dims ≤ 512) :
    m.mapMatrix name dims
      = (.ok m.nextRowAddress_,
          { matrixMap_ := mapAssign m.matrixMap_ name (m.nextRowAddress_, dims)
            nextRowAddress_ := m.nextRowAddress_ + calculateMatrixSize dims }) := by
  have hn : ¬ (m.nextRowAddress_ + calculateMatrixSize dims > 512) := by omega
  have hmod : (m.nextRowAddress_ + calculateMatrixSize dims) % 2 ^ 16
      = m.nextRowAddress_ + calculateMatrixSize dims := Nat.mod_eq_of_lt (by omega)
  simp only [MemoryMapper.mapMatrix, h, hn, hmod]
  simp

/-- C4. `mapMatrix(name, dims)` fails if and only if `name` is already mapped (AlreadyMapped)
or `cursor + calculateMatrixSize(dims) > 512` (OutOfSpace); when it fails the mapper state is
unchanged; when it succeeds it returns the old cursor, binds `name` to (old cursor, dims),
leaves every other binding as it was, and the new cursor is
old cursor + `calculateMatrixSize(dims)`. -/
theorem mapMatrix_fails_iff (m : MemoryMapper) (name : String) (dims : MatrixDimensions) :
    (((∃ e, (m.mapMatrix name dims).1 = .error e)
        ↔ (m.isMatrixMapped name = true
            ∨ m.nextRowAddress_ + calculateMatrixSize dims > 512))
    ∧ (m.isMatrixMapped name = true → (m.mapMatrix name dims).1
        = .error (.runtime_error ("Matrix '" ++ name ++ "' is already mapped")))
    ∧ (m.isMatrixMapped name = false → m.nextRowAddress_ + calculateMatrixSize dims > 512 →
        (m.mapMatrix name dims).1
          = .error (.runtime_error ("Not enough memory space to map matrix '" ++ name ++ "'")))
    ∧ ((∃ e, (m.mapMatrix name dims).1 = .error e) → (m.mapMatrix name dims).2 = m)
    ∧ (∀ a, (m.mapMatrix name dims).1 = .ok a →
        a = m.nextRowAddress_
        ∧ (m.mapMatrix name dims).2.matrixMap_.lookup name = some (m.nextRowAddress_, dims)
        ∧ (m.mapMatrix name dims).2.isMatrixMapped name = true
        ∧ (m.mapMatrix name dims).2.nextRowAddress_
            = m.nextRowAddress_ + calculateMatrixSize dims
        ∧ ∀ other, other ≠ name →
            (m.mapMatrix name dims).2.matrixMap_.lookup other = m.matrixMap_.lookup other)) := by
  by_cases hm : m.isMatrixMapped name = true
  · rw [mapMatrix_of_mapped m name dims hm]
    refine ⟨⟨fun _ => Or.inl hm, fun _ => ⟨_, rfl⟩⟩, fun _ => rfl, ?_, fun _ => rfl, ?_⟩
    · intro hf; rw [hf] at hm; cases hm
    · intro a ha; cases ha
  · have hm2 : m.isMatrixMapped name = false := by simpa using hm
    by_cases hfull : m.nextRowAddress_ + calculateMatrixSize dims > 512
    · rw [mapMatrix_of_full m name dims hm2 hfull]
      refine ⟨⟨fun _ => Or.inr hfull, fun _ => ⟨_, rfl⟩⟩, fun h => absurd h hm, fun _ _ => rfl,
        fun _ => rfl, ?_⟩
      intro a ha; cases ha
    · rw [mapMatrix_of_fits m name dims hm2 (by omega)]
      refine ⟨⟨?_, ?_⟩, fun h => absurd h hm, fun _ h => absurd h hfull, ?_, ?_⟩
      · rintro ⟨e, he⟩; cases he
      · rintro (h | h)
        · exact absurd h hm
        · exact absurd h hfull
      · rintro ⟨e, he⟩; cases he
      · intro a ha
        have ha2 : m.nextRowAddress_ = a := by
          simpa using ha
        refine ⟨ha2.symm, lookup_mapAssign_self _ _ _, ?_, rfl, ?_⟩
        · simp [MemoryMapper.isMatrixMapped, lookup_mapAssign_self]
        · intro other ho
          exact lookup_mapAssign_ne _ _ _ _ ho

/-- The cursor after a `mapMatrix` call: advanced by the size when the call succeeded. -/
theorem mapMatrix_cursor (m : MemoryMapper) (name : String) (dims : MatrixDimensions) :
    (m.mapMatrix name dims).2.nextRowAddress_
      = m.nextRowAddress_
        + (if (m.mapMatrix name dims).1.toBool then calculateMatrixSize dims else 0) := by
  by_cases hm : m.isMatrixMapped name = true
  · rw [mapMatrix_of_mapped m name dims hm]; rfl
  · have hm2 : m.isMatrixMapped name = false := by simpa using hm
    by_cases hfull : m.nextRowAddress_ + calculateMatrixSize dims > 512
    · rw [mapMatrix_of_full m name dims hm2 hfull]; rfl
    · rw [mapMatrix_of_fits m name dims hm2 (by omega)]; rfl

/-- A successful `mapMatrix` returns the cursor. -/
theorem mapMatrix_ok_eq_cursor (m : MemoryMapper) (name : String) (dims : MatrixDimensions)
    (a : Nat) (h : (m.mapMatrix name dims).1 = .ok a) : a = m.nextRowAddress_ := by
  by_cases hm : m.isMatrixMapped name = true
  · rw [mapMatrix_of_mapped m name dims hm] at h; cases h
  · have hm2 : m.isMatrixMapped name = false := by simpa using hm
    by_cases hfull : m.nextRowAddress_ + calculateMatrixSize dims > 512
    · rw [mapMatrix_of_full m name dims hm2 hfull] at h; cases h
    · rw [mapMatrix_of_fits m name dims hm2 (by omega)] at h
      have h2 : m.nextRowAddress_ = a := by simpa using h
      exact h2.symm

/-- Unfolding `rowsMappedBefore` over the first call. -/
theorem rowsMappedBefore_cons (c : String × MatrixDimensions)
    (calls : List (String × MatrixDimensions)) (r : Except Exn Nat)
    (outcomes : List (Except Exn Nat)) (k : Nat) :
    rowsMappedBefore (c :: calls) (r :: outcomes) (k + 1)
      = (if r.toBool then calculateMatrixSize c.2 else 0)
        + rowsMappedBefore calls outcomes k := by
  cases hr : r.toBool <;>
    simp [rowsMappedBefore, List.zip, List.take_succ_cons, List.filter, hr]

/-- From any state, the k-th outcome of a run of `mapMatrix` calls, when a success, is the
cursor at the start plus the rows taken by the earlier successes. -/
theorem mapAll_ok_eq (calls : List (String × MatrixDimensions)) :
    ∀ (m : MemoryMapper) (k a : Nat), (m.mapAll calls)[k]? = some (.ok a) →
      a = m.nextRowAddress_ + rowsMappedBefore calls (m.mapAll calls) k := by
  induction calls with
  | nil => intro m k a h; simp [MemoryMapper.mapAll] at h
  | cons c rest ih =>
    obtain ⟨n, d⟩ := c
    intro m k a h
    cases k with
    | zero =>
      simp only [MemoryMapper.mapAll, List.getElem?_cons_zero, Option.some.injEq] at h
      have := mapMatrix_ok_eq_cursor m n d a h
      simp [rowsMappedBefore, this]
    | succ k =>
      simp only [MemoryMapper.mapAll, List.getElem?_cons_succ] at h
      have h2 := ih (m.mapMatrix n d).2 k a h
      simp only [MemoryMapper.mapAll]
      rw [rowsMappedBefore_cons, h2, mapMatrix_cursor]
      dsimp only
      omega

/-- A fresh and a reset mapper are the same state. -/
theorem reset_eq_new (m0 : MemoryMapper) : m0.reset = MemoryMapper.new := rfl

/-- Nothing is mapped in a fresh mapper. -/
theorem isMatrixMapped_new (name : String) : MemoryMapper.new.isMatrixMapped name = false := rfl

/-- C3. Allocation determinism: starting from a fresh or reset mapper, mapping matrices with
pairwise distinct names whose sizes in rows are s1, s2, s3 with s1+s2+s3 <= 512, in that
order, returns the start addresses 0, s1, s1+s2, and a fourth `mapMatrix` whose size exceeds
512 - (s1+s2+s3) fails, with OutOfSpace when its name is a new one; in general the k-th
`mapMatrix` of any sequence, when it succeeds, returns the sum of the sizes of the earlier
successful mappings. -/
theorem mapMatrix_allocation_determinism (m : MemoryMapper)
    (hm : m = MemoryMapper.new ∨ ∃ m0 : MemoryMapper, m = m0.reset) :
    (∀ (n1 n2 n3 n4 : String) (d1 d2 d3 d4 : MatrixDimensions),
        n1 ≠ n2 → n1 ≠ n3 → n2 ≠ n3 →
        calculateMatrixSize d1 + calculateMatrixSize d2 + calculateMatrixSize d3 ≤ 512 →
        calculateMatrixSize d4
          > 512 - (calculateMatrixSize d1 + calculateMatrixSize d2 + calculateMatrixSize d3) →
        ∃ r4, m.mapAll [(n1, d1), (n2, d2), (n3, d3), (n4, d4)]
            = [.ok 0, .ok (calculateMatrixSize d1),
                .ok (calculateMatrixSize d1 + calculateMatrixSize d2), r4]
          ∧ (∃ e, r4 = .error e)
          ∧ (n4 ≠ n1 → n4 ≠ n2 → n4 ≠ n3 → r4 = .error (.runtime_error
              ("Not enough memory space to map matrix '" ++ n4 ++ "'"))))
    ∧ (∀ (calls : List (String × MatrixDimensions)) (k a : Nat),
        (m.mapAll calls)[k]? = some (.ok a) → a = rowsMappedBefore calls (m.mapAll calls) k) := by
  have hnew : m = MemoryMapper.new := by
    rcases hm with h | ⟨m0, h⟩
    · exact h
    · rw [h, reset_eq_new]
  subst hnew
  constructor
  · intro n1 n2 n3 n4 d1 d2 d3 d4 h12 h13 h23 hsum h4
    have e1 := mapMatrix_of_fits MemoryMapper.new n1 d1 (isMatrixMapped_new n1)
      (by simp only [MemoryMapper.new]; omega)
    have hm1 : (MemoryMapper.new.mapMatrix n1 d1).2.isMatrixMapped n2 = false := by
      rw [e1]
      simp [MemoryMapper.isMatrixMapped, lookup_mapAssign_ne _ _ _ _ (Ne.symm h12),
        MemoryMapper.new]
    have e2 := mapMatrix_of_fits (MemoryMapper.new.mapMatrix n1 d1).2 n2 d2 hm1
      (by rw [e1]; simp only [MemoryMapper.new]; omega)
    have hm2 : ((MemoryMapper.new.mapMatrix n1 d1).2.mapMatrix n2 d2).2.isMatrixMapped n3
        = false := by
      rw [e2, e1]
      simp [MemoryMapper.isMatrixMapped, lookup_mapAssign_ne _ _ _ _ (Ne.symm h23),
        lookup_mapAssign_ne _ _ _ _ (Ne.symm h13), MemoryMapper.new]
    have e3 := mapMatrix_of_fits ((MemoryMapper.new.mapMatrix n1 d1).2.mapMatrix n2 d2).2 n3 d3
      hm2 (by rw [e2, e1]; simp only [MemoryMapper.new]; omega)
    have c1 : (MemoryMapper.new.mapMatrix n1 d1).2.nextRowAddress_ = calculateMatrixSize d1 := by
      rw [e1]; simp [MemoryMapper.new]
    have c2 : ((MemoryMapper.new.mapMatrix n1 d1).2.mapMatrix n2 d2).2.nextRowAddress_
        = calculateMatrixSize d1 + calculateMatrixSize d2 := by
      rw [e2, c1]
    have c3 : (((MemoryMapper.new.mapMatrix n1 d1).2.mapMatrix n2 d2).2.mapMatrix n3
        d3).2.nextRowAddress_
        = calculateMatrixSize d1 + calculateMatrixSize d2 + calculateMatrixSize d3 := by
      rw [e3, c2]
    have r1 : (MemoryMapper.new.mapMatrix n1 d1).1 = .ok 0 := by rw [e1]; rfl
    have r2 : ((MemoryMapper.new.mapMatrix n1 d1).2.mapMatrix n2 d2).1
        = .ok (calculateMatrixSize d1) := by rw [e2, c1]
    have r3 : (((MemoryMapper.new.mapMatrix n1 d1).2.mapMatrix n2 d2).2.mapMatrix n3 d3).1
        = .ok (calculateMatrixSize d1 + calculateMatrixSize d2) := by rw [e3, c2]
    refine ⟨((((MemoryMapper.new.mapMatrix n1 d1).2.mapMatrix n2 d2).2.mapMatrix n3
      d3).2.mapMatrix n4 d4).1, by simp only [MemoryMapper.mapAll, r1, r2, r3], ?_, ?_⟩
    · by_cases hmp : (((MemoryMapper.new.mapMatrix n1 d1).2.mapMatrix n2 d2).2.mapMatrix n3
          d3).2.isMatrixMapped n4 = true
      · rw [mapMatrix_of_mapped _ n4 d4 hmp]; exact ⟨_, rfl⟩
      · have hmp2 : (((MemoryMapper.new.mapMatrix n1 d1).2.mapMatrix n2 d2).2.mapMatrix n3
            d3).2.isMatrixMapped n4 = false := by simpa using hmp
        rw [mapMatrix_of_full _ n4 d4 hmp2 (by rw [c3]; omega)]; exact ⟨_, rfl⟩
    · intro h41 h42 h43
      have hmp2 : (((MemoryMapper.new.mapMatrix n1 d1).2.mapMatrix n2 d2).2.mapMatrix n3
          d3).2.isMatrixMapped n4 = false := by
        rw [e3, e2, e1]
        simp [MemoryMapper.isMatrixMapped, lookup_mapAssign_ne _ _ _ _ h41,
          lookup_mapAssign_ne _ _ _ _ h42, lookup_mapAssign_ne _ _ _ _ h43, MemoryMapper.new]
      rw [mapMatrix_of_full _ n4 d4 hmp2 (by rw [c3]; omega)]
  · intro calls k a h
    have := mapAll_ok_eq calls MemoryMapper.new k a h
    simpa [MemoryMapper.new] using this

/-- Allocation determinism on four concrete matrices of 1, 40, 469 and 4 rows. -/
theorem mapMatrix_allocation_determinism_witness :
    ∃ r4, MemoryMapper.new.mapAll
          [("A", ⟨3, 2⟩), ("B", ⟨100, 100⟩), ("C", ⟨300, 400⟩), ("D", ⟨30, 30⟩)]
        = [.ok 0, .ok 1, .ok (1 + 40), r4]
      ∧ (∃ e, r4 = .error e)
      ∧ ("D" ≠ "A" → "D" ≠ "B" → "D" ≠ "C" → r4 = .error (.runtime_error
          ("Not enough memory space to map matrix '" ++ "D" ++ "'"))) :=
  (mapMatrix_allocation_determinism MemoryMapper.new (Or.inl rfl)).1 "A" "B" "C" "D"
    ⟨3, 2⟩ ⟨100, 100⟩ ⟨300, 400⟩ ⟨30, 30⟩ (by decide) (by decide) (by decide) (by decide)
    (by decide)

/-- The size of a matrix is at least one row. -/
theorem calculateMatrixSize_pos (d : MatrixDimensions) : 1 ≤ calculateMatrixSize d := by
  unfold calculateMatrixSize
  exact Nat.le_max_right _ _

/-- The fresh mapper satisfies the allocation invariant. -/
theorem allocated_new : MemoryMapper.new.Allocated := by
  refine ⟨by decide, ?_, ?_⟩
  · intro n s d h; simp [MemoryMapper.new] at h
  · intro n1 n2 s1 s2 d1 d2 _ h; simp [MemoryMapper.new] at h

/-- A `mapMatrix` call keeps the allocation invariant, whether it succeeds or throws. -/
theorem allocated_mapMatrix (m : MemoryMapper) (name : String) (dims : MatrixDimensions)
    (h : m.Allocated) : (m.mapMatrix name dims).2.Allocated := by
  by_cases hm : m.isMatrixMapped name = true
  · rw [mapMatrix_of_mapped m name dims hm]; exact h
  · have hm2 : m.isMatrixMapped name = false := by simpa using hm
    by_cases hfull : m.nextRowAddress_ + calculateMatrixSize dims > 512
    · rw [mapMatrix_of_full m name dims hm2 hfull]; exact h
    · rw [mapMatrix_of_fits m name dims hm2 (by omega)]
      obtain ⟨_, hin, hdis⟩ := h
      have key : ∀ (n : String) (s : Nat) (d : MatrixDimensions),
          (mapAssign m.matrixMap_ name (m.nextRowAddress_, dims)).lookup n = some (s, d) →
          (n = name ∧ s = m.nextRowAddress_ ∧ d = dims)
            ∨ (n ≠ name ∧ m.matrixMap_.lookup n = some (s, d)) := by
        intro n s d hl
        by_cases hn : n = name
        · subst hn
          rw [lookup_mapAssign_self] at hl
          simp only [Option.some.injEq, Prod.mk.injEq] at hl
          exact Or.inl ⟨rfl, hl.1.symm, hl.2.symm⟩
        · rw [lookup_mapAssign_ne _ _ _ _ hn] at hl
          exact Or.inr ⟨hn, hl⟩
      refine ⟨by dsimp only; omega, ?_, ?_⟩
      · intro n s d hl
        dsimp only at hl ⊢
        rcases key n s d hl with ⟨_, hs, hd⟩ | ⟨_, hold⟩
        · subst hs hd; omega
        · have := hin n s d hold; omega
      · intro n1 n2 s1 s2 d1 d2 hne hl1 hl2
        dsimp only at hl1 hl2
        rcases key n1 s1 d1 hl1 with ⟨e1, hs1, hd1⟩ | ⟨_, hold1⟩
        · rcases key n2 s2 d2 hl2 with ⟨e2, _, _⟩ | ⟨_, hold2⟩
          · exact absurd (e1.trans e2.symm) hne
          · have := hin n2 s2 d2 hold2
            right; omega
        · rcases key n2 s2 d2 hl2 with ⟨_, hs2, hd2⟩ | ⟨_, hold2⟩
          · have := hin n1 s1 d1 hold1
            left; omega
          · exact hdis n1 n2 s1 s2 d1 d2 hne hold1 hold2

/-- Every call keeps the allocation invariant. -/
theorem allocated_step (m : MemoryMapper) (c : Call) (h : m.Allocated) :
    (m.step c).Allocated := by
  cases c with
  | mapMatrix name dims => exact allocated_mapMatrix m name dims h
  | reset => exact allocated_new

/-- Every sequence of calls keeps the allocation invariant. -/
theorem allocated_run (calls : List Call) :
    ∀ m : MemoryMapper, m.Allocated → (m.run calls).Allocated := by
  induction calls with
  | nil => intro m h; exact h
  | cons c rest ih =>
    intro m h
    exact ih (m.step c) (allocated_step m c h)

/-- C5. Non-overlap invariant: in every mapper state reachable from construction by any
sequence of `mapMatrix` and `reset` calls, the cursor is at most 512, every mapped matrix has
its range [start, start+size) with size = `calculateMatrixSize(dims)` inside [0, cursor), and
for any two distinct mapped names the two ranges are disjoint (no row belongs to both). -/
theorem reachable_ranges_disjoint (calls : List Call) :
    (MemoryMapper.new.run calls).nextRowAddress_ ≤ 512
    ∧ (∀ (n : String) (s : Nat) (d : MatrixDimensions),
        (MemoryMapper.new.run calls).matrixMap_.lookup n = some (s, d) →
        s + calculateMatrixSize d ≤ (MemoryMapper.new.run calls).nextRowAddress_)
    ∧ (∀ (n1 n2 : String) (s1 s2 : Nat) (d1 d2 : MatrixDimensions), n1 ≠ n2 →
        (MemoryMapper.new.run calls).matrixMap_.lookup n1 = some (s1, d1) →
        (MemoryMapper.new.run calls).matrixMap_.lookup n2 = some (s2, d2) →
        (s1 + calculateMatrixSize d1 ≤ s2 ∨ s2 + calculateMatrixSize d2 ≤ s1)
        ∧ ∀ x, s1 ≤ x → x < s1 + calculateMatrixSize d1 →
            ¬ (s2 ≤ x ∧ x < s2 + calculateMatrixSize d2)) := by
  obtain ⟨hc, hin, hdis⟩ := allocated_run calls MemoryMapper.new allocated_new
  refine ⟨hc, hin, ?_⟩
  intro n1 n2 s1 s2 d1 d2 hne h1 h2
  have := hdis n1 n2 s1 s2 d1 d2 hne h1 h2
  refine ⟨this, ?_⟩
  intro x hx1 hx2
  omega

/-- C6. Size formula, at the input where the code leaves it: for a 65536 x 65536 matrix the
32-bit product `rows * cols` wraps to 0, so `calculateMatrixSize` returns 1 where
max(1, ceil(rows*cols / 256)) on the exact product is 16777216, and `mapMatrix` of that matrix
succeeds on a fresh mapper, taking one row. The formula does hold whenever the exact product
is at most 65535 * 256 (no 32-bit or 16-bit wrap), which covers (3, 2) = 1 and
(100, 100) = 40. -/
theorem calculateMatrixSize_wraps_on_large_product :
    calculateMatrixSize ⟨65536, 65536⟩ = 1
    ∧ specMatrixSize 65536 65536 = 16777216
    ∧ (MemoryMapper.new.mapMatrix "M" ⟨65536, 65536⟩).1 = .ok 0
    ∧ (MemoryMapper.new.mapMatrix "M" ⟨65536, 65536⟩).2.nextRowAddress_ = 1
    ∧ calculateMatrixSize ⟨3, 2⟩ = 1
    ∧ calculateMatrixSize ⟨100, 100⟩ = 40
    ∧ ∀ rows cols : Nat, rows * cols ≤ 65535 * 256 →
        calculateMatrixSize ⟨rows, cols⟩ = specMatrixSize rows cols := by
  refine ⟨by decide, by decide, by decide, by decide, by decide, by decide, ?_⟩
  intro rows cols h
  simp only [calculateMatrixSize, specMatrixSize]
  have h1 : rows * cols % 2 ^ 32 = rows * cols := Nat.mod_eq_of_lt (by omega)
  have h2 : (rows * cols + 255) / 256 % 2 ^ 16 = (rows * cols + 255) / 256 :=
    Nat.mod_eq_of_lt (by omega)
  rw [h1, h2, Nat.max_comm]

/-- C7. Element address, at an input where the code leaves the row-major formula: in a
3 x 100 matrix mapped at start address 0, element (2, 99) has linear index 299 and lies in
physical row 0 + 299 / 256 = 1, but `getElementAddress` returns 0 + (2 * 100) / 256 = 0: the
column does not enter the offset. -/
theorem getElementAddress_ignores_col :
    (MemoryMapper.new.mapMatrix "A" ⟨3, 100⟩).1 = .ok 0
    ∧ (MemoryMapper.new.mapMatrix "A" ⟨3, 100⟩).2.matrixMap_.lookup "A" = some (0, ⟨3, 100⟩)
    ∧ (MemoryMapper.new.mapMatrix "A" ⟨3, 100⟩).2.getElementAddress "A" 2 99 = .ok 0
    ∧ 0 + (2 * 100 + 99) / 256 = 1 := by
  refine ⟨by decide, by decide, by decide, by decide⟩

/-- C8. Row address, at an input where the code leaves the stride formula: in a 3 x 2 matrix
mapped at start address 0, row 2 has address 0 + 2 / max(1, 256 / 2) = 0 by the formula, but
`getRowAddress` returns 2: the divisor is min(256 / cols, 1) = 1. -/
theorem getRowAddress_uses_min :
    (MemoryMapper.new.mapMatrix "A" ⟨3, 2⟩).1 = .ok 0
    ∧ (MemoryMapper.new.mapMatrix "A" ⟨3, 2⟩).2.matrixMap_.lookup "A" = some (0, ⟨3, 2⟩)
    ∧ (MemoryMapper.new.mapMatrix "A" ⟨3, 2⟩).2.getRowAddress "A" 2 = .ok 2
    ∧ 0 + 2 / max 1 (256 / 2) = 0 := by
  refine ⟨by decide, by decide, by decide, by decide⟩

/-- A name with a binding is mapped. -/
theorem isMatrixMapped_of_lookup (m : MemoryMapper) (name : String) (start : Nat)
    (dims : MatrixDimensions) (h : m.matrixMap_.lookup name = some (start, dims)) :
    m.isMatrixMapped name = true := by
  simp [MemoryMapper.isMatrixMapped, h]

/-- The body of `getElementAddress` on a bound name. -/
theorem getElementAddress_of_lookup (m : MemoryMapper) (name : String) (start : Nat)
    (dims : MatrixDimensions) (row col : Nat)
    (h : m.matrixMap_.lookup name = some (start, dims)) :
    m.getElementAddress name row col
      = if row ≥ dims.rows ∨ col ≥ dims.cols then
          .error (.out_of_range "Matrix indices out of range")
        else .ok ((start + (((row * dims.cols) % 2 ^ 32) / 256) % 2 ^ 16) % 2 ^ 16) := by
  simp only [MemoryMapper.getElementAddress, isMatrixMapped_of_lookup m name start dims h, h]
  rfl

/-- The body of `getBankIndex` on a bound name. -/
theorem getBankIndex_of_lookup (m : MemoryMapper) (name : String) (start : Nat)
    (dims : MatrixDimensions) (row col : Nat)
    (h : m.matrixMap_.lookup name = some (start, dims)) :
    m.getBankIndex name row col
      = if row ≥ dims.rows ∨ col ≥ dims.cols then
          .error (.out_of_range "Matrix indices out of range")
        else .ok ((((row + col) % 2 ^ 32) % 4) % 2 ^ 8) := by
  simp only [MemoryMapper.getBankIndex, isMatrixMapped_of_lookup m name start dims h, h]
  rfl

/-- C9. `getElementAddress(name, row, col)` and `getBankIndex(name, row, col)` fail with
NotMapped whenever `name` is unbound, whatever row and col are; when `name` is bound with
dimensions rows x cols they fail, with IndexOutOfRange, if and only if `row >= rows` or
`col >= cols`, and otherwise return a value. -/
theorem getElementAddress_getBankIndex_errors (m : MemoryMapper) (name : String)
    (row col : Nat) :
    (m.isMatrixMapped name = false →
        m.getElementAddress name row col
            = .error (.runtime_error ("Matrix '" ++ name ++ "' is not mapped"))
        ∧ m.getBankIndex name row col
            = .error (.runtime_error ("Matrix '" ++ name ++ "' is not mapped")))
    ∧ (∀ (start : Nat) (dims : MatrixDimensions),
        m.matrixMap_.lookup name = some (start, dims) →
        ((m.getElementAddress name row col
              = .error (.out_of_range "Matrix indices out of range"))
            ↔ (row ≥ dims.rows ∨ col ≥ dims.cols))
        ∧ ((m.getBankIndex name row col
              = .error (.out_of_range "Matrix indices out of range"))
            ↔ (row ≥ dims.rows ∨ col ≥ dims.cols))
        ∧ ((∃ e, m.getElementAddress name row col = .error e)
            ↔ (row ≥ dims.rows ∨ col ≥ dims.cols))
        ∧ ((∃ e, m.getBankIndex name row col = .error e)
            ↔ (row ≥ dims.rows ∨ col ≥ dims.cols))
        ∧ (¬ (row ≥ dims.rows ∨ col ≥ dims.cols) →
            (∃ v, m.getElementAddress name row col = .ok v)
            ∧ (∃ b, m.getBankIndex name row col = .ok b))) := by
  constructor
  · intro h
    simp [MemoryMapper.getElementAddress, MemoryMapper.getBankIndex, h]
  · intro start dims h
    rw [getElementAddress_of_lookup m name start dims row col h,
      getBankIndex_of_lookup m name start dims row col h]
    by_cases hb : row ≥ dims.rows ∨ col ≥ dims.cols
    · rw [if_pos hb, if_pos hb]
      exact ⟨⟨fun _ => hb, fun _ => rfl⟩, ⟨fun _ => hb, fun _ => rfl⟩,
        ⟨fun _ => hb, fun _ => ⟨_, rfl⟩⟩, ⟨fun _ => hb, fun _ => ⟨_, rfl⟩⟩,
        fun hn => absurd hb hn⟩
    · rw [if_neg hb, if_neg hb]
      refine ⟨⟨?_, fun h2 => absurd h2 hb⟩, ⟨?_, fun h2 => absurd h2 hb⟩,
        ⟨?_, fun h2 => absurd h2 hb⟩, ⟨?_, fun h2 => absurd h2 hb⟩,
        fun _ => ⟨⟨_, rfl⟩, ⟨_, rfl⟩⟩⟩
      · intro h2; cases h2
      · intro h2; cases h2
      · rintro ⟨e, h2⟩; cases h2
      · rintro ⟨e, h2⟩; cases h2

/-- C10. Bank formula: for every mapped matrix and every in-range (row, col), `getBankIndex`
returns `(row + col) mod 4` computed over the unbounded naturals (the 32-bit wrap of
`row + col` and the conversion to 8 bits do not change it), so the value is below 4 and is
the same for every mapped matrix on which (row, col) is in range; for (5, 3) it is 0. -/
theorem getBankIndex_eq (m : MemoryMapper) (name : String) (start : Nat)
    (dims : MatrixDimensions) (row col : Nat)
    (h : m.matrixMap_.lookup name = some (start, dims))
    (hr : row < dims.rows) (hc : col < dims.cols) :
    m.getBankIndex name row col = .ok ((row + col) % 4)
    ∧ (row + col) % 4 < 4
    ∧ (∀ (m2 : MemoryMapper) (name2 : String) (start2 : Nat) (dims2 : MatrixDimensions),
        m2.matrixMap_.lookup name2 = some (start2, dims2) →
        row < dims2.rows → col < dims2.cols →
        m2.getBankIndex name2 row col = m.getBankIndex name row col)
    ∧ (row = 5 → col = 3 → m.getBankIndex name row col = .ok 0) := by
  have key : ∀ (m2 : MemoryMapper) (name2 : String) (start2 : Nat) (dims2 : MatrixDimensions),
      m2.matrixMap_.lookup name2 = some (start2, dims2) →
      row < dims2.rows → col < dims2.cols →
      m2.getBankIndex name2 row col = .ok ((row + col) % 4) := by
    intro m2 name2 start2 dims2 h2 hr2 hc2
    rw [getBankIndex_of_lookup m2 name2 start2 dims2 row col h2, if_neg (by omega)]
    have e : (row + col) % 2 ^ 32 % 4 % 2 ^ 8 = (row + col) % 4 := by omega
    rw [e]
  have k0 := key m name start dims h hr hc
  refine ⟨k0, by omega, ?_, ?_⟩
  · intro m2 name2 start2 dims2 h2 hr2 hc2
    rw [k0]
    exact key m2 name2 start2 dims2 h2 hr2 hc2
  · intro h5 h3
    rw [k0, h5, h3]

/-- The bank of element (5, 3) of a 6 x 4 matrix mapped on a fresh mapper. -/
theorem getBankIndex_eq_witness :
    (MemoryMapper.new.mapMatrix "A" ⟨6, 4⟩).2.getBankIndex "A" 5 3 = .ok ((5 + 3) % 4)
    ∧ (5 + 3) % 4 < 4
    ∧ (∀ (m2 : MemoryMapper) (name2 : String) (start2 : Nat) (dims2 : MatrixDimensions),
        m2.matrixMap_.lookup name2 = some (start2, dims2) →
        5 < dims2.rows → 3 < dims2.cols →
        m2.getBankIndex name2 5 3
          = (MemoryMapper.new.mapMatrix "A" ⟨6, 4⟩).2.getBankIndex "A" 5 3)
    ∧ (5 = 5 → 3 = 3 → (MemoryMapper.new.mapMatrix "A" ⟨6, 4⟩).2.getBankIndex "A" 5 3 = .ok 0) :=
  getBankIndex_eq (MemoryMapper.new.mapMatrix "A" ⟨6, 4⟩).2 "A" 0 ⟨6, 4⟩ 5 3 (by decide)
    (by decide) (by decide)

end MemoryMap

namespace PIM_ISA

/-- The word of any instruction: `toBinary` keeps the low six bits of the pointer and the low
nine bits of the row address. -/
theorem toBinary_eq (i : Instruction) :
    i.toBinary = i.type.toNat * 131072 + (i.corePtr % 64) * 2048 + i.read.toNat * 1024
      + i.write.toNat * 512 + i.rowAddress % 512 := by
  have et : i.type.toNat &&& 0x3 = i.type.toNat := by
    cases i.type <;> decide
  have ht : i.type.toNat ≤ 3 := by
    cases i.type <;> decide
  have ep : i.corePtr &&& 0x3F = i.corePtr % 64 := by
    have h := Nat.and_pow_two_sub_one_eq_mod i.corePtr 6
    have e : (2 : Nat) ^ 6 - 1 = 0x3F := by decide
    rw [e] at h
    exact h
  have ea : i.rowAddress &&& 0x1FF = i.rowAddress % 512 := by
    have h := Nat.and_pow_two_sub_one_eq_mod i.rowAddress 9
    have e : (2 : Nat) ^ 9 - 1 = 0x1FF := by decide
    rw [e] at h
    exact h
  have hp : i.corePtr % 64 ≤ 63 := by omega
  have ha : i.rowAddress % 512 ≤ 511 := by omega
  have h := pack_eq_sum i.type.toNat (i.corePtr % 64) i.read.toNat i.write.toNat
    (i.rowAddress % 512) ht hp (Bool.toNat_le i.read) (Bool.toNat_le i.write) ha
  simp only [Instruction.toBinary, et, ep, ea, ite_one_zero_eq_toNat]
  exact h

/-- The opcode value is at most 2. -/
theorem toNat_le_two (t : InstructionType) : t.toNat ≤ 2 := by
  cases t <;> decide

/-- The opcode value determines the opcode. -/
theorem toNat_injective (t u : InstructionType) (h : t.toNat = u.toNat) : t = u := by
  cases t <;> cases u <;> first | rfl | (exact absurd h (by decide))

/-- C12. For every EXE instruction, `toString` returns "EXE Read RowAddress<addr>" when read
and not write, "EXE Write RowAddress<addr>" when write and not read,
"EXE ReadWrite RowAddress<addr>" when both, and "EXE CorePtr<ptr> RowAddress<addr>" when
neither, with <ptr> and <addr> the decimal digits of the field without padding; and
`toString(createEndInstruction())` is "END". -/
theorem toString_exe (i : Instruction) (h : i.type = InstructionType.EXE) :
    (i.read = true → i.write = false →
        i.toString = "EXE Read RowAddress" ++ renderDec i.rowAddress)
    ∧ (i.read = false → i.write = true →
        i.toString = "EXE Write RowAddress" ++ renderDec i.rowAddress)
    ∧ (i.read = true → i.write = true →
        i.toString = "EXE ReadWrite RowAddress" ++ renderDec i.rowAddress)
    ∧ (i.read = false → i.write = false →
        i.toString
          = "EXE CorePtr" ++ renderDec i.corePtr ++ " RowAddress" ++ renderDec i.rowAddress)
    ∧ renderDec i.corePtr = String.mk (Nat.toDigits 10 i.corePtr)
    ∧ renderDec i.rowAddress = String.mk (Nat.toDigits 10 i.rowAddress)
    ∧ createEndInstruction.toString = "END" := by
  refine ⟨?_, ?_, ?_, ?_, rfl, rfl, by decide⟩
  · intro hr hw
    simp only [Instruction.toString, h, hr, hw]
    rw [← String.append_assoc]
    rfl
  · intro hr hw
    simp only [Instruction.toString, h, hr, hw]
    rw [← String.append_assoc]
    rfl
  · intro hr hw
    simp only [Instruction.toString, h, hr, hw]
    rw [← String.append_assoc]
    rfl
  · intro hr hw
    simp only [Instruction.toString, h, hr, hw]
    simp only [Bool.false_and, Bool.not_false, Bool.and_false, Bool.false_eq_true, if_false,
      String.append_assoc]
    rw [← String.append_assoc]
    rfl

/-- The four renderings on concrete EXE instructions. -/
theorem toString_exe_witness :
    ((Instruction.mkExeEnd InstructionType.EXE 2 false false 300).read = false →
      (Instruction.mkExeEnd InstructionType.EXE 2 false false 300).write = false →
      (Instruction.mkExeEnd InstructionType.EXE 2 false false 300).toString
        = "EXE CorePtr" ++ renderDec 2 ++ " RowAddress" ++ renderDec 300)
    ∧ "EXE CorePtr" ++ renderDec 2 ++ " RowAddress" ++ renderDec 300
        = "EXE CorePtr2 RowAddress300"
    ∧ (Instruction.mkExeEnd InstructionType.EXE 0 true false 7).toString
        = "EXE Read RowAddress7"
    ∧ (Instruction.mkExeEnd InstructionType.EXE 0 false true 511).toString
        = "EXE Write RowAddress511"
    ∧ (Instruction.mkExeEnd InstructionType.EXE 0 true true 40).toString
        = "EXE ReadWrite RowAddress40" :=
  ⟨(toString_exe (Instruction.mkExeEnd InstructionType.EXE 2 false false 300) rfl).2.2.2.1,
    by decide, by decide, by decide, by decide⟩

/-- The accumulator loop of `String.intercalate` over the rendered bytes is the loop of
`toString` from a later index on. -/
theorem intercalate_go_eq (l : List Nat) :
    ∀ (acc : String) (i : Nat),
      String.intercalate.go acc ", " (l.map (fun b => "0x" ++ renderHex2 b))
        = acc ++ renderLutConfig (i + 1) l := by
  induction l with
  | nil => intro acc i; simp [String.intercalate.go, renderLutConfig]
  | cons b rest ih =>
    intro acc i
    simp only [List.map, String.intercalate.go, renderLutConfig]
    rw [ih (acc ++ ", " ++ ("0x" ++ renderHex2 b)) (i + 1)]
    simp [String.append_assoc]

/-- The loop of `toString` over a non-empty `lutConfig` joins the rendered bytes with `", "`. -/
theorem renderLutConfig_zero (l : List Nat) :
    renderLutConfig 0 l = ", ".intercalate (l.map (fun b => "0x" ++ renderHex2 b)) := by
  cases l with
  | nil => rfl
  | cons b rest =>
    simp only [List.map, String.intercalate, renderLutConfig]
    rw [intercalate_go_eq rest _ 0]
    simp

set_option maxRecDepth 100000 in
/-- A byte is rendered as exactly two hexadecimal digits. -/
theorem renderHex2_byte : ∀ b : Fin 256,
    renderHex2 b.val = String.mk [Nat.digitChar (b.val / 16), Nat.digitChar (b.val % 16)] := by
  decide

/-- The hexadecimal digits are the lowercase ones. -/
theorem digitChar_lower : ∀ d : Fin 16, Nat.digitChar d.val ∈ "0123456789abcdef".toList := by
  decide

/-- What `createProgInstruction` returns when it returns. -/
theorem createProgInstruction_ok (corePtr : Nat) (op : CoreOpType) (cfg : List Nat)
    (i : Instruction) (h : createProgInstruction corePtr op cfg = .ok i) :
    corePtr ≤ 63 ∧ i = Instruction.mkProg corePtr op cfg := by
  unfold createProgInstruction at h
  by_cases h1 : corePtr > 63
  · rw [if_pos h1] at h; cases h
  · rw [if_neg h1] at h
    cases h
    exact ⟨by omega, rfl⟩

/-- What `createMemoryInstruction` returns when it returns. -/
theorem createMemoryInstruction_ok (ptr rowAddress : Nat) (read write : Bool)
    (i : Instruction) (h : createMemoryInstruction ptr read write rowAddress = .ok i) :
    ptr ≤ 63 ∧ rowAddress ≤ 511
      ∧ i = Instruction.mkExeEnd InstructionType.EXE ptr read write rowAddress := by
  unfold createMemoryInstruction at h
  by_cases h1 : ptr > 63
  · rw [if_pos h1] at h; cases h
  · by_cases h2 : rowAddress > 511
    · rw [if_neg h1, if_pos h2] at h; cases h
    · rw [if_neg h1, if_neg h2] at h
      cases h
      exact ⟨by omega, by omega, rfl⟩

/-- What `createComputeInstruction` returns when it returns. -/
theorem createComputeInstruction_ok (corePtr rowAddress : Nat)
    (i : Instruction) (h : createComputeInstruction corePtr rowAddress = .ok i) :
    corePtr ≤ 63 ∧ rowAddress ≤ 511
      ∧ i = Instruction.mkExeEnd InstructionType.EXE corePtr false false rowAddress := by
  unfold createComputeInstruction at h
  by_cases h1 : corePtr > 63
  · rw [if_pos h1] at h; cases h
  · by_cases h2 : rowAddress > 511
    · rw [if_neg h1, if_pos h2] at h; cases h
    · rw [if_neg h1, if_neg h2] at h
      cases h
      exact ⟨by omega, by omega, rfl⟩

/-- C13. For every PROG instruction made by `createProgInstruction(corePtr, coreOp,
lutConfig)`, `toString` returns "PROG Core<corePtr> <NAME>" (corePtr in decimal, NAME the
enumerator name of coreOp) followed, when lutConfig is non-empty, by " [" + the bytes each as
"0x" plus exactly two lowercase hex digits, joined by ", " + "]"; when lutConfig is empty
nothing follows the name. -/
theorem toString_prog (corePtr : Nat) (op : CoreOpType) (cfg : List Nat) (i : Instruction)
    (h : createProgInstruction corePtr op cfg = .ok i) :
    i.toString
        = "PROG Core" ++ renderDec corePtr ++ " " ++ coreOpName (some op)
          ++ (if cfg = [] then ""
              else " [" ++ ", ".intercalate (cfg.map (fun b => "0x" ++ renderHex2 b)) ++ "]")
    ∧ (cfg = [] → i.toString = "PROG Core" ++ renderDec corePtr ++ " " ++ coreOpName (some op))
    ∧ renderDec corePtr = String.mk (Nat.toDigits 10 corePtr)
    ∧ (∀ b, b < 256 →
        renderHex2 b = String.mk [Nat.digitChar (b / 16), Nat.digitChar (b % 16)]
        ∧ Nat.digitChar (b / 16) ∈ "0123456789abcdef".toList
        ∧ Nat.digitChar (b % 16) ∈ "0123456789abcdef".toList)
    ∧ [coreOpName (some .MULTIPLIER), coreOpName (some .ADDER), coreOpName (some .MAC),
        coreOpName (some .SHIFTER), coreOpName (some .LOGIC_AND), coreOpName (some .LOGIC_OR),
        coreOpName (some .LOGIC_XOR), coreOpName (some .COMPARATOR), coreOpName (some .CUSTOM)]
      = ["MULTIPLIER", "ADDER", "MAC", "SHIFTER", "LOGIC_AND", "LOGIC_OR", "LOGIC_XOR",
          "COMPARATOR", "CUSTOM"] := by
  obtain ⟨_, hi⟩ := createProgInstruction_ok corePtr op cfg i h
  subst hi
  have main : (Instruction.mkProg corePtr op cfg).toString
      = "PROG Core" ++ renderDec corePtr ++ " " ++ coreOpName (some op)
        ++ (if cfg = [] then ""
            else " [" ++ ", ".intercalate (cfg.map (fun b => "0x" ++ renderHex2 b)) ++ "]") := by
    cases cfg with
    | nil => simp [Instruction.toString, Instruction.mkProg]
    | cons b rest =>
      simp only [Instruction.toString, Instruction.mkProg, List.isEmpty_cons, Bool.not_false,
        if_true, renderLutConfig_zero]
      simp
  refine ⟨main, ?_, rfl, ?_, by decide⟩
  · intro hc
    rw [main, if_pos hc, String.append_empty]
  · intro b hb
    exact ⟨renderHex2_byte ⟨b, hb⟩, digitChar_lower ⟨b / 16, by omega⟩,
      digitChar_lower ⟨b % 16, by omega⟩⟩

/-- The rendering of two concrete PROG instructions, with and without configuration bytes. -/
theorem toString_prog_witness :
    (Instruction.mkProg 2 CoreOpType.MAC [0, 171, 5]).toString
        = "PROG Core" ++ renderDec 2 ++ " " ++ coreOpName (some CoreOpType.MAC)
          ++ (if [0, 171, 5] = ([] : List Nat) then ""
              else " [" ++ ", ".intercalate
                (([0, 171, 5] : List Nat).map (fun b => "0x" ++ renderHex2 b)) ++ "]")
    ∧ (Instruction.mkProg 2 CoreOpType.MAC [0, 171, 5]).toString
        = "PROG Core2 MAC [0x00, 0xab, 0x05]"
    ∧ (Instruction.mkProg 63 CoreOpType.ADDER []).toString = "PROG Core63 ADDER" :=
  ⟨(toString_prog 2 CoreOpType.MAC [0, 171, 5] (Instruction.mkProg 2 CoreOpType.MAC [0, 171, 5])
      (by decide)).1, by decide, by decide⟩

/-- C14. `createComputeInstruction(corePtr, rowAddress)` raises if and only if
`corePtr > 63` or `rowAddress > 511`; otherwise it returns an EXE instruction with
read = false, write = false, ptr = corePtr and the given rowAddress, which is what
`createMemoryInstruction(corePtr, false, false, rowAddress)` returns. -/
theorem createComputeInstruction_raises_iff (corePtr rowAddress : Nat) :
    ((∃ e, createComputeInstruction corePtr rowAddress = .error e)
        ↔ (corePtr > 63 ∨ rowAddress > 511))
    ∧ ((∃ msg, createComputeInstruction corePtr rowAddress = .error (.out_of_range msg))
        ↔ (corePtr > 63 ∨ rowAddress > 511))
    ∧ (¬ (corePtr > 63 ∨ rowAddress > 511) →
        ∃ i, createComputeInstruction corePtr rowAddress = .ok i
          ∧ i.type = InstructionType.EXE ∧ i.read = false ∧ i.write = false
          ∧ i.corePtr = corePtr ∧ i.rowAddress = rowAddress
          ∧ createMemoryInstruction corePtr false false rowAddress = .ok i) := by
  unfold createComputeInstruction createMemoryInstruction
  by_cases h1 : corePtr > 63
  · rw [if_pos h1]
    exact ⟨⟨fun _ => Or.inl h1, fun _ => ⟨_, rfl⟩⟩, ⟨fun _ => Or.inl h1, fun _ => ⟨_, rfl⟩⟩,
      fun hn => absurd (Or.inl h1) hn⟩
  · by_cases h2 : rowAddress > 511
    · rw [if_neg h1, if_pos h2]
      exact ⟨⟨fun _ => Or.inr h2, fun _ => ⟨_, rfl⟩⟩, ⟨fun _ => Or.inr h2, fun _ => ⟨_, rfl⟩⟩,
        fun hn => absurd (Or.inr h2) hn⟩
    · rw [if_neg h1, if_neg h2]
      refine ⟨⟨?_, ?_⟩, ⟨?_, ?_⟩, ?_⟩
      · rintro ⟨e, he⟩; cases he
      · rintro (h | h)
        · exact absurd h h1
        · exact absurd h h2
      · rintro ⟨e, he⟩; cases he
      · rintro (h | h)
        · exact absurd h h1
        · exact absurd h h2
      · intro _
        exact ⟨_, rfl, rfl, rfl, rfl, by simp [Instruction.mkExeEnd], rfl,
          by simp only [if_neg h1, if_neg h2]⟩

/-- C15. `createProgInstruction(corePtr, coreOp, lutConfig)` raises if and only if
`corePtr > 63`; otherwise it returns a PROG instruction whose corePtr, coreOpType and
lutConfig are exactly the arguments, with read = write = false and rowAddress = 0. -/
theorem createProgInstruction_raises_iff (corePtr : Nat) (op : CoreOpType) (cfg : List Nat) :
    ((∃ e, createProgInstruction corePtr op cfg = .error e) ↔ corePtr > 63)
    ∧ ((∃ msg, createProgInstruction corePtr op cfg = .error (.out_of_range msg))
        ↔ corePtr > 63)
    ∧ (¬ corePtr > 63 →
        ∃ i, createProgInstruction corePtr op cfg = .ok i
          ∧ i.type = InstructionType.PROG ∧ i.corePtr = corePtr ∧ i.coreOpType = some op
          ∧ i.lutConfig = cfg ∧ i.lutConfig.length = cfg.length
          ∧ (∀ k : Nat, i.lutConfig[k]? = cfg[k]?)
          ∧ i.read = false ∧ i.write = false ∧ i.rowAddress = 0) := by
  unfold createProgInstruction
  by_cases h1 : corePtr > 63
  · rw [if_pos h1]
    exact ⟨⟨fun _ => h1, fun _ => ⟨_, rfl⟩⟩, ⟨fun _ => h1, fun _ => ⟨_, rfl⟩⟩,
      fun hn => absurd h1 hn⟩
  · rw [if_neg h1]
    refine ⟨⟨?_, fun h => absurd h h1⟩, ⟨?_, fun h => absurd h h1⟩, ?_⟩
    · rintro ⟨e, he⟩; cases he
    · rintro ⟨e, he⟩; cases he
    · intro _
      exact ⟨_, rfl, rfl, rfl, rfl, rfl, rfl, fun _ => rfl, rfl, rfl, rfl⟩

/-- A factory-made instruction has in-range fields. -/
theorem factoryMade_fields (i : Instruction) (h : FactoryMade i) :
    i.corePtr ≤ 63 ∧ i.rowAddress ≤ 511 := by
  rcases h with ⟨p, op, cfg, h⟩ | ⟨p, r, w, a, h⟩ | ⟨p, a, h⟩ | h
  · obtain ⟨hp, hi⟩ := createProgInstruction_ok p op cfg i h
    subst hi
    exact ⟨hp, Nat.zero_le _⟩
  · obtain ⟨hp, ha, hi⟩ := createMemoryInstruction_ok p a r w i h
    subst hi
    exact ⟨by simpa [Instruction.mkExeEnd] using hp, ha⟩
  · obtain ⟨hp, ha, hi⟩ := createComputeInstruction_ok p a i h
    subst hi
    exact ⟨by simpa [Instruction.mkExeEnd] using hp, ha⟩
  · subst h
    exact ⟨by decide, by decide⟩

/-- The instruction built by the public constructor `Instruction(EXE, 64, false, false, 512)`:
its ptr is 64 and its rowAddress 512, and `toBinary` encodes 0 in both fields. -/
theorem public_constructor_not_checked :
    (Instruction.mkExeEnd InstructionType.EXE 64 false false 512).corePtr = 64
    ∧ ¬ (Instruction.mkExeEnd InstructionType.EXE 64 false false 512).corePtr ≤ 63
    ∧ ¬ (Instruction.mkExeEnd InstructionType.EXE 64 false false 512).rowAddress ≤ 511
    ∧ ((Instruction.mkExeEnd InstructionType.EXE 64 false false 512).toBinary >>> 11) &&& 0x3F
        = 0
    ∧ ((Instruction.mkExeEnd InstructionType.EXE 64 false false 512).toBinary >>> 11) &&& 0x3F
        ≠ (Instruction.mkExeEnd InstructionType.EXE 64 false false 512).corePtr
    ∧ (Instruction.mkExeEnd InstructionType.EXE 64 false false 512).toBinary &&& 0x1FF
        ≠ (Instruction.mkExeEnd InstructionType.EXE 64 false false 512).rowAddress := by
  decide

/-- C16 (amended). Field-width invariant of the factory functions: every instruction returned
by `createProgInstruction`, `createMemoryInstruction`, `createComputeInstruction` or
`createEndInstruction` has ptr <= 63 and rowAddress <= 511, and `toBinary` encodes both
without truncation: `(toBinary >> 11) & 0x3F` is its ptr and `toBinary & 0x1FF` its
rowAddress; the factories reject every out-of-range argument. -/
theorem factoryMade_field_width (i : Instruction) (h : FactoryMade i) :
    i.corePtr ≤ 63 ∧ i.rowAddress ≤ 511
    ∧ (i.toBinary >>> 11) &&& 0x3F = i.corePtr
    ∧ i.toBinary &&& 0x1FF = i.rowAddress
    ∧ (∀ (p : Nat) (op : CoreOpType) (cfg : List Nat), p > 63 →
        ∃ e, createProgInstruction p op cfg = .error e)
    ∧ (∀ (p a : Nat) (r w : Bool), p > 63 ∨ a > 511 →
        ∃ e, createMemoryInstruction p r w a = .error e)
    ∧ (∀ (p a : Nat), p > 63 ∨ a > 511 → ∃ e, createComputeInstruction p a = .error e) := by
  obtain ⟨hp, ha⟩ := factoryMade_fields i h
  have ht := toNat_le_two i.type
  have hr := Bool.toNat_le i.read
  have hw := Bool.toNat_le i.write
  have e6 : (0x3F : Nat) = 2 ^ 6 - 1 := by decide
  have e9 : (0x1FF : Nat) = 2 ^ 9 - 1 := by decide
  refine ⟨hp, ha, ?_, ?_, ?_, ?_, ?_⟩
  · rw [toBinary_eq, e6, Nat.and_pow_two_sub_one_eq_mod, Nat.shiftRight_eq_div_pow]
    omega
  · rw [toBinary_eq, e9, Nat.and_pow_two_sub_one_eq_mod]
    omega
  · intro p op cfg h1
    exact ⟨_, by unfold createProgInstruction; rw [if_pos h1]⟩
  · intro p a r w h1
    unfold createMemoryInstruction
    by_cases hp1 : p > 63
    · exact ⟨_, by rw [if_pos hp1]⟩
    · have ha1 : a > 511 := by omega
      exact ⟨_, by rw [if_neg hp1, if_pos ha1]⟩
  · intro p a h1
    unfold createComputeInstruction
    by_cases hp1 : p > 63
    · exact ⟨_, by rw [if_pos hp1]⟩
    · have ha1 : a > 511 := by omega
      exact ⟨_, by rw [if_neg hp1, if_pos ha1]⟩

/-- The field-width invariant on the memory instruction with the largest fields. -/
theorem factoryMade_field_width_witness :
    FactoryMade (Instruction.mkExeEnd InstructionType.EXE 63 true false 511)
    ∧ (Instruction.mkExeEnd InstructionType.EXE 63 true false 511).corePtr ≤ 63
    ∧ (Instruction.mkExeEnd InstructionType.EXE 63 true false 511).rowAddress ≤ 511
    ∧ ((Instruction.mkExeEnd InstructionType.EXE 63 true false 511).toBinary >>> 11) &&& 0x3F
        = 63
    ∧ (Instruction.mkExeEnd InstructionType.EXE 63 true false 511).toBinary &&& 0x1FF = 511 :=
  have hf : FactoryMade (Instruction.mkExeEnd InstructionType.EXE 63 true false 511) :=
    Or.inr (Or.inl ⟨63, true, false, 511, by decide⟩)
  have hw := factoryMade_field_width _ hf
  ⟨hf, hw.1, hw.2.1, hw.2.2.1, hw.2.2.2.1⟩

/-- C17. For every Instruction value whatsoever (any type, any ptr, any flags, any
rowAddress), `toBinary` returns a value strictly less than 2^19. -/
theorem toBinary_lt (i : Instruction) : i.toBinary < 2 ^ 19 := by
  have ht := toNat_le_two i.type
  have hr := Bool.toNat_le i.read
  have hw := Bool.toNat_le i.write
  rw [toBinary_eq]
  omega

/-- Bits 17-18 of the word of any instruction are the opcode value. -/
theorem opcode_bits (i : Instruction) : (i.toBinary >>> 17) &&& 3 = i.type.toNat := by
  have ht := toNat_le_two i.type
  have hr := Bool.toNat_le i.read
  have hw := Bool.toNat_le i.write
  have e2 : (3 : Nat) = 2 ^ 2 - 1 := by decide
  rw [toBinary_eq, e2, Nat.and_pow_two_sub_one_eq_mod, Nat.shiftRight_eq_div_pow]
  omega

/-- C18. Opcode field: for every instruction produced by the four factory functions, bits
17-18 of `toBinary` are 0 for a PROG instruction, 1 for an EXE instruction and 2 for END; so
the encodings of instructions of different kinds are never equal, and
`toBinary(createEndInstruction())` = 2 * 2^17 = 262144. -/
theorem opcode_field :
    (∀ (p : Nat) (op : CoreOpType) (cfg : List Nat) (i : Instruction),
        createProgInstruction p op cfg = .ok i →
        i.type = InstructionType.PROG ∧ (i.toBinary >>> 17) &&& 3 = 0)
    ∧ (∀ (p a : Nat) (r w : Bool) (i : Instruction),
        createMemoryInstruction p r w a = .ok i →
        i.type = InstructionType.EXE ∧ (i.toBinary >>> 17) &&& 3 = 1)
    ∧ (∀ (p a : Nat) (i : Instruction), createComputeInstruction p a = .ok i →
        i.type = InstructionType.EXE ∧ (i.toBinary >>> 17) &&& 3 = 1)
    ∧ (createEndInstruction.type = InstructionType.END
        ∧ (createEndInstruction.toBinary >>> 17) &&& 3 = 2)
    ∧ (∀ i j : Instruction, FactoryMade i → FactoryMade j → i.type ≠ j.type →
        i.toBinary ≠ j.toBinary)
    ∧ createEndInstruction.toBinary = 2 * 2 ^ 17
    ∧ createEndInstruction.toBinary = 262144 := by
  refine ⟨?_, ?_, ?_, ⟨rfl, by decide⟩, ?_, by decide, by decide⟩
  · intro p op cfg i h
    obtain ⟨_, hi⟩ := createProgInstruction_ok p op cfg i h
    subst hi
    exact ⟨rfl, by rw [opcode_bits]; rfl⟩
  · intro p a r w i h
    obtain ⟨_, _, hi⟩ := createMemoryInstruction_ok p a r w i h
    subst hi
    exact ⟨rfl, by rw [opcode_bits]; rfl⟩
  · intro p a i h
    obtain ⟨_, _, hi⟩ := createComputeInstruction_ok p a i h
    subst hi
    exact ⟨rfl, by rw [opcode_bits]; rfl⟩
  · intro i j _ _ hne heq
    apply hne
    apply toNat_injective
    rw [← opcode_bits i, ← opcode_bits j, heq]

/-- C19. The PROG-only fields are not part of the encoded word: for every corePtr <= 63,
every two core operations op1, op2 and every two byte sequences cfg1, cfg2,
`toBinary(createProgInstruction(corePtr, op1, cfg1))`
= `toBinary(createProgInstruction(corePtr, op2, cfg2))` = corePtr * 2^11. -/
theorem toBinary_prog (corePtr : Nat) (op1 op2 : CoreOpType) (cfg1 cfg2 : List Nat)
    (h : corePtr ≤ 63) :
    ∃ i1 i2, createProgInstruction corePtr op1 cfg1 = .ok i1
      ∧ createProgInstruction corePtr op2 cfg2 = .ok i2
      ∧ i1.toBinary = i2.toBinary
      ∧ i2.toBinary = corePtr * 2 ^ 11 := by
  have key : ∀ (op : CoreOpType) (cfg : List Nat),
      (Instruction.mkProg corePtr op cfg).toBinary = corePtr * 2 ^ 11 := by
    intro op cfg
    rw [toBinary_eq]
    simp only [Instruction.mkProg, InstructionType.toNat, Bool.toNat_false]
    omega
  refine ⟨Instruction.mkProg corePtr op1 cfg1, Instruction.mkProg corePtr op2 cfg2, ?_, ?_,
    ?_, key op2 cfg2⟩
  · unfold createProgInstruction; rw [if_neg (by omega)]
  · unfold createProgInstruction; rw [if_neg (by omega)]
  · rw [key op1 cfg1, key op2 cfg2]

/-- The word of PROG instructions on core 63 with different operations and payloads. -/
theorem toBinary_prog_witness :
    ∃ i1 i2, createProgInstruction 63 CoreOpType.MULTIPLIER [1, 2, 3] = .ok i1
      ∧ createProgInstruction 63 CoreOpType.CUSTOM [] = .ok i2
      ∧ i1.toBinary = i2.toBinary
      ∧ i2.toBinary = 63 * 2 ^ 11 :=
  toBinary_prog 63 CoreOpType.MULTIPLIER CoreOpType.CUSTOM [1, 2, 3] [] (by decide)

end PIM_ISA

namespace MemoryMap

/-- What a successful `mapMatrix` establishes. -/
theorem mapMatrix_ok (m : MemoryMapper) (name : String) (dims : MatrixDimensions) (start : Nat)
    (h : (m.mapMatrix name dims).1 = .ok start) :
    start = m.nextRowAddress_
    ∧ start + calculateMatrixSize dims ≤ 512
    ∧ (m.mapMatrix name dims).2.matrixMap_.lookup name = some (start, dims) := by
  by_cases hm : m.isMatrixMapped name = true
  · rw [mapMatrix_of_mapped m name dims hm] at h; cases h
  · have hm2 : m.isMatrixMapped name = false := by simpa using hm
    by_cases hfull : m.nextRowAddress_ + calculateMatrixSize dims > 512
    · rw [mapMatrix_of_full m name dims hm2 hfull] at h; cases h
    · rw [mapMatrix_of_fits m name dims hm2 (by omega)] at h ⊢
      have h2 : m.nextRowAddress_ = start := by simpa using h
      subst h2
      exact ⟨rfl, by omega, lookup_mapAssign_self _ _ _⟩

/-- A binding survives every later `mapMatrix` call. -/
theorem lookup_mapMatrix_of_lookup (m : MemoryMapper) (name : String)
    (v : Nat × MatrixDimensions) (n : String) (d : MatrixDimensions)
    (h : m.matrixMap_.lookup name = some v) :
    (m.mapMatrix n d).2.matrixMap_.lookup name = some v := by
  by_cases hm : m.isMatrixMapped n = true
  · rw [mapMatrix_of_mapped m n d hm]; exact h
  · have hm2 : m.isMatrixMapped n = false := by simpa using hm
    by_cases hfull : m.nextRowAddress_ + calculateMatrixSize d > 512
    · rw [mapMatrix_of_full m n d hm2 hfull]; exact h
    · rw [mapMatrix_of_fits m n d hm2 (by omega)]
      have hne : name ≠ n := by
        intro e
        subst e
        simp [MemoryMapper.isMatrixMapped, h] at hm2
      dsimp only
      rw [lookup_mapAssign_ne _ _ _ _ hne]
      exact h

/-- A binding survives every sequence of `mapMatrix` calls. -/
theorem lookup_run_mapMatrix (later : List (String × MatrixDimensions)) :
    ∀ (m : MemoryMapper) (name : String) (v : Nat × MatrixDimensions),
      m.matrixMap_.lookup name = some v →
      (m.run (later.map (fun c => Call.mapMatrix c.1 c.2))).matrixMap_.lookup name = some v := by
  induction later with
  | nil => intro m name v h; exact h
  | cons c rest ih =>
    intro m name v h
    simp only [List.map, MemoryMapper.run, List.foldl, MemoryMapper.step]
    exact ih _ name v (lookup_mapMatrix_of_lookup m name v c.1 c.2 h)

/-- The body of `getMatrixDimensions` on a bound name. -/
theorem getMatrixDimensions_of_lookup (m : MemoryMapper) (name : String) (start : Nat)
    (dims : MatrixDimensions) (h : m.matrixMap_.lookup name = some (start, dims)) :
    m.getMatrixDimensions name = .ok dims := by
  simp only [MemoryMapper.getMatrixDimensions, isMatrixMapped_of_lookup m name start dims h, h]
  rfl

/-- The body of `getMatrixAddressRange` on a bound name. -/
theorem getMatrixAddressRange_of_lookup (m : MemoryMapper) (name : String) (start : Nat)
    (dims : MatrixDimensions) (h : m.matrixMap_.lookup name = some (start, dims)) :
    m.getMatrixAddressRange name
      = .ok { startAddress := start
              endAddress := (start + calculateMatrixSize dims - 1) % 2 ^ 16 } := by
  simp only [MemoryMapper.getMatrixAddressRange, isMatrixMapped_of_lookup m name start dims h,
    h]
  rfl

/-- C20. Lookup after mapping: if `mapMatrix(name, dims)` succeeds returning start, then
after any further `mapMatrix` calls (until the next reset) `isMatrixMapped(name)` is true,
`getMatrixDimensions(name)` = dims and `getMatrixAddressRange(name)` =
[start, start + `calculateMatrixSize(dims)` - 1] with startAddress <= endAddress; for a name
that is not mapped `isMatrixMapped` is false and `getMatrixDimensions` and
`getMatrixAddressRange` both fail with NotMapped. -/
theorem lookup_after_mapMatrix (m : MemoryMapper) (name : String) (dims : MatrixDimensions)
    (start : Nat) (h : (m.mapMatrix name dims).1 = .ok start)
    (later : List (String × MatrixDimensions)) :
    ((m.mapMatrix name dims).2.run
        (later.map (fun c => Call.mapMatrix c.1 c.2))).isMatrixMapped name = true
    ∧ ((m.mapMatrix name dims).2.run
        (later.map (fun c => Call.mapMatrix c.1 c.2))).getMatrixDimensions name = .ok dims
    ∧ ((m.mapMatrix name dims).2.run
        (later.map (fun c => Call.mapMatrix c.1 c.2))).getMatrixAddressRange name
        = .ok { startAddress := start, endAddress := start + calculateMatrixSize dims - 1 }
    ∧ start ≤ start + calculateMatrixSize dims - 1
    ∧ (∀ (m2 : MemoryMapper) (other : String), m2.matrixMap_.lookup other = none →
        m2.isMatrixMapped other = false
        ∧ m2.getMatrixDimensions other
            = .error (.runtime_error ("Matrix '" ++ other ++ "' is not mapped"))
        ∧ m2.getMatrixAddressRange other
            = .error (.runtime_error ("Matrix '" ++ other ++ "' is not mapped"))) := by
  obtain ⟨_, hfit, hl⟩ := mapMatrix_ok m name dims start h
  have hl2 := lookup_run_mapMatrix later _ name (start, dims) hl
  have hpos := calculateMatrixSize_pos dims
  have hmod : (start + calculateMatrixSize dims - 1) % 2 ^ 16
      = start + calculateMatrixSize dims - 1 := Nat.mod_eq_of_lt (by omega)
  refine ⟨isMatrixMapped_of_lookup _ name start dims hl2,
    getMatrixDimensions_of_lookup _ name start dims hl2, ?_, by omega, ?_⟩
  · rw [getMatrixAddressRange_of_lookup _ name start dims hl2, hmod]
  · intro m2 other hn
    simp [MemoryMapper.isMatrixMapped, MemoryMapper.getMatrixDimensions,
      MemoryMapper.getMatrixAddressRange, hn]

/-- Lookup of a 100 x 100 matrix mapped first, after two further mappings. -/
theorem lookup_after_mapMatrix_witness :
    ((MemoryMapper.new.mapMatrix "A" ⟨100, 100⟩).2.run
        ([("B", ⟨3, 2⟩), ("A", ⟨1, 1⟩)].map (fun c => Call.mapMatrix c.1 c.2))).isMatrixMapped
        "A" = true
    ∧ ((MemoryMapper.new.mapMatrix "A" ⟨100, 100⟩).2.run
        ([("B", ⟨3, 2⟩), ("A", ⟨1, 1⟩)].map
          (fun c => Call.mapMatrix c.1 c.2))).getMatrixDimensions "A" = .ok ⟨100, 100⟩
    ∧ ((MemoryMapper.new.mapMatrix "A" ⟨100, 100⟩).2.run
        ([("B", ⟨3, 2⟩), ("A", ⟨1, 1⟩)].map
          (fun c => Call.mapMatrix c.1 c.2))).getMatrixAddressRange "A"
        = .ok { startAddress := 0, endAddress := 39 } :=
  have hw := lookup_after_mapMatrix MemoryMapper.new "A" ⟨100, 100⟩ 0 (by decide)
    [("B", ⟨3, 2⟩), ("A", ⟨1, 1⟩)]
  ⟨hw.1, hw.2.1, hw.2.2.1⟩

end MemoryMap

namespace Backend

open PIM_ISA MemoryMap Frontend

/-- A loop whose body succeeds on every index emits the bodies in order. -/
theorem emitForEach_ok (body : Nat → Except Exn (List Instruction))
    (F : Nat → List Instruction) (l : List Nat) (h : ∀ x ∈ l, body x = .ok (F x)) :
    emitForEach body l = .ok (l.flatMap F) := by
  induction l with
  | nil => rfl
  | cons x xs ih =>
    have hx := h x (List.mem_cons_self x xs)
    have hxs := ih (fun y hy => h y (List.mem_cons_of_mem x hy))
    simp only [emitForEach, hx, hxs, List.flatMap_cons]
    rfl

/-- The three PROG instructions of the initialisation. -/
theorem generateInitInstructions_eq (g : CodeGenerator) :
    generateInitInstructions g
      = .ok [Instruction.mkProg 0 CoreOpType.MULTIPLIER g.multiplierConfig,
          Instruction.mkProg 1 CoreOpType.ADDER g.adderConfig,
          Instruction.mkProg 2 CoreOpType.MAC g.macConfig] := by
  simp only [generateInitInstructions, createProgInstruction]
  rfl

/-- A memory instruction with in-range fields is built. -/
theorem createMemoryInstruction_of_le (ptr a : Nat) (r w : Bool) (hp : ptr ≤ 63)
    (ha : a ≤ 511) :
    createMemoryInstruction ptr r w a = .ok (Instruction.mkExeEnd InstructionType.EXE ptr r w a) := by
  unfold createMemoryInstruction
  rw [if_neg (by omega), if_neg (by omega)]

/-- A compute instruction with in-range fields is built. -/
theorem createComputeInstruction_of_le (ptr a : Nat) (hp : ptr ≤ 63) (ha : a ≤ 511) :
    createComputeInstruction ptr a
      = .ok (Instruction.mkExeEnd InstructionType.EXE ptr false false a) := by
  unfold createComputeInstruction
  rw [if_neg (by omega), if_neg (by omega)]

/-- The address of an in-range element of a matrix whose exact size fits below row 512. -/
theorem getElementAddress_fits (mm : MemoryMapper) (name : String) (start R C row col : Nat)
    (h : mm.matrixMap_.lookup name = some (start, { rows := R, cols := C }))
    (hfit : start + specMatrixSize R C ≤ 512) (hr : row < R) (hc : col < C) :
    mm.getElementAddress name row col = .ok (start + row * C / 256)
    ∧ start + row * C / 256 ≤ 511 := by
  have hmul : (row + 1) * C ≤ R * C := Nat.mul_le_mul_right C hr
  have hexp : (row + 1) * C = row * C + C := by ring
  have hs : specMatrixSize R C = max 1 ((R * C + 255) / 256) := rfl
  have hmax : (R * C + 255) / 256 ≤ max 1 ((R * C + 255) / 256) := Nat.le_max_right _ _
  have hsmall : row * C / 256 < (R * C + 255) / 256 := by omega
  have e1 : row * C % 2 ^ 32 = row * C := Nat.mod_eq_of_lt (by omega)
  have e2 : row * C / 256 % 2 ^ 16 = row * C / 256 := Nat.mod_eq_of_lt (by omega)
  have e3 : (start + row * C / 256) % 2 ^ 16 = start + row * C / 256 :=
    Nat.mod_eq_of_lt (by omega)
  rw [getElementAddress_of_lookup mm name start _ row col h, if_neg (by dsimp only; omega)]
  dsimp only
  rw [e1, e2, e3]
  exact ⟨rfl, by omega⟩

/-- Sequencing after a success runs the continuation on the value. -/
theorem bind_ok {α β : Type} (a : α) (f : α → Except Exn β) : (Except.ok a >>= f) = f a := rfl

/-- Returning a value is a success. -/
theorem pure_ok {α : Type} (a : α) : (pure a : Except Exn α) = Except.ok a := rfl

/-- One step of the inner loop, on mapped operands that fit. -/
theorem generateMacStep_eq (g : CodeGenerator) (mm : MemoryMapper) (a b : String)
    (sA sB n m p i j k : Nat) (hg : g.memoryPtr ≤ 63)
    (hA : mm.matrixMap_.lookup a = some (sA, { rows := n, cols := m }))
    (hB : mm.matrixMap_.lookup b = some (sB, { rows := m, cols := p }))
    (hfA : sA + specMatrixSize n m ≤ 512) (hfB : sB + specMatrixSize m p ≤ 512)
    (hi : i < n) (hj : j < p) (hk : k < m) :
    generateMacStep g mm a b i j k = .ok (macStepStream g.memoryPtr sA sB m p i k) := by
  obtain ⟨eA, bA⟩ := getElementAddress_fits mm a sA n m i k hA hfA hi hk
  obtain ⟨eB, bB⟩ := getElementAddress_fits mm b sB m p k j hB hfB hk hj
  simp only [generateMacStep, eA, eB, bind_ok,
    createMemoryInstruction_of_le g.memoryPtr _ true false hg bA,
    createMemoryInstruction_of_le g.memoryPtr _ true false hg bB,
    createComputeInstruction_of_le 2 _ (by decide) bB]
  rfl

/-- The instructions of one output element, on mapped matrices that fit. -/
theorem generateElement_eq (g : CodeGenerator) (mm : MemoryMapper) (a b c : String)
    (sA sB sC n m p i j : Nat) (hg : g.memoryPtr ≤ 63)
    (hA : mm.matrixMap_.lookup a = some (sA, { rows := n, cols := m }))
    (hB : mm.matrixMap_.lookup b = some (sB, { rows := m, cols := p }))
    (hC : mm.matrixMap_.lookup c = some (sC, { rows := n, cols := p }))
    (hfA : sA + specMatrixSize n m ≤ 512) (hfB : sB + specMatrixSize m p ≤ 512)
    (hfC : sC + specMatrixSize n p ≤ 512) (hi : i < n) (hj : j < p) :
    generateElement g mm a b c i j m = .ok (elementStream g.memoryPtr sA sB sC m p i) := by
  obtain ⟨eC, bC⟩ := getElementAddress_fits mm c sC n p i j hC hfC hi hj
  have hloop := emitForEach_ok (fun k => generateMacStep g mm a b i j k)
    (macStepStream g.memoryPtr sA sB m p i) (List.range m)
    (fun k hk => generateMacStep_eq g mm a b sA sB n m p i j k hg hA hB hfA hfB hi hj
      (List.mem_range.mp hk))
  simp only [generateElement, hloop, eC, bind_ok,
    createMemoryInstruction_of_le g.memoryPtr _ false true hg bC]
  rfl

/-- The two outer loops, on mapped matrices that fit. -/
theorem generateBody_eq (g : CodeGenerator) (mm : MemoryMapper) (a b c : String)
    (sA sB sC n m p : Nat) (hg : g.memoryPtr ≤ 63)
    (hA : mm.matrixMap_.lookup a = some (sA, { rows := n, cols := m }))
    (hB : mm.matrixMap_.lookup b = some (sB, { rows := m, cols := p }))
    (hC : mm.matrixMap_.lookup c = some (sC, { rows := n, cols := p }))
    (hfA : sA + specMatrixSize n m ≤ 512) (hfB : sB + specMatrixSize m p ≤ 512)
    (hfC : sC + specMatrixSize n p ≤ 512) :
    emitForEach
        (fun i => emitForEach (fun j => generateElement g mm a b c i j m) (List.range p))
        (List.range n)
      = .ok (multiplyStream g.memoryPtr sA sB sC n m p) := by
  unfold multiplyStream
  apply emitForEach_ok
  intro i hi
  apply emitForEach_ok
  intro j hj
  exact generateElement_eq g mm a b c sA sB sC n m p i j hg hA hB hC hfA hfB hfC
    (List.mem_range.mp hi) (List.mem_range.mp hj)

/-- Mapping a new matrix that fits, as the generator does it. -/
theorem ensureMapped_fits (mm : MemoryMapper) (name : String) (dims : MatrixDimensions)
    (h : mm.isMatrixMapped name = false)
    (hfits : mm.nextRowAddress_ + calculateMatrixSize dims ≤ 512) :
    ensureMapped mm name dims
      = .ok { matrixMap_ := mapAssign mm.matrixMap_ name (mm.nextRowAddress_, dims)
              nextRowAddress_ := mm.nextRowAddress_ + calculateMatrixSize dims } := by
  simp only [ensureMapped, h, mapMatrix_of_fits mm name dims h hfits]
  rfl

/-- Without wrap-around the size in rows is the exact one. -/
theorem calculateMatrixSize_eq_spec (rows cols : Nat) (h : specMatrixSize rows cols ≤ 512) :
    calculateMatrixSize { rows := rows, cols := cols } = specMatrixSize rows cols := by
  have hs : specMatrixSize rows cols = max 1 ((rows * cols + 255) / 256) := rfl
  have hmax : (rows * cols + 255) / 256 ≤ max 1 ((rows * cols + 255) / 256) :=
    Nat.le_max_right _ _
  simp only [calculateMatrixSize, specMatrixSize]
  have h1 : rows * cols % 2 ^ 32 = rows * cols := Nat.mod_eq_of_lt (by omega)
  have h2 : (rows * cols + 255) / 256 % 2 ^ 16 = (rows * cols + 255) / 256 :=
    Nat.mod_eq_of_lt (by omega)
  rw [h1, h2, Nat.max_comm]

/-- Mapping a new matrix that fits: the state the generator goes on with. -/
theorem ensureMapped_new_matrix (mm : MemoryMapper) (name : String) (dims : MatrixDimensions)
    (h : mm.matrixMap_.lookup name = none)
    (hfits : mm.nextRowAddress_ + calculateMatrixSize dims ≤ 512) :
    ∃ mm1, ensureMapped mm name dims = .ok mm1
      ∧ mm1.nextRowAddress_ = mm.nextRowAddress_ + calculateMatrixSize dims
      ∧ mm1.matrixMap_.lookup name = some (mm.nextRowAddress_, dims)
      ∧ ∀ other, other ≠ name → mm1.matrixMap_.lookup other = mm.matrixMap_.lookup other := by
  have hm : mm.isMatrixMapped name = false := by
    simp [MemoryMapper.isMatrixMapped, h]
  exact ⟨_, ensureMapped_fits mm name dims hm hfits, rfl, lookup_mapAssign_self _ _ _,
    fun other ho => lookup_mapAssign_ne _ _ _ _ ho⟩

/-- The lowering of one Multiply of three distinct matrices that fit, on a fresh mapper. -/
theorem generateMatrixMultiplyInstructions_eq (g : CodeGenerator) (matrices : List MatrixInfo)
    (a b c : String) (left right : MatrixInfo) (hg : g.memoryPtr ≤ 63)
    (hA : findMatrix matrices a = some left) (hB : findMatrix matrices b = some right)
    (hdim : left.cols = right.rows)
    (hC : findMatrix matrices c = none
      ∨ ∃ out, findMatrix matrices c = some out ∧ out.rows = left.rows
          ∧ out.cols = right.cols)
    (hab : a ≠ b) (hac : a ≠ c) (hbc : b ≠ c)
    (hfit : specMatrixSize left.rows left.cols + specMatrixSize right.rows right.cols
      + specMatrixSize left.rows right.cols ≤ 512) :
    ∃ mm3, generateMatrixMultiplyInstructions g matrices MemoryMapper.new
        { type := OperationType.MULTIPLY, inputs := [a, b], output := c }
      = .ok (multiplyStream g.memoryPtr 0 (specMatrixSize left.rows left.cols)
          (specMatrixSize left.rows left.cols + specMatrixSize right.rows right.cols)
          left.rows left.cols right.cols, mm3) := by
  obtain ⟨nameL, n, m, inL, outL⟩ := left
  obtain ⟨nameR, m2, p, inR, outR⟩ := right
  dsimp only at hdim hfit hC ⊢
  subst hdim
  have hdC : (match findMatrix matrices c with
      | some out => ({ rows := out.rows, cols := out.cols } : MatrixDimensions)
      | none => { rows := n, cols := p }) = { rows := n, cols := p } := by
    rcases hC with h | ⟨out, h, h1, h2⟩
    · rw [h]
    · rw [h]
      dsimp only
      rw [h1, h2]
  have sA := calculateMatrixSize_eq_spec n m (by omega)
  have sB := calculateMatrixSize_eq_spec m p (by omega)
  have sC := calculateMatrixSize_eq_spec n p (by omega)
  obtain ⟨mm1, e1, c1, l1, o1⟩ := ensureMapped_new_matrix MemoryMapper.new a
    { rows := n, cols := m } rfl (by rw [sA]; simp only [MemoryMapper.new]; omega)
  have hb1 : mm1.matrixMap_.lookup b = none := by
    rw [o1 b (Ne.symm hab)]; rfl
  obtain ⟨mm2, e2, c2, l2, o2⟩ := ensureMapped_new_matrix mm1 b
    { rows := m, cols := p } hb1 (by rw [c1, sA, sB]; simp only [MemoryMapper.new]; omega)
  have hc2 : mm2.matrixMap_.lookup c = none := by
    rw [o2 c (Ne.symm hbc), o1 c (Ne.symm hac)]; rfl
  obtain ⟨mm3, e3, c3, l3, o3⟩ := ensureMapped_new_matrix mm2 c
    { rows := n, cols := p } hc2
    (by rw [c2, c1, sA, sB, sC]; simp only [MemoryMapper.new]; omega)
  have n0 : MemoryMapper.new.nextRowAddress_ = 0 := rfl
  have lA : mm3.matrixMap_.lookup a = some (0, { rows := n, cols := m }) := by
    rw [o3 a hac, o2 a hab, l1, n0]
  have lB : mm3.matrixMap_.lookup b
      = some (specMatrixSize n m, { rows := m, cols := p }) := by
    rw [o3 b hbc, l2, c1, n0, sA, Nat.zero_add]
  have lC : mm3.matrixMap_.lookup c
      = some (specMatrixSize n m + specMatrixSize m p, { rows := n, cols := p }) := by
    rw [l3, c2, c1, n0, sA, sB, Nat.zero_add]
  have hbody := generateBody_eq g mm3 a b c 0 (specMatrixSize n m)
    (specMatrixSize n m + specMatrixSize m p) n m p hg lA lB lC (by omega) (by omega)
    (by omega)
  refine ⟨mm3, ?_⟩
  simp only [generateMatrixMultiplyInstructions, hA, hB, hdC, ne_eq, not_true_eq_false,
    if_false, e1, e2, e3, bind_ok, hbody]
  rfl

/-- The generator on one Multiply of three distinct matrices that fit, on a fresh mapper. -/
theorem generateInstructions_eq (g : CodeGenerator) (matrices : List MatrixInfo)
    (a b c : String) (left right : MatrixInfo) (hg : g.memoryPtr ≤ 63)
    (hA : findMatrix matrices a = some left) (hB : findMatrix matrices b = some right)
    (hdim : left.cols = right.rows)
    (hC : findMatrix matrices c = none
      ∨ ∃ out, findMatrix matrices c = some out ∧ out.rows = left.rows
          ∧ out.cols = right.cols)
    (hab : a ≠ b) (hac : a ≠ c) (hbc : b ≠ c)
    (hfit : specMatrixSize left.rows left.cols + specMatrixSize right.rows right.cols
      + specMatrixSize left.rows right.cols ≤ 512) :
    ∃ mm3, generateInstructions g MemoryMapper.new matrices
        [{ type := OperationType.MULTIPLY, inputs := [a, b], output := c }]
      = .ok ([Instruction.mkProg 0 CoreOpType.MULTIPLIER g.multiplierConfig,
            Instruction.mkProg 1 CoreOpType.ADDER g.adderConfig,
            Instruction.mkProg 2 CoreOpType.MAC g.macConfig]
          ++ (multiplyStream g.memoryPtr 0 (specMatrixSize left.rows left.cols)
              (specMatrixSize left.rows left.cols + specMatrixSize right.rows right.cols)
              left.rows left.cols right.cols
            ++ [createEndInstruction]), mm3) := by
  obtain ⟨mm3, hmul⟩ := generateMatrixMultiplyInstructions_eq g matrices a b c left right hg hA
    hB hdim hC hab hac hbc hfit
  refine ⟨mm3, ?_⟩
  simp only [generateInstructions, generateInitInstructions_eq, bind_ok, generateOperations,
    hmul, pure_ok, List.append_nil, List.append_assoc]

/-- Indexing past three leading instructions. -/
theorem getElem?_three_append (x y z : Instruction) (l : List Instruction) (q : Nat) :
    ([x, y, z] ++ l)[3 + q]? = l[q]? := by
  rw [List.getElem?_append_right (by simp)]
  simp

/-- A sequence that succeeds: its first part succeeded and the continuation succeeded. -/
theorem bind_eq_ok {α β : Type} (x : Except Exn α) (f : α → Except Exn β) (b : β)
    (h : (x >>= f) = .ok b) : ∃ a, x = .ok a ∧ f a = .ok b := by
  cases x with
  | error e => cases h
  | ok a => exact ⟨a, rfl, h⟩

/-- A loop that succeeds on a non-empty list: the body succeeded on the head, the loop on the
tail, and the output is the two outputs in order. -/
theorem emitForEach_cons_inv (body : Nat → Except Exn (List Instruction)) (x : Nat)
    (xs : List Nat) (r : List Instruction) (h : emitForEach body (x :: xs) = .ok r) :
    ∃ first others, body x = .ok first ∧ emitForEach body xs = .ok others
      ∧ r = first ++ others := by
  simp only [emitForEach] at h
  obtain ⟨first, h1, h2⟩ := bind_eq_ok _ _ _ h
  obtain ⟨others, h3, h4⟩ := bind_eq_ok _ _ _ h2
  refine ⟨first, others, h1, h3, ?_⟩
  cases h4
  rfl

/-- Counting in the output of a loop whose body always emits the same number of matches. -/
theorem emitForEach_countP (P : Instruction → Bool)
    (body : Nat → Except Exn (List Instruction)) (c : Nat) :
    ∀ (l : List Nat) (r : List Instruction), emitForEach body l = .ok r →
      (∀ x ∈ l, ∀ a, body x = .ok a → a.countP P = c) → r.countP P = l.length * c := by
  intro l
  induction l with
  | nil =>
    intro r h _
    cases h
    simp
  | cons x xs ih =>
    intro r h hc
    obtain ⟨first, others, h1, h2, h3⟩ := emitForEach_cons_inv body x xs r h
    subst h3
    rw [List.countP_append, hc x (List.mem_cons_self x xs) first h1,
      ih others h2 (fun y hy => hc y (List.mem_cons_of_mem x hy)), List.length_cons,
      Nat.succ_mul]
    omega

/-- The length of the output of a loop whose body always emits the same number of
instructions. -/
theorem emitForEach_length (body : Nat → Except Exn (List Instruction)) (c : Nat) :
    ∀ (l : List Nat) (r : List Instruction), emitForEach body l = .ok r →
      (∀ x ∈ l, ∀ a, body x = .ok a → a.length = c) → r.length = l.length * c := by
  intro l
  induction l with
  | nil =>
    intro r h _
    cases h
    simp
  | cons x xs ih =>
    intro r h hc
    obtain ⟨first, others, h1, h2, h3⟩ := emitForEach_cons_inv body x xs r h
    subst h3
    rw [List.length_append, hc x (List.mem_cons_self x xs) first h1,
      ih others h2 (fun y hy => hc y (List.mem_cons_of_mem x hy)), List.length_cons,
      Nat.succ_mul]
    omega

/-- Indexing into the output of a loop whose body always emits the same number of
instructions: block q is what the body emitted on the q-th index. -/
theorem emitForEach_getElem (body : Nat → Except Exn (List Instruction)) (c : Nat) :
    ∀ (l : List Nat) (r : List Instruction), emitForEach body l = .ok r →
      (∀ x ∈ l, ∀ a, body x = .ok a → a.length = c) →
      ∀ (q x t : Nat), l[q]? = some x → t < c →
        ∃ a, body x = .ok a ∧ r[q * c + t]? = a[t]? := by
  intro l
  induction l with
  | nil => intro r _ _ q x t hq _; simp at hq
  | cons y ys ih =>
    intro r h hc q x t hq ht
    obtain ⟨first, others, h1, h2, h3⟩ := emitForEach_cons_inv body y ys r h
    subst h3
    have hy := hc y (List.mem_cons_self y ys) first h1
    cases q with
    | zero =>
      simp only [List.getElem?_cons_zero, Option.some.injEq] at hq
      subst hq
      refine ⟨first, h1, ?_⟩
      rw [Nat.zero_mul, Nat.zero_add]
      exact List.getElem?_append_left (by omega)
    | succ q =>
      simp only [List.getElem?_cons_succ] at hq
      obtain ⟨a, ha, hidx⟩ := ih others h2 (fun z hz => hc z (List.mem_cons_of_mem y hz))
        q x t hq ht
      refine ⟨a, ha, ?_⟩
      have e : (q + 1) * c + t - first.length = q * c + t := by
        rw [hy, Nat.succ_mul]; omega
      rw [List.getElem?_append_right (by rw [hy, Nat.succ_mul]; omega), e]
      exact hidx

/-- What one step of the inner loop emits when it succeeds: two reads and a compute on
core 2 on the row of the second read. -/
theorem generateMacStep_inv (g : CodeGenerator) (mm : MemoryMapper) (a b : String)
    (i j k : Nat) (r : List Instruction) (h : generateMacStep g mm a b i j k = .ok r) :
    ∃ x y, r = [Instruction.mkExeEnd InstructionType.EXE g.memoryPtr true false x,
      Instruction.mkExeEnd InstructionType.EXE g.memoryPtr true false y,
      Instruction.mkExeEnd InstructionType.EXE 2 false false y] := by
  simp only [generateMacStep] at h
  obtain ⟨x, _, h⟩ := bind_eq_ok _ _ _ h
  obtain ⟨readA, hA, h⟩ := bind_eq_ok _ _ _ h
  obtain ⟨y, _, h⟩ := bind_eq_ok _ _ _ h
  obtain ⟨readB, hB, h⟩ := bind_eq_ok _ _ _ h
  obtain ⟨compute, hC, h⟩ := bind_eq_ok _ _ _ h
  obtain ⟨_, _, eA⟩ := createMemoryInstruction_ok _ _ _ _ _ hA
  obtain ⟨_, _, eB⟩ := createMemoryInstruction_ok _ _ _ _ _ hB
  obtain ⟨_, _, eC⟩ := createComputeInstruction_ok _ _ _ hC
  subst eA eB eC
  cases h
  exact ⟨x, y, rfl⟩

/-- What the generator emits for one output element when it succeeds. -/
theorem generateElement_layout (g : CodeGenerator) (mm : MemoryMapper) (a b c : String)
    (i j m : Nat) (r : List Instruction) (h : generateElement g mm a b c i j m = .ok r) :
    r.length = 3 * m + 1
    ∧ (∀ (P : Instruction → Bool) (cS cW : Nat),
        (∀ x y : Nat,
          [Instruction.mkExeEnd InstructionType.EXE g.memoryPtr true false x,
            Instruction.mkExeEnd InstructionType.EXE g.memoryPtr true false y,
            Instruction.mkExeEnd InstructionType.EXE 2 false false y].countP P = cS) →
        (∀ x : Nat,
          [Instruction.mkExeEnd InstructionType.EXE g.memoryPtr false true x].countP P = cW) →
        r.countP P = m * cS + cW)
    ∧ (∀ k, k < m → ∃ x y,
        r[3 * k]? = some (Instruction.mkExeEnd InstructionType.EXE g.memoryPtr true false x)
        ∧ r[3 * k + 1]?
            = some (Instruction.mkExeEnd InstructionType.EXE g.memoryPtr true false y)
        ∧ r[3 * k + 2]? = some (Instruction.mkExeEnd InstructionType.EXE 2 false false y))
    ∧ ∃ x, r[3 * m]?
        = some (Instruction.mkExeEnd InstructionType.EXE g.memoryPtr false true x) := by
  simp only [generateElement] at h
  obtain ⟨macs, hm, h⟩ := bind_eq_ok _ _ _ h
  obtain ⟨z, _, h⟩ := bind_eq_ok _ _ _ h
  obtain ⟨write, hw, h⟩ := bind_eq_ok _ _ _ h
  obtain ⟨_, _, eW⟩ := createMemoryInstruction_ok _ _ _ _ _ hw
  subst eW
  cases h
  have hlen3 : ∀ k ∈ List.range m, ∀ s, generateMacStep g mm a b i j k = .ok s →
      s.length = 3 := by
    intro k _ s hs
    obtain ⟨x, y, e⟩ := generateMacStep_inv g mm a b i j k s hs
    rw [e]; rfl
  have hl := emitForEach_length _ 3 (List.range m) macs hm hlen3
  rw [List.length_range] at hl
  refine ⟨?_, ?_, ?_, ?_⟩
  · rw [List.length_append, hl]
    simp only [List.length_cons, List.length_nil]
    omega
  · intro P cS cW hS hW
    have hc := emitForEach_countP P _ cS (List.range m) macs hm (by
      intro k _ s hs
      obtain ⟨x, y, e⟩ := generateMacStep_inv g mm a b i j k s hs
      rw [e]
      exact hS x y)
    rw [List.length_range] at hc
    rw [List.countP_append, hc, hW]
  · intro k hk
    have hget : ∀ t, t < 3 → ∃ s, generateMacStep g mm a b i j k = .ok s
        ∧ (macs ++ [Instruction.mkExeEnd InstructionType.EXE g.memoryPtr false true z])[
            3 * k + t]? = s[t]? := by
      intro t ht
      obtain ⟨s, hs, hidx⟩ := emitForEach_getElem _ 3 (List.range m) macs hm hlen3 k k t
        (List.getElem?_range hk) ht
      refine ⟨s, hs, ?_⟩
      rw [List.getElem?_append_left (by rw [hl]; omega), Nat.mul_comm 3 k]
      exact hidx
    obtain ⟨s0, hs0, h0⟩ := hget 0 (by omega)
    obtain ⟨s1, hs1, h1⟩ := hget 1 (by omega)
    obtain ⟨s2, hs2, h2⟩ := hget 2 (by omega)
    obtain ⟨x, y, e⟩ := generateMacStep_inv g mm a b i j k s0 hs0
    have e1 : s1 = s0 := by rw [hs0] at hs1; cases hs1; rfl
    have e2 : s2 = s0 := by rw [hs0] at hs2; cases hs2; rfl
    subst e1 e2
    rw [Nat.add_zero] at h0
    refine ⟨x, y, ?_, ?_, ?_⟩
    · rw [h0, e]; rfl
    · rw [h1, e]; rfl
    · rw [h2, e]; rfl
  · refine ⟨z, ?_⟩
    rw [List.getElem?_append_right (by rw [hl]; omega), hl]
    have e0 : 3 * m - m * 3 = 0 := by omega
    rw [e0]
    rfl

/-- What the two outer loops emit when they succeed. -/
theorem generateBody_layout (g : CodeGenerator) (mm : MemoryMapper) (a b c : String)
    (n m p : Nat) (body : List Instruction)
    (h : emitForEach
        (fun i => emitForEach (fun j => generateElement g mm a b c i j m) (List.range p))
        (List.range n) = .ok body) :
    body.length = n * (p * (3 * m + 1))
    ∧ (∀ (P : Instruction → Bool) (cS cW : Nat),
        (∀ x y : Nat,
          [Instruction.mkExeEnd InstructionType.EXE g.memoryPtr true false x,
            Instruction.mkExeEnd InstructionType.EXE g.memoryPtr true false y,
            Instruction.mkExeEnd InstructionType.EXE 2 false false y].countP P = cS) →
        (∀ x : Nat,
          [Instruction.mkExeEnd InstructionType.EXE g.memoryPtr false true x].countP P = cW) →
        body.countP P = n * (p * (m * cS + cW)))
    ∧ (∀ i j t, i < n → j < p → t < 3 * m + 1 →
        ∃ e, generateElement g mm a b c i j m = .ok e
          ∧ body[(i * p + j) * (3 * m + 1) + t]? = e[t]?) := by
  have hrowlen : ∀ i ∈ List.range n, ∀ row,
      emitForEach (fun j => generateElement g mm a b c i j m) (List.range p) = .ok row →
      row.length = p * (3 * m + 1) := by
    intro i _ row hrow
    have := emitForEach_length _ (3 * m + 1) (List.range p) row hrow
      (fun j _ e he => (generateElement_layout g mm a b c i j m e he).1)
    rw [List.length_range] at this
    exact this
  refine ⟨?_, ?_, ?_⟩
  · have := emitForEach_length _ (p * (3 * m + 1)) (List.range n) body h hrowlen
    rw [List.length_range] at this
    exact this
  · intro P cS cW hS hW
    have := emitForEach_countP P _ (p * (m * cS + cW)) (List.range n) body h (by
      intro i _ row hrow
      have hc := emitForEach_countP P _ (m * cS + cW) (List.range p) row hrow
        (fun j _ e he => (generateElement_layout g mm a b c i j m e he).2.1 P cS cW hS hW)
      rw [List.length_range] at hc
      exact hc)
    rw [List.length_range] at this
    exact this
  · intro i j t hi hj ht
    have hlt : j * (3 * m + 1) + t < p * (3 * m + 1) := by
      have h1 : (j + 1) * (3 * m + 1) ≤ p * (3 * m + 1) := Nat.mul_le_mul_right _ hj
      rw [Nat.succ_mul] at h1
      omega
    obtain ⟨row, hrow, hidx⟩ := emitForEach_getElem _ (p * (3 * m + 1)) (List.range n) body h
      hrowlen i i (j * (3 * m + 1) + t) (List.getElem?_range hi) hlt
    obtain ⟨e, he, hidx2⟩ := emitForEach_getElem _ (3 * m + 1) (List.range p) row hrow
      (fun j _ e he => (generateElement_layout g mm a b c i j m e he).1) j j t
      (List.getElem?_range hj) ht
    refine ⟨e, he, ?_⟩
    have e3 : (i * p + j) * (3 * m + 1) + t = i * (p * (3 * m + 1)) + (j * (3 * m + 1) + t) := by
      ring
    rw [e3, hidx, hidx2]

/-- A successful generation for one Multiply: the operand shapes agree and the stream is the
three PROG instructions, what the two outer loops emitted on the final mapper, and END. -/
theorem generateInstructions_inv (g : CodeGenerator) (mm : MemoryMapper)
    (matrices : List MatrixInfo) (a b c : String) (left right : MatrixInfo)
    (hA : findMatrix matrices a = some left) (hB : findMatrix matrices b = some right)
    (stream : List Instruction) (mm3 : MemoryMapper)
    (h : generateInstructions g mm matrices
        [{ type := OperationType.MULTIPLY, inputs := [a, b], output := c }]
      = .ok (stream, mm3)) :
    left.cols = right.rows
    ∧ ∃ body, emitForEach
          (fun i => emitForEach (fun j => generateElement g mm3 a b c i j left.cols)
            (List.range right.cols))
          (List.range left.rows) = .ok body
        ∧ stream = [Instruction.mkProg 0 CoreOpType.MULTIPLIER g.multiplierConfig,
              Instruction.mkProg 1 CoreOpType.ADDER g.adderConfig,
              Instruction.mkProg 2 CoreOpType.MAC g.macConfig]
            ++ (body ++ [createEndInstruction]) := by
  simp only [generateInstructions, generateInitInstructions_eq, bind_ok, generateOperations,
    pure_ok] at h
  obtain ⟨ops, h1, h2⟩ := bind_eq_ok _ _ _ h
  obtain ⟨first, h3, h4⟩ := bind_eq_ok _ _ _ h1
  cases h4
  cases h2
  simp only [generateMatrixMultiplyInstructions, hA, hB] at h3
  by_cases hdim : left.cols = right.rows
  · rw [if_neg (not_not.mpr hdim)] at h3
    obtain ⟨mm1, _, h3⟩ := bind_eq_ok _ _ _ h3
    obtain ⟨mm2, _, h3⟩ := bind_eq_ok _ _ _ h3
    obtain ⟨mmf, _, h3⟩ := bind_eq_ok _ _ _ h3
    obtain ⟨body, hb, h3⟩ := bind_eq_ok _ _ _ h3
    cases h3
    exact ⟨hdim, body, hb, by simp⟩
  · rw [if_pos hdim] at h3
    cases h3

/-- C11. Instruction-count invariant. Whenever `generateInstructions` succeeds on a single
Multiply C = A*B with A: n x m and B: m x p, the stream holds exactly 3 PROG instructions
(cores 0, 1, 2, first in the stream), n*p*2*m read EXE instructions, n*p*m compute EXE
instructions, n*p write EXE instructions and 1 END instruction, its last element; the block of
output element (i, j) starts at index 3 + (i*p + j)*(3*m + 1), where the two reads of
(i, j, k) stand at offsets 3k and 3k + 1, their compute on core 2 at offset 3k + 2, and the
write of (i, j) at offset 3m, after the last compute. And it does succeed, from a fresh
mapper, when the three matrices are distinct and their exact sizes fit the 512 rows. -/
theorem generateInstructions_single_multiply (g : CodeGenerator) (matrices : List MatrixInfo)
    (a b c : String) (left right : MatrixInfo)
    (hA : findMatrix matrices a = some left) (hB : findMatrix matrices b = some right) :
    (∀ (mm : MemoryMapper) (stream : List Instruction) (mm3 : MemoryMapper),
      generateInstructions g mm matrices
          [{ type := OperationType.MULTIPLY, inputs := [a, b], output := c }]
        = .ok (stream, mm3) →
      stream.countP isProg = 3
      ∧ stream.countP isRead = left.rows * right.cols * 2 * left.cols
      ∧ stream.countP isCompute = left.rows * right.cols * left.cols
      ∧ stream.countP isWrite = left.rows * right.cols
      ∧ stream.countP isEnd = 1
      ∧ stream.length = 3 + left.rows * right.cols * 2 * left.cols
          + left.rows * right.cols * left.cols + left.rows * right.cols + 1
      ∧ stream.getLast? = some createEndInstruction
      ∧ stream.take 3 = [Instruction.mkProg 0 CoreOpType.MULTIPLIER g.multiplierConfig,
          Instruction.mkProg 1 CoreOpType.ADDER g.adderConfig,
          Instruction.mkProg 2 CoreOpType.MAC g.macConfig]
      ∧ ∀ i j k : Nat, i < left.rows → j < right.cols → k < left.cols →
          ∃ readA readB compute write,
            stream[3 + ((i * right.cols + j) * (3 * left.cols + 1) + 3 * k)]? = some readA
            ∧ stream[3 + ((i * right.cols + j) * (3 * left.cols + 1) + (3 * k + 1))]?
                = some readB
            ∧ stream[3 + ((i * right.cols + j) * (3 * left.cols + 1) + (3 * k + 2))]?
                = some compute
            ∧ stream[3 + ((i * right.cols + j) * (3 * left.cols + 1) + 3 * left.cols)]?
                = some write
            ∧ isRead readA = true ∧ isRead readB = true ∧ isCompute compute = true
            ∧ compute.corePtr = 2 ∧ isWrite write = true
            ∧ 3 * k + 2 < 3 * left.cols)
    ∧ (g.memoryPtr ≤ 63 → left.cols = right.rows →
        (findMatrix matrices c = none
          ∨ ∃ out, findMatrix matrices c = some out ∧ out.rows = left.rows
              ∧ out.cols = right.cols) →
        a ≠ b → a ≠ c → b ≠ c →
        specMatrixSize left.rows left.cols + specMatrixSize right.rows right.cols
          + specMatrixSize left.rows right.cols ≤ 512 →
        ∃ mm3, generateInstructions g MemoryMapper.new matrices
            [{ type := OperationType.MULTIPLY, inputs := [a, b], output := c }]
          = .ok ([Instruction.mkProg 0 CoreOpType.MULTIPLIER g.multiplierConfig,
                Instruction.mkProg 1 CoreOpType.ADDER g.adderConfig,
                Instruction.mkProg 2 CoreOpType.MAC g.macConfig]
              ++ (multiplyStream g.memoryPtr 0 (specMatrixSize left.rows left.cols)
                  (specMatrixSize left.rows left.cols + specMatrixSize right.rows right.cols)
                  left.rows left.cols right.cols
                ++ [createEndInstruction]), mm3)) := by
  refine ⟨?_, fun hg hdim hC hab hac hbc hfit =>
    generateInstructions_eq g matrices a b c left right hg hA hB hdim hC hab hac hbc hfit⟩
  intro mm stream mm3 h
  obtain ⟨_, body, hbody, hs⟩ := generateInstructions_inv g mm matrices a b c left right hA hB
    stream mm3 h
  obtain ⟨hlen, hcount, hpos⟩ := generateBody_layout g mm3 a b c left.rows left.cols
    right.cols body hbody
  have cProg := hcount isProg 0 0 (fun _ _ => rfl) (fun _ => rfl)
  have cRead := hcount isRead 2 0 (fun _ _ => rfl) (fun _ => rfl)
  have cCompute := hcount isCompute 1 0 (fun _ _ => rfl) (fun _ => rfl)
  have cWrite := hcount isWrite 0 1 (fun _ _ => rfl) (fun _ => rfl)
  have cEnd := hcount isEnd 0 0 (fun _ _ => rfl) (fun _ => rfl)
  subst hs
  refine ⟨?_, ?_, ?_, ?_, ?_, ?_, ?_, rfl, ?_⟩
  · rw [List.countP_append, List.countP_append, cProg]
    have e : left.rows * (right.cols * (left.cols * 0 + 0)) = 0 := by simp
    rw [e]
    rfl
  · rw [List.countP_append, List.countP_append, cRead]
    have e : left.rows * (right.cols * (left.cols * 2 + 0))
        = left.rows * right.cols * 2 * left.cols := by ring
    rw [e]
    show 0 + (_ + 0) = _
    omega
  · rw [List.countP_append, List.countP_append, cCompute]
    have e : left.rows * (right.cols * (left.cols * 1 + 0))
        = left.rows * right.cols * left.cols := by ring
    rw [e]
    show 0 + (_ + 0) = _
    omega
  · rw [List.countP_append, List.countP_append, cWrite]
    have e : left.rows * (right.cols * (left.cols * 0 + 1)) = left.rows * right.cols := by ring
    rw [e]
    show 0 + (_ + 0) = _
    omega
  · rw [List.countP_append, List.countP_append, cEnd]
    have e : left.rows * (right.cols * (left.cols * 0 + 0)) = 0 := by simp
    rw [e]
    rfl
  · rw [List.length_append, List.length_append, hlen]
    have e : left.rows * (right.cols * (3 * left.cols + 1))
        = left.rows * right.cols * 2 * left.cols + left.rows * right.cols * left.cols
          + left.rows * right.cols := by ring
    rw [e]
    simp only [List.length_cons, List.length_nil]
    omega
  · rw [← List.append_assoc]
    exact List.getLast?_concat _
  · intro i j k hi hj hk
    have hin : ∀ t, t < 3 * left.cols + 1 →
        (i * right.cols + j) * (3 * left.cols + 1) + t
          < left.rows * (right.cols * (3 * left.cols + 1)) := by
      intro t ht
      have a1 : (j + 1) * (3 * left.cols + 1) ≤ right.cols * (3 * left.cols + 1) :=
        Nat.mul_le_mul_right _ hj
      have a2 : (i + 1) * (right.cols * (3 * left.cols + 1))
          ≤ left.rows * (right.cols * (3 * left.cols + 1)) := Nat.mul_le_mul_right _ hi
      have a3 : (i * right.cols + j) * (3 * left.cols + 1)
          = i * (right.cols * (3 * left.cols + 1)) + j * (3 * left.cols + 1) := by ring
      rw [Nat.succ_mul] at a1 a2
      omega
    obtain ⟨e, he, _⟩ := hpos i j 0 hi hj (by omega)
    obtain ⟨_, _, hsteps, x, hwrite⟩ := generateElement_layout g mm3 a b c i j left.cols e he
    obtain ⟨xa, xb, s0, s1, s2⟩ := hsteps k hk
    have hidx : ∀ t, t < 3 * left.cols + 1 →
        ([Instruction.mkProg 0 CoreOpType.MULTIPLIER g.multiplierConfig,
            Instruction.mkProg 1 CoreOpType.ADDER g.adderConfig,
            Instruction.mkProg 2 CoreOpType.MAC g.macConfig]
          ++ (body ++ [createEndInstruction]))[
            3 + ((i * right.cols + j) * (3 * left.cols + 1) + t)]? = e[t]? := by
      intro t ht
      obtain ⟨e2, he2, hidx2⟩ := hpos i j t hi hj ht
      have ee : e2 = e := by rw [he] at he2; cases he2; rfl
      subst ee
      rw [getElem?_three_append, List.getElem?_append_left (by rw [hlen]; exact hin t ht)]
      exact hidx2
    refine ⟨Instruction.mkExeEnd InstructionType.EXE g.memoryPtr true false xa,
      Instruction.mkExeEnd InstructionType.EXE g.memoryPtr true false xb,
      Instruction.mkExeEnd InstructionType.EXE 2 false false xb,
      Instruction.mkExeEnd InstructionType.EXE g.memoryPtr false true x, ?_, ?_, ?_, ?_, ?_⟩
    · rw [hidx (3 * k) (by omega)]; exact s0
    · rw [hidx (3 * k + 1) (by omega)]; exact s1
    · rw [hidx (3 * k + 2) (by omega)]; exact s2
    · rw [hidx (3 * left.cols) (by omega)]; exact hwrite
    · exact ⟨rfl, rfl, rfl, rfl, rfl, by omega⟩

/-- The generation for a 2 x 3 by 3 x 2 Multiply, C not declared, and its counts. -/
theorem generateInstructions_single_multiply_witness :
    ∃ stream mm3,
      generateInstructions ⟨[1], [2], [3], 0⟩ MemoryMapper.new
          [{ name := "A", rows := 2, cols := 3, isInput := true, isOutput := false },
            { name := "B", rows := 3, cols := 2, isInput := true, isOutput := false }]
          [{ type := OperationType.MULTIPLY, inputs := ["A", "B"], output := "C" }]
        = .ok (stream, mm3)
      ∧ stream.countP isProg = 3
      ∧ stream.countP isRead = 2 * 2 * 2 * 3
      ∧ stream.countP isCompute = 2 * 2 * 3
      ∧ stream.countP isWrite = 2 * 2
      ∧ stream.countP isEnd = 1
      ∧ stream.length = 3 + 2 * 2 * 2 * 3 + 2 * 2 * 3 + 2 * 2 + 1 :=
  have hw := generateInstructions_single_multiply ⟨[1], [2], [3], 0⟩
    [{ name := "A", rows := 2, cols := 3, isInput := true, isOutput := false },
      { name := "B", rows := 3, cols := 2, isInput := true, isOutput := false }]
    "A" "B" "C"
    { name := "A", rows := 2, cols := 3, isInput := true, isOutput := false }
    { name := "B", rows := 3, cols := 2, isInput := true, isOutput := false }
    (by decide) (by decide)
  match hw.2 (by decide) rfl (Or.inl (by decide)) (by decide) (by decide) (by decide)
    (by decide) with
  | ⟨mm3, hgen⟩ =>
    match hw.1 MemoryMapper.new _ mm3 hgen with
    | ⟨h1, h2, h3, h4, h5, h6, _⟩ => ⟨_, mm3, hgen, h1, h2, h3, h4, h5, h6⟩

end Backend

namespace MemoryMap

open PIM_ISA

/-- C21. `reset()` clears all bindings and sets the cursor to 0: after reset, from any state,
`isMatrixMapped(name)` is false for every name, and the next `mapMatrix` of any matrix whose
size is at most 512 rows succeeds and returns 0, also for a name that was mapped before the
reset. -/
theorem reset_clears (m : MemoryMapper) (name : String) (dims : MatrixDimensions) :
    m.reset.matrixMap_ = []
    ∧ m.reset.nextRowAddress_ = 0
    ∧ m.reset.isMatrixMapped name = false
    ∧ (calculateMatrixSize dims ≤ 512 →
        (m.reset.mapMatrix name dims).1 = .ok 0
        ∧ (m.reset.mapMatrix name dims).2.matrixMap_.lookup name = some (0, dims)
        ∧ (m.reset.mapMatrix name dims).2.nextRowAddress_ = calculateMatrixSize dims)
    ∧ (calculateMatrixSize dims > 512 → ∃ e, (m.reset.mapMatrix name dims).1 = .error e) := by
  have hm : m.reset.isMatrixMapped name = false := rfl
  refine ⟨rfl, rfl, hm, ?_, ?_⟩
  · intro hs
    have hfit : m.reset.nextRowAddress_ + calculateMatrixSize dims ≤ 512 := by
      simp only [MemoryMapper.reset]; omega
    rw [mapMatrix_of_fits m.reset name dims hm hfit]
    refine ⟨rfl, lookup_mapAssign_self _ _ _, ?_⟩
    simp [MemoryMapper.reset]
  · intro hs
    have hfull : m.reset.nextRowAddress_ + calculateMatrixSize dims > 512 := by
      simp only [MemoryMapper.reset]; omega
    rw [mapMatrix_of_full m.reset name dims hm hfull]
    exact ⟨_, rfl⟩

/-- C22. Bindings are never mutated once created: for every mapper state and every
`mapMatrix` call (successful or failing), each name that was mapped before the call is still
mapped afterwards with the same start address, the same dimensions and the same address
range, and so after any sequence of `mapMatrix` calls; the other members except `reset` are
queries, which leave the state as it is. -/
theorem bindings_preserved (m : MemoryMapper) (name : String) (start : Nat)
    (dims : MatrixDimensions) (h : m.matrixMap_.lookup name = some (start, dims))
    (n : String) (d : MatrixDimensions) (later : List (String × MatrixDimensions)) :
    (m.mapMatrix n d).2.matrixMap_.lookup name = some (start, dims)
    ∧ (m.mapMatrix n d).2.isMatrixMapped name = true
    ∧ (m.mapMatrix n d).2.getMatrixDimensions name = .ok dims
    ∧ (m.mapMatrix n d).2.getMatrixDimensions name = m.getMatrixDimensions name
    ∧ (m.mapMatrix n d).2.getMatrixAddressRange name = m.getMatrixAddressRange name
    ∧ (m.run (later.map (fun c => Call.mapMatrix c.1 c.2))).matrixMap_.lookup name
        = some (start, dims)
    ∧ (m.run (later.map (fun c => Call.mapMatrix c.1 c.2))).getMatrixDimensions name
        = m.getMatrixDimensions name
    ∧ (m.run (later.map (fun c => Call.mapMatrix c.1 c.2))).getMatrixAddressRange name
        = m.getMatrixAddressRange name := by
  have h1 := lookup_mapMatrix_of_lookup m name (start, dims) n d h
  have h2 := lookup_run_mapMatrix later m name (start, dims) h
  refine ⟨h1, isMatrixMapped_of_lookup _ name start dims h1,
    getMatrixDimensions_of_lookup _ name start dims h1, ?_, ?_, h2, ?_, ?_⟩
  · rw [getMatrixDimensions_of_lookup _ name start dims h1,
      getMatrixDimensions_of_lookup _ name start dims h]
  · rw [getMatrixAddressRange_of_lookup _ name start dims h1,
      getMatrixAddressRange_of_lookup _ name start dims h]
  · rw [getMatrixDimensions_of_lookup _ name start dims h2,
      getMatrixDimensions_of_lookup _ name start dims h]
  · rw [getMatrixAddressRange_of_lookup _ name start dims h2,
      getMatrixAddressRange_of_lookup _ name start dims h]

/-- The binding of "A" after a failing call on "A" and a successful call on "B". -/
theorem bindings_preserved_witness :
    ((MemoryMapper.new.mapMatrix "A" ⟨100, 100⟩).2.mapMatrix "A" ⟨1, 1⟩).2.matrixMap_.lookup "A"
        = some (0, ⟨100, 100⟩)
    ∧ ((MemoryMapper.new.mapMatrix "A" ⟨100, 100⟩).2.run
        ([("B", ⟨3, 2⟩), ("A", ⟨7, 7⟩)].map
          (fun c => Call.mapMatrix c.1 c.2))).matrixMap_.lookup "A" = some (0, ⟨100, 100⟩) :=
  have hw := bindings_preserved (MemoryMapper.new.mapMatrix "A" ⟨100, 100⟩).2 "A" 0 ⟨100, 100⟩
    (by decide) "A" ⟨1, 1⟩ [("B", ⟨3, 2⟩), ("A", ⟨7, 7⟩)]
  ⟨hw.1, hw.2.2.2.2.2.1⟩

/-- What `getMatrixAddressRange` read when it returns. -/
theorem getMatrixAddressRange_ok (m : MemoryMapper) (name : String) (range : AddressRange)
    (h : m.getMatrixAddressRange name = .ok range) :
    ∃ start dims, m.matrixMap_.lookup name = some (start, dims)
      ∧ range = { startAddress := start
                  endAddress := (start + calculateMatrixSize dims - 1) % 2 ^ 16 } := by
  cases hl : m.matrixMap_.lookup name with
  | none =>
    simp [MemoryMapper.getMatrixAddressRange, MemoryMapper.isMatrixMapped, hl] at h
  | some v =>
    obtain ⟨start, dims⟩ := v
    rw [getMatrixAddressRange_of_lookup m name start dims hl] at h
    cases h
    exact ⟨start, dims, rfl, rfl⟩

/-- C23. Every start address handed out fits the 9-bit row-address field: in every state
reachable from construction, whenever `mapMatrix` succeeds its result is at most 511, and the
startAddress and endAddress of `getMatrixAddressRange` of every mapped matrix are at most 511,
so `createMemoryInstruction(ptr, read, write, start)` with ptr <= 63 does not raise for a
mapped matrix's start address. -/
theorem start_address_fits (calls : List Call) :
    (∀ (name : String) (dims : MatrixDimensions) (start : Nat),
        ((MemoryMapper.new.run calls).mapMatrix name dims).1 = .ok start →
        start ≤ 511
        ∧ ∀ (ptr : Nat) (read write : Bool), ptr ≤ 63 →
            ∃ i, createMemoryInstruction ptr read write start = .ok i)
    ∧ (∀ (name : String) (range : AddressRange),
        (MemoryMapper.new.run calls).getMatrixAddressRange name = .ok range →
        range.startAddress ≤ 511 ∧ range.endAddress ≤ 511
        ∧ ∀ (ptr : Nat) (read write : Bool), ptr ≤ 63 →
            ∃ i, createMemoryInstruction ptr read write range.startAddress = .ok i) := by
  have hcreate : ∀ (a ptr : Nat) (read write : Bool), a ≤ 511 → ptr ≤ 63 →
      ∃ i, createMemoryInstruction ptr read write a = .ok i := by
    intro a ptr read write ha hp
    exact ⟨_, by unfold createMemoryInstruction; rw [if_neg (by omega), if_neg (by omega)]⟩
  constructor
  · intro name dims start h
    obtain ⟨_, hfit, _⟩ := mapMatrix_ok _ name dims start h
    have hpos := calculateMatrixSize_pos dims
    have hs : start ≤ 511 := by omega
    exact ⟨hs, fun ptr read write hp => hcreate start ptr read write hs hp⟩
  · intro name range h
    obtain ⟨start, dims, hl, hr⟩ := getMatrixAddressRange_ok _ name range h
    obtain ⟨hc, hin, _⟩ := allocated_run calls MemoryMapper.new allocated_new
    have hend := hin name start dims hl
    have hpos := calculateMatrixSize_pos dims
    have hmod : (start + calculateMatrixSize dims - 1) % 2 ^ 16
        = start + calculateMatrixSize dims - 1 := Nat.mod_eq_of_lt (by omega)
    subst hr
    dsimp only
    rw [hmod]
    have hs : start ≤ 511 := by omega
    exact ⟨hs, by omega, fun ptr read write hp => hcreate start ptr read write hs hp⟩

/-- C30. There exist a mapped matrix and an in-range (row, col) for which
`getElementAddress(name, row, col)` and `getRowAddress(name, row)` return different
addresses: for a 3 x 2 matrix mapped at 0 and row 1, column 0, they are 0 and 1. -/
theorem element_and_row_address_differ :
    ∃ (m : MemoryMapper) (name : String) (start : Nat) (dims : MatrixDimensions)
      (row col a1 a2 : Nat),
      m.matrixMap_.lookup name = some (start, dims) ∧ row < dims.rows ∧ col < dims.cols
      ∧ m.getElementAddress name row col = .ok a1 ∧ m.getRowAddress name row = .ok a2
      ∧ a1 ≠ a2
      ∧ m = (MemoryMapper.new.mapMatrix "A" ⟨3, 2⟩).2 ∧ dims = ⟨3, 2⟩ ∧ row = 1
      ∧ a1 = 0 ∧ a2 = 1 :=
  ⟨(MemoryMapper.new.mapMatrix "A" ⟨3, 2⟩).2, "A", 0, ⟨3, 2⟩, 1, 0, 0, 1, by decide, by decide,
    by decide, by decide, by decide, by decide, rfl, rfl, rfl, rfl, rfl⟩

end MemoryMap

namespace Optimizer

open PIM_ISA Frontend

set_option linter.dupNamespace false

/-- C24. Idempotent pass-through: with the optimization level set to 0 (by
`setOptimizationLevel(0)`, or left at 0 by the constructor), `optimizeOperations(ops)` = ops
and `optimizeInstructions(instrs)` = instrs for every operation list and every instruction
list: same length, same elements, same order. -/
theorem optimize_level_zero (o : Optimizer) (ops : List MatrixOperation)
    (instrs : List Instruction) :
    (o.setOptimizationLevel 0).optimizationLevel_ = 0
    ∧ (o.setOptimizationLevel 0).optimizeOperations ops = ops
    ∧ (o.setOptimizationLevel 0).optimizeInstructions instrs = instrs
    ∧ ((o.setOptimizationLevel 0).optimizeOperations ops).length = ops.length
    ∧ ((o.setOptimizationLevel 0).optimizeInstructions instrs).length = instrs.length
    ∧ (∀ k : Nat, ((o.setOptimizationLevel 0).optimizeOperations ops)[k]? = ops[k]?)
    ∧ (∀ k : Nat, ((o.setOptimizationLevel 0).optimizeInstructions instrs)[k]? = instrs[k]?)
    ∧ Optimizer.new.optimizeOperations ops = ops
    ∧ Optimizer.new.optimizeInstructions instrs = instrs
    ∧ (o.optimizationLevel_ = 0 →
        o.optimizeOperations ops = ops ∧ o.optimizeInstructions instrs = instrs) := by
  have h0 : (o.setOptimizationLevel 0).optimizationLevel_ = 0 := by
    simp [Optimizer.setOptimizationLevel]
  have key : ∀ o2 : Optimizer, o2.optimizationLevel_ = 0 →
      o2.optimizeOperations ops = ops ∧ o2.optimizeInstructions instrs = instrs := by
    intro o2 h
    simp [Optimizer.optimizeOperations, Optimizer.optimizeInstructions, h]
  obtain ⟨e1, e2⟩ := key _ h0
  obtain ⟨n1, n2⟩ := key Optimizer.new rfl
  refine ⟨h0, e1, e2, ?_, ?_, ?_, ?_, n1, n2, key o⟩
  · rw [e1]
  · rw [e2]
  · intro k; rw [e1]
  · intro k; rw [e2]

/-- C25. `Optimizer::setOptimizationLevel(level)` stores level when 0 <= level <= 3 and
stores 0 for every other integer (negative or above 3); it never fails, so after any call the
stored level is in [0, 3]; the verbosity flag is left as it was. -/
theorem setOptimizationLevel_clamps (o : Optimizer) (level : Int) :
    (0 ≤ level ∧ level ≤ 3 → (o.setOptimizationLevel level).optimizationLevel_ = level)
    ∧ (level < 0 ∨ level > 3 → (o.setOptimizationLevel level).optimizationLevel_ = 0)
    ∧ 0 ≤ (o.setOptimizationLevel level).optimizationLevel_
    ∧ (o.setOptimizationLevel level).optimizationLevel_ ≤ 3
    ∧ (o.setOptimizationLevel level).verbose_ = o.verbose_ := by
  by_cases h : level < 0 ∨ level > 3
  · have e : o.setOptimizationLevel level = { o with optimizationLevel_ := 0 } := by
      simp only [Optimizer.setOptimizationLevel, if_pos h]
    rw [e]
    refine ⟨fun h2 => ?_, fun _ => rfl, ?_, ?_, rfl⟩
    · omega
    · show (0 : Int) ≤ 0
      omega
    · show (0 : Int) ≤ 3
      omega
  · have e : o.setOptimizationLevel level = { o with optimizationLevel_ := level } := by
      simp only [Optimizer.setOptimizationLevel, if_neg h]
    rw [e]
    refine ⟨fun _ => rfl, fun h2 => absurd h2 h, ?_, ?_, rfl⟩
    · show 0 ≤ level
      omega
    · show level ≤ 3
      omega

end Optimizer

namespace Frontend

/-- Inserting a new key binds it to the inserted value. -/
theorem lookup_insertSorted_self (l : List (String × MatrixInfo)) (key : String)
    (value : MatrixInfo) (h : l.lookup key = none) :
    (insertSorted l key value).lookup key = some value := by
  induction l with
  | nil => simp [insertSorted, List.lookup]
  | cons kv rest ih =>
    obtain ⟨k, v⟩ := kv
    have hk : (key == k) = false := by
      cases hb : (key == k) with
      | false => rfl
      | true => simp [List.lookup, hb] at h
    have hrest : rest.lookup key = none := by
      simpa [List.lookup, hk] using h
    unfold insertSorted
    by_cases hlt : stringLess key k = true
    · simp [hlt, List.lookup]
    · simp only [hlt, if_false, List.lookup, hk]
      exact ih hrest

/-- Inserting a key leaves every other key as it was. -/
theorem lookup_insertSorted_ne (l : List (String × MatrixInfo)) (key other : String)
    (value : MatrixInfo) (h : other ≠ key) :
    (insertSorted l key value).lookup other = l.lookup other := by
  have ho : (other == key) = false := by simpa using h
  induction l with
  | nil => simp [insertSorted, List.lookup, ho]
  | cons kv rest ih =>
    obtain ⟨k, v⟩ := kv
    unfold insertSorted
    by_cases hlt : stringLess key k = true
    · simp only [hlt, if_true]
      rw [List.lookup, ho]
    · simp only [hlt, if_false]
      cases hb : (other == k) with
      | true => simp [List.lookup, hb]
      | false => simp only [List.lookup, hb]; exact ih

/-- An insertion on a key that is absent binds it to the inserted value. -/
theorem lookup_mapInsert_new (l : List (String × MatrixInfo)) (key : String)
    (value : MatrixInfo) (h : l.lookup key = none) :
    (mapInsert l key value).lookup key = some value := by
  simp only [mapInsert, h, Option.isSome_none, Bool.false_eq_true, if_false]
  exact lookup_insertSorted_self l key value h

/-- An insertion on a key that is present changes nothing. -/
theorem mapInsert_of_some (l : List (String × MatrixInfo)) (key : String)
    (value old : MatrixInfo) (h : l.lookup key = some old) : mapInsert l key value = l := by
  simp [mapInsert, h]

/-- An insertion leaves every other key as it was. -/
theorem lookup_mapInsert_other (l : List (String × MatrixInfo)) (key other : String)
    (value : MatrixInfo) (h : other ≠ key) :
    (mapInsert l key value).lookup other = l.lookup other := by
  unfold mapInsert
  by_cases hs : (l.lookup key).isSome = true
  · rw [if_pos hs]
  · rw [if_neg hs]
    exact lookup_insertSorted_ne l key other value h

/-- Marking an output, entry by entry: the keys stay, the entry of the output gets its
`isOutput` flag set. -/
theorem markOutput_cons (k : String) (v : MatrixInfo) (rest : List (String × MatrixInfo))
    (outputName : String) :
    markOutput ((k, v) :: rest) outputName
      = (k, if k = outputName then { v with isOutput := true } else v)
        :: markOutput rest outputName := by
  unfold markOutput
  by_cases h : k = outputName
  · simp [List.map, h]
  · have hb : (k == outputName) = false := by simpa using h
    simp [List.map, h]

/-- Marking an output changes the `isOutput` flag of its entry and nothing else. -/
theorem lookup_markOutput (l : List (String × MatrixInfo)) (outputName k : String) :
    (markOutput l outputName).lookup k
      = (l.lookup k).map
          (fun v => if k = outputName then { v with isOutput := true } else v) := by
  induction l with
  | nil => rfl
  | cons kv rest ih =>
    obtain ⟨k2, v2⟩ := kv
    rw [markOutput_cons]
    cases hb : (k == k2) with
    | true =>
      have hk : k = k2 := by simpa using hb
      subst hk
      simp [List.lookup]
    | false =>
      simp only [List.lookup, hb]
      exact ih

/-- A statement whose first input is not in the table: the first throw. -/
theorem multiply_missing_first (p : Parser) (s : MultiplyMatch)
    (h : p.hasMatrix s.inputName1 = false) :
    p.multiply s
      = (.error (.runtime_error
          ("Matrix '" ++ s.inputName1 ++ "' used in operation but not declared")), p) := by
  simp [Parser.multiply, h]

/-- A statement whose second input is not in the table: the second throw. -/
theorem multiply_missing_second (p : Parser) (s : MultiplyMatch)
    (h1 : p.hasMatrix s.inputName1 = true) (h2 : p.hasMatrix s.inputName2 = false) :
    p.multiply s
      = (.error (.runtime_error
          ("Matrix '" ++ s.inputName2 ++ "' used in operation but not declared")), p) := by
  simp [Parser.multiply, h1, h2]

/-- A statement with known inputs of agreeing shapes and a new output. -/
theorem multiply_new_output (p : Parser) (s : MultiplyMatch) (m1 m2 : MatrixInfo)
    (h1 : p.matrices_.lookup s.inputName1 = some m1)
    (h2 : p.matrices_.lookup s.inputName2 = some m2)
    (ho : p.matrices_.lookup s.outputName = none) (hd : m1.cols = m2.rows) :
    p.multiply s
      = (.ok (),
          { matrices_ := markOutput
              (mapInsert p.matrices_ s.outputName
                { name := s.outputName, rows := m1.rows, cols := m2.cols, isInput := false,
                  isOutput := true }) s.outputName,
            operations_ := p.operations_ ++
              [{ type := OperationType.MULTIPLY, inputs := [s.inputName1, s.inputName2],
                 output := s.outputName }] }) := by
  simp [Parser.multiply, Parser.hasMatrix, Parser.createOutput, Parser.getMatrixInfo, h1, h2,
    ho, hd]

/-- A statement with known inputs of disagreeing shapes and a new output: the third throw. -/
theorem multiply_mismatch (p : Parser) (s : MultiplyMatch) (m1 m2 : MatrixInfo)
    (h1 : p.matrices_.lookup s.inputName1 = some m1)
    (h2 : p.matrices_.lookup s.inputName2 = some m2)
    (ho : p.matrices_.lookup s.outputName = none) (hd : m1.cols ≠ m2.rows) :
    p.multiply s
      = (.error (.runtime_error (dimensionMessage s.inputName1 s.inputName2 m1 m2)), p) := by
  simp [Parser.multiply, Parser.hasMatrix, Parser.createOutput, Parser.getMatrixInfo, h1, h2,
    ho, hd]

/-- A statement with known inputs and an output that is already in the table: the shapes of
the inputs are not looked at. -/
theorem multiply_existing_output (p : Parser) (s : MultiplyMatch) (m1 m2 mo : MatrixInfo)
    (h1 : p.matrices_.lookup s.inputName1 = some m1)
    (h2 : p.matrices_.lookup s.inputName2 = some m2)
    (ho : p.matrices_.lookup s.outputName = some mo) :
    p.multiply s
      = (.ok (),
          { matrices_ := markOutput p.matrices_ s.outputName,
            operations_ := p.operations_ ++
              [{ type := OperationType.MULTIPLY, inputs := [s.inputName1, s.inputName2],
                 output := s.outputName }] }) := by
  simp [Parser.multiply, Parser.hasMatrix, Parser.createOutput, h1, h2, ho]

/-- C26. Dimension check, at the input where the code leaves it: for the declarations
A(3,2), B(3,4), C(3,4) and the statement C = A * B, where `left.cols` = 2 and `right.rows` = 3,
`parseFile` returns true and the operation is produced, because the check sits inside the
branch that creates an undeclared output; with C not declared the same statement fails and no
operation is produced. In general a statement whose output is in the table passes whatever the
shapes of its inputs are, and one whose output is new fails on disagreeing shapes and leaves
the parser as it was. -/
theorem dimension_check_skipped_for_declared_output :
    Parser.new.parseFile (some ([⟨"A", 3, 2⟩, ⟨"B", 3, 4⟩, ⟨"C", 3, 4⟩], [⟨"C", "A", "B"⟩]))
      = (true,
          { matrices_ := [("A", ⟨"A", 3, 2, true, false⟩), ("B", ⟨"B", 3, 4, true, false⟩),
              ("C", ⟨"C", 3, 4, true, true⟩)],
            operations_ := [⟨OperationType.MULTIPLY, ["A", "B"], "C"⟩] })
    ∧ Parser.new.parseFile (some ([⟨"A", 3, 2⟩, ⟨"B", 3, 4⟩], [⟨"C", "A", "B"⟩]))
      = (false,
          { matrices_ := [("A", ⟨"A", 3, 2, true, false⟩), ("B", ⟨"B", 3, 4, true, false⟩)],
            operations_ := [] })
    ∧ (∀ (p : Parser) (s : MultiplyMatch) (m1 m2 mo : MatrixInfo),
        p.matrices_.lookup s.inputName1 = some m1 →
        p.matrices_.lookup s.inputName2 = some m2 →
        p.matrices_.lookup s.outputName = some mo →
        (p.multiply s).1 = .ok ()
        ∧ (p.multiply s).2.operations_ = p.operations_ ++
            [⟨OperationType.MULTIPLY, [s.inputName1, s.inputName2], s.outputName⟩])
    ∧ (∀ (p : Parser) (s : MultiplyMatch) (m1 m2 : MatrixInfo),
        p.matrices_.lookup s.inputName1 = some m1 →
        p.matrices_.lookup s.inputName2 = some m2 →
        p.matrices_.lookup s.outputName = none → m1.cols ≠ m2.rows →
        p.multiply s
          = (.error (.runtime_error (dimensionMessage s.inputName1 s.inputName2 m1 m2)),
              p)) := by
  refine ⟨by decide, by decide, ?_, ?_⟩
  · intro p s m1 m2 mo h1 h2 ho
    rw [multiply_existing_output p s m1 m2 mo h1 h2 ho]
    exact ⟨rfl, rfl⟩
  · intro p s m1 m2 h1 h2 ho hd
    exact multiply_mismatch p s m1 m2 h1 h2 ho hd

/-- C29. Both flags, at the input where the code leaves the claim: for the declarations
A(8,6), B(6,10), C(8,10) and the statement C = A * B (the program of `complex_test.cpp`) the
parse succeeds and C has isInput = true and isOutput = true, although the only operation has
inputs A and B, so C is not an input of any operation. -/
theorem declared_output_keeps_input_flag :
    (Parser.new.parseFile
        (some ([⟨"A", 8, 6⟩, ⟨"B", 6, 10⟩, ⟨"C", 8, 10⟩], [⟨"C", "A", "B"⟩]))).1 = true
    ∧ (Parser.new.parseFile
        (some ([⟨"A", 8, 6⟩, ⟨"B", 6, 10⟩, ⟨"C", 8, 10⟩], [⟨"C", "A", "B"⟩]))).2.getMatrices
      = [⟨"A", 8, 6, true, false⟩, ⟨"B", 6, 10, true, false⟩, ⟨"C", 8, 10, true, true⟩]
    ∧ (Parser.new.parseFile
        (some ([⟨"A", 8, 6⟩, ⟨"B", 6, 10⟩, ⟨"C", 8, 10⟩], [⟨"C", "A", "B"⟩]))).2.getOperations
      = [⟨OperationType.MULTIPLY, ["A", "B"], "C"⟩]
    ∧ (∀ op ∈ (Parser.new.parseFile
        (some ([⟨"A", 8, 6⟩, ⟨"B", 6, 10⟩, ⟨"C", 8, 10⟩],
          [⟨"C", "A", "B"⟩]))).2.getOperations, "C" ∉ op.inputs) := by
  refine ⟨by decide, by decide, by decide, by decide⟩

/-- A key that is in the table stays in it under an insertion. -/
theorem isSome_lookup_mapInsert (l : List (String × MatrixInfo)) (key k : String)
    (value : MatrixInfo) (h : (l.lookup k).isSome = true) :
    ((mapInsert l key value).lookup k).isSome = true := by
  by_cases hk : k = key
  · subst hk
    obtain ⟨old, ho⟩ := Option.isSome_iff_exists.mp h
    rw [mapInsert_of_some l k value old ho]
    exact h
  · rw [lookup_mapInsert_other l key k value hk]
    exact h

/-- A key is in the table after marking an output exactly when it was before. -/
theorem isSome_lookup_markOutput (l : List (String × MatrixInfo)) (outputName k : String) :
    ((markOutput l outputName).lookup k).isSome = (l.lookup k).isSome := by
  rw [lookup_markOutput]
  cases l.lookup k <;> rfl

/-- The names stored in the table stay the keys under an insertion of a record stored under
its own name. -/
theorem name_lookup_mapInsert (l : List (String × MatrixInfo)) (key : String)
    (value : MatrixInfo) (hv : value.name = key)
    (h : ∀ (k : String) (v : MatrixInfo), l.lookup k = some v → v.name = k) :
    ∀ (k : String) (v : MatrixInfo), (mapInsert l key value).lookup k = some v → v.name = k := by
  intro k v hl
  by_cases hk : k = key
  · subst hk
    cases ho : l.lookup k with
    | none =>
      rw [lookup_mapInsert_new l k value ho] at hl
      cases hl
      exact hv
    | some old =>
      rw [mapInsert_of_some l k value old ho] at hl
      exact h k v hl
  · rw [lookup_mapInsert_other l key k value hk] at hl
    exact h k v hl

/-- The names stored in the table stay the keys when an output is marked. -/
theorem name_lookup_markOutput (l : List (String × MatrixInfo)) (outputName : String)
    (h : ∀ (k : String) (v : MatrixInfo), l.lookup k = some v → v.name = k) :
    ∀ (k : String) (v : MatrixInfo),
      (markOutput l outputName).lookup k = some v → v.name = k := by
  intro k v hl
  rw [lookup_markOutput] at hl
  cases ho : l.lookup k with
  | none => rw [ho] at hl; cases hl
  | some old =>
    rw [ho] at hl
    simp only [Option.map_some', Option.some.injEq] at hl
    have hn := h k old ho
    by_cases hk : k = outputName
    · rw [if_pos hk] at hl
      rw [← hl]
      exact hn
    · rw [if_neg hk] at hl
      rw [← hl]
      exact hn

/-- The empty parser satisfies the reference invariant. -/
theorem wellReferenced_new : Parser.new.WellReferenced := by
  constructor
  · intro k v h; simp [Parser.new] at h
  · intro op h; simp [Parser.new] at h

/-- A declaration keeps the reference invariant. -/
theorem wellReferenced_declare (p : Parser) (d : DeclarationMatch) (h : p.WellReferenced) :
    (p.declare d).2.WellReferenced := by
  unfold Parser.declare
  cases stoi d.rows with
  | error e => exact h
  | ok rows =>
    cases stoi d.cols with
    | error e => exact h
    | ok cols =>
      obtain ⟨hn, hops⟩ := h
      refine ⟨name_lookup_mapInsert _ _ _ rfl hn, ?_⟩
      intro op hop
      obtain ⟨ht, i1, i2, hi, a1, a2, a3⟩ := hops op hop
      exact ⟨ht, i1, i2, hi, isSome_lookup_mapInsert _ _ _ _ a1,
        isSome_lookup_mapInsert _ _ _ _ a2, isSome_lookup_mapInsert _ _ _ _ a3⟩

/-- Appending an operation whose three names are in the table, after marking its output, keeps
the reference invariant. -/
theorem wellReferenced_record (l : List (String × MatrixInfo)) (ops : List MatrixOperation)
    (s : MultiplyMatch) (h : Parser.WellReferenced { matrices_ := l, operations_ := ops })
    (h1 : (l.lookup s.inputName1).isSome = true) (h2 : (l.lookup s.inputName2).isSome = true)
    (ho : (l.lookup s.outputName).isSome = true) :
    Parser.WellReferenced
      { matrices_ := markOutput l s.outputName,
        operations_ := ops ++
          [{ type := OperationType.MULTIPLY, inputs := [s.inputName1, s.inputName2],
             output := s.outputName }] } := by
  obtain ⟨hn, hops⟩ := h
  refine ⟨name_lookup_markOutput _ _ hn, ?_⟩
  intro op hop
  simp only [Parser.hasMatrix, isSome_lookup_markOutput]
  rcases List.mem_append.mp hop with hold | hnew
  · exact hops op hold
  · rw [List.mem_singleton] at hnew
    subst hnew
    exact ⟨rfl, s.inputName1, s.inputName2, rfl, h1, h2, ho⟩

/-- A multiplication statement keeps the reference invariant, whether it succeeds or throws. -/
theorem wellReferenced_multiply (p : Parser) (s : MultiplyMatch) (h : p.WellReferenced) :
    (p.multiply s).2.WellReferenced := by
  cases h1 : p.matrices_.lookup s.inputName1 with
  | none =>
    rw [multiply_missing_first p s (by simp [Parser.hasMatrix, h1])]
    exact h
  | some m1 =>
    cases h2 : p.matrices_.lookup s.inputName2 with
    | none =>
      rw [multiply_missing_second p s (by simp [Parser.hasMatrix, h1])
        (by simp [Parser.hasMatrix, h2])]
      exact h
    | some m2 =>
      cases ho : p.matrices_.lookup s.outputName with
      | some mo =>
        rw [multiply_existing_output p s m1 m2 mo h1 h2 ho]
        exact wellReferenced_record p.matrices_ p.operations_ s h (by rw [h1]; rfl)
          (by rw [h2]; rfl) (by rw [ho]; rfl)
      | none =>
        by_cases hd : m1.cols = m2.rows
        · rw [multiply_new_output p s m1 m2 h1 h2 ho hd]
          obtain ⟨hn, hops⟩ := h
          apply wellReferenced_record
          · refine ⟨name_lookup_mapInsert _ _ _ rfl hn, ?_⟩
            intro op hop
            obtain ⟨ht, i1, i2, hi, a1, a2, a3⟩ := hops op hop
            exact ⟨ht, i1, i2, hi, isSome_lookup_mapInsert _ _ _ _ a1,
              isSome_lookup_mapInsert _ _ _ _ a2, isSome_lookup_mapInsert _ _ _ _ a3⟩
          · exact isSome_lookup_mapInsert _ _ _ _ (by rw [h1]; rfl)
          · exact isSome_lookup_mapInsert _ _ _ _ (by rw [h2]; rfl)
          · rw [lookup_mapInsert_new _ _ _ ho]; rfl
        · rw [multiply_mismatch p s m1 m2 h1 h2 ho hd]
          exact h

/-- The declaration pass keeps the reference invariant. -/
theorem wellReferenced_parseMatrixDeclarations (decls : List DeclarationMatch) :
    ∀ p : Parser, p.WellReferenced → (p.parseMatrixDeclarations decls).2.WellReferenced := by
  induction decls with
  | nil => intro p h; exact h
  | cons d rest ih =>
    intro p h
    have hd := wellReferenced_declare p d h
    unfold Parser.parseMatrixDeclarations
    rcases hr : p.declare d with ⟨r, p1⟩
    rw [hr] at hd
    cases r with
    | error e => exact hd
    | ok u => exact ih p1 hd

/-- The operation pass keeps the reference invariant. -/
theorem wellReferenced_parseMatrixOperations (stmts : List MultiplyMatch) :
    ∀ p : Parser, p.WellReferenced → (p.parseMatrixOperations stmts).2.WellReferenced := by
  induction stmts with
  | nil => intro p h; exact h
  | cons s rest ih =>
    intro p h
    have hs := wellReferenced_multiply p s h
    unfold Parser.parseMatrixOperations
    rcases hr : p.multiply s with ⟨r, p1⟩
    rw [hr] at hs
    cases r with
    | error e => exact hs
    | ok u => exact ih p1 hs

/-- The operation pass on a statement followed by others. -/
theorem parseMatrixOperations_cons (p : Parser) (s : MultiplyMatch)
    (rest : List MultiplyMatch) :
    p.parseMatrixOperations (s :: rest)
      = match p.multiply s with
        | (.error e, p1) => (.error e, p1)
        | (.ok _, p1) => Parser.parseMatrixOperations p1 rest := rfl

/-- The operation pass on a list of statements with a succeeding front part continues from the
state that part leaves. -/
theorem parseMatrixOperations_append_ok (pre rest : List MultiplyMatch) :
    ∀ p : Parser, (p.parseMatrixOperations pre).1 = .ok () →
      p.parseMatrixOperations (pre ++ rest)
        = (p.parseMatrixOperations pre).2.parseMatrixOperations rest := by
  induction pre with
  | nil => intro p _; rfl
  | cons s more ih =>
    intro p h
    rw [List.cons_append]
    rcases hr : p.multiply s with ⟨r, p1⟩
    cases r with
    | error e =>
      rw [parseMatrixOperations_cons, hr] at h
      cases h
    | ok u =>
      rw [parseMatrixOperations_cons, hr] at h
      rw [parseMatrixOperations_cons p s (more ++ rest), parseMatrixOperations_cons p s more, hr]
      exact ih p1 h

/-- The operation pass fails on a list of statements whose front part fails. -/
theorem parseMatrixOperations_append_error (pre rest : List MultiplyMatch) :
    ∀ (p : Parser) (e : Exn), (p.parseMatrixOperations pre).1 = .error e →
      (p.parseMatrixOperations (pre ++ rest)).1 = .error e := by
  induction pre with
  | nil => intro p e h; cases h
  | cons s more ih =>
    intro p e h
    rw [List.cons_append]
    rcases hr : p.multiply s with ⟨r, p1⟩
    rw [parseMatrixOperations_cons, hr] at h
    rw [parseMatrixOperations_cons, hr]
    cases r with
    | error e2 => exact h
    | ok u => exact ih p1 e h

/-- The result of `parseFile` is `true` exactly when both passes return, and the state left is
the one of the operation pass. -/
theorem parseFile_true (p : Parser) (decls : List DeclarationMatch)
    (stmts : List MultiplyMatch) :
    ((p.parseFile (some (decls, stmts))).1 = true ↔
      (Parser.new.parseMatrixDeclarations decls).1 = .ok ()
      ∧ ((Parser.new.parseMatrixDeclarations decls).2.parseMatrixOperations stmts).1 = .ok ())
    ∧ ((p.parseFile (some (decls, stmts))).1 = true →
        (p.parseFile (some (decls, stmts))).2
          = ((Parser.new.parseMatrixDeclarations decls).2.parseMatrixOperations stmts).2) := by
  unfold Parser.parseFile Parser.new
  rcases hd : Parser.parseMatrixDeclarations { matrices_ := [], operations_ := [] } decls
    with ⟨r1, p1⟩
  cases r1 with
  | error e => simp [hd]
  | ok u =>
    rcases ho : Parser.parseMatrixOperations p1 stmts with ⟨r2, p2⟩
    cases r2 with
    | error e => simp [hd, ho]
    | ok u2 => simp [hd, ho]

/-- A record stored in the table is one of the records `getMatrices` returns. -/
theorem mem_getMatrices_of_lookup (p : Parser) (k : String) (v : MatrixInfo)
    (h : p.matrices_.lookup k = some v) : v ∈ p.getMatrices := by
  unfold Parser.getMatrices
  generalize p.matrices_ = l at h
  induction l with
  | nil => cases h
  | cons kv rest ih =>
    obtain ⟨k2, v2⟩ := kv
    rw [List.lookup_cons] at h
    cases hb : (k == k2) with
    | true =>
      rw [hb] at h
      cases h
      exact List.mem_cons_self _ _
    | false =>
      rw [hb] at h
      exact List.mem_cons_of_mem _ (ih h)

/-- In a parser state with the reference invariant, a name that is in the table is the name of
a record that `getMatrices` returns. -/
theorem exists_getMatrices_of_hasMatrix (p : Parser) (h : p.WellReferenced) (k : String)
    (hk : p.hasMatrix k = true) : ∃ mi ∈ p.getMatrices, mi.name = k := by
  obtain ⟨v, hv⟩ := Option.isSome_iff_exists.mp hk
  exact ⟨v, mem_getMatrices_of_lookup p k v hv, h.1 k v hv⟩

/-- A key that is in the table after an insertion was in it before or is the inserted key. -/
theorem isSome_lookup_of_mapInsert (l : List (String × MatrixInfo)) (key k : String)
    (value : MatrixInfo) (h : ((mapInsert l key value).lookup k).isSome = true) :
    (l.lookup k).isSome = true ∨ k = key := by
  by_cases hk : k = key
  · exact Or.inr hk
  · rw [lookup_mapInsert_other l key k value hk] at h
    exact Or.inl h

/-- A name in the table after a declaration was in it before or is the declared name. -/
theorem hasMatrix_of_declare (p : Parser) (d : DeclarationMatch) (k : String)
    (h : (p.declare d).2.hasMatrix k = true) : p.hasMatrix k = true ∨ k = d.name := by
  unfold Parser.declare at h
  cases hr : stoi d.rows with
  | error e => rw [hr] at h; exact Or.inl h
  | ok rows =>
    rw [hr] at h
    cases hc : stoi d.cols with
    | error e => rw [hc] at h; exact Or.inl h
    | ok cols =>
      rw [hc] at h
      exact isSome_lookup_of_mapInsert _ _ _ _ h

/-- A name in the table after a multiplication statement was in it before or is the output of
the statement. -/
theorem hasMatrix_of_multiply (p : Parser) (s : MultiplyMatch) (k : String)
    (h : (p.multiply s).2.hasMatrix k = true) : p.hasMatrix k = true ∨ k = s.outputName := by
  cases h1 : p.matrices_.lookup s.inputName1 with
  | none =>
    rw [multiply_missing_first p s (by simp [Parser.hasMatrix, h1])] at h
    exact Or.inl h
  | some m1 =>
    cases h2 : p.matrices_.lookup s.inputName2 with
    | none =>
      rw [multiply_missing_second p s (by simp [Parser.hasMatrix, h1])
        (by simp [Parser.hasMatrix, h2])] at h
      exact Or.inl h
    | some m2 =>
      cases ho : p.matrices_.lookup s.outputName with
      | some mo =>
        rw [multiply_existing_output p s m1 m2 mo h1 h2 ho] at h
        simp only [Parser.hasMatrix, isSome_lookup_markOutput] at h
        exact Or.inl h
      | none =>
        by_cases hd : m1.cols = m2.rows
        · rw [multiply_new_output p s m1 m2 h1 h2 ho hd] at h
          simp only [Parser.hasMatrix, isSome_lookup_markOutput] at h
          exact isSome_lookup_of_mapInsert _ _ _ _ h
        · rw [multiply_mismatch p s m1 m2 h1 h2 ho hd] at h
          exact Or.inl h

/-- The names in the table after the declaration pass were in it before or are declared. -/
theorem hasMatrix_of_parseMatrixDeclarations (decls : List DeclarationMatch) (k : String) :
    ∀ p : Parser, (p.parseMatrixDeclarations decls).2.hasMatrix k = true →
      p.hasMatrix k = true ∨ k ∈ decls.map DeclarationMatch.name := by
  induction decls with
  | nil => intro p h; exact Or.inl h
  | cons d rest ih =>
    intro p h
    unfold Parser.parseMatrixDeclarations at h
    have hd := hasMatrix_of_declare p d k
    rcases hr : p.declare d with ⟨r, p1⟩
    rw [hr] at h hd
    have hhead : p1.hasMatrix k = true → p.hasMatrix k = true
        ∨ k ∈ (d :: rest).map DeclarationMatch.name := by
      intro h1
      rcases hd h1 with a | a
      · exact Or.inl a
      · exact Or.inr (by rw [List.map_cons, a]; exact List.mem_cons_self _ _)
    cases r with
    | error e => exact hhead h
    | ok u =>
      rcases ih p1 h with a | a
      · exact hhead a
      · exact Or.inr (by rw [List.map_cons]; exact List.mem_cons_of_mem _ a)

/-- The names in the table after the operation pass were in it before or are outputs of the
statements. -/
theorem hasMatrix_of_parseMatrixOperations (stmts : List MultiplyMatch) (k : String) :
    ∀ p : Parser, (p.parseMatrixOperations stmts).2.hasMatrix k = true →
      p.hasMatrix k = true ∨ k ∈ stmts.map MultiplyMatch.outputName := by
  induction stmts with
  | nil => intro p h; exact Or.inl h
  | cons s rest ih =>
    intro p h
    rw [parseMatrixOperations_cons] at h
    have hd := hasMatrix_of_multiply p s k
    rcases hr : p.multiply s with ⟨r, p1⟩
    rw [hr] at h hd
    have hhead : p1.hasMatrix k = true → p.hasMatrix k = true
        ∨ k ∈ (s :: rest).map MultiplyMatch.outputName := by
      intro h1
      rcases hd h1 with a | a
      · exact Or.inl a
      · exact Or.inr (by rw [List.map_cons, a]; exact List.mem_cons_self _ _)
    cases r with
    | error e => exact hhead h
    | ok u =>
      rcases ih p1 h with a | a
      · exact hhead a
      · exact Or.inr (by rw [List.map_cons]; exact List.mem_cons_of_mem _ a)

/-- A statement with an input that is not in the table when the statement is reached makes
`parseFile` return `false`. -/
theorem parseFile_missing_input (p : Parser) (decls : List DeclarationMatch)
    (pre post : List MultiplyMatch) (s : MultiplyMatch)
    (h : ((Parser.new.parseMatrixDeclarations decls).2.parseMatrixOperations pre).2.hasMatrix
            s.inputName1 = false
      ∨ ((Parser.new.parseMatrixDeclarations decls).2.parseMatrixOperations pre).2.hasMatrix
            s.inputName2 = false) :
    (p.parseFile (some (decls, pre ++ s :: post))).1 = false := by
  cases hres : (p.parseFile (some (decls, pre ++ s :: post))).1 with
  | false => rfl
  | true =>
    exfalso
    obtain ⟨_, hops⟩ := (parseFile_true p decls (pre ++ s :: post)).1.mp hres
    generalize (Parser.new.parseMatrixDeclarations decls).2 = p1 at h hops
    cases hpre : (p1.parseMatrixOperations pre).1 with
    | error e =>
      rw [parseMatrixOperations_append_error pre (s :: post) p1 e hpre] at hops
      cases hops
    | ok u =>
      rw [parseMatrixOperations_append_ok pre (s :: post) p1 hpre,
        parseMatrixOperations_cons] at hops
      generalize (p1.parseMatrixOperations pre).2 = p2 at h hops
      cases h1 : p2.hasMatrix s.inputName1 with
      | false =>
        rw [multiply_missing_first p2 s h1] at hops
        cases hops
      | true =>
        rcases h with h | h
        · rw [h1] at h; cases h
        · rw [multiply_missing_second p2 s h1 h] at hops
          cases hops

/-- After a parse that returned `true`, the parser state has the reference invariant. -/
theorem wellReferenced_parseFile (p : Parser)
    (src : Option (List DeclarationMatch × List MultiplyMatch))
    (h : (p.parseFile src).1 = true) : (p.parseFile src).2.WellReferenced := by
  cases src with
  | none => cases h
  | some both =>
    obtain ⟨decls, stmts⟩ := both
    rw [(parseFile_true p decls stmts).2 h]
    exact wellReferenced_parseMatrixOperations stmts _
      (wellReferenced_parseMatrixDeclarations decls _ wellReferenced_new)

/-- C28, at the input where the code leaves the claim: for the only declaration A(2,2) and
the statements C = A * A; D = C * A, the left input C of the second statement is not among
the declared matrices, and `parseFile` returns `true` with both operations: C was created by
the first statement, and the check of the inputs looks in the table, not in the
declarations. -/
theorem earlier_output_accepted_as_input :
    (Parser.new.parseFile
        (some ([⟨"A", 2, 2⟩], [⟨"C", "A", "A"⟩, ⟨"D", "C", "A"⟩]))).1 = true
    ∧ "C" ∉ ([⟨"A", 2, 2⟩] : List DeclarationMatch).map DeclarationMatch.name
    ∧ (Parser.new.parseMatrixDeclarations [⟨"A", 2, 2⟩]).2.hasMatrix "C" = false
    ∧ ((Parser.new.parseMatrixDeclarations [⟨"A", 2, 2⟩]).2.parseMatrixOperations
        [⟨"C", "A", "A"⟩]).2.hasMatrix "C" = true
    ∧ (Parser.new.parseFile
        (some ([⟨"A", 2, 2⟩], [⟨"C", "A", "A"⟩, ⟨"D", "C", "A"⟩]))).2.getMatrices
      = [⟨"A", 2, 2, true, false⟩, ⟨"C", 2, 2, false, true⟩, ⟨"D", 2, 2, false, true⟩]
    ∧ (Parser.new.parseFile
        (some ([⟨"A", 2, 2⟩], [⟨"C", "A", "A"⟩, ⟨"D", "C", "A"⟩]))).2.getOperations
      = [⟨OperationType.MULTIPLY, ["A", "A"], "C"⟩, ⟨OperationType.MULTIPLY, ["C", "A"], "D"⟩] := by
  refine ⟨by decide, by decide, by decide, by decide, by decide, by decide⟩

/-- C28 (amended). Missing reference is fatal. A multiply statement reached with an input
(left or right) that is not in the table of the parser, which holds the declared matrices and
the outputs of the statements before it, makes `parseFile` return `false`; so does in
particular a statement with an input that is neither declared nor the output of a statement
before it, for example `C = A * B` after the only declaration `A(3,2)`. Conversely, after
every parse that returns `true`, every operation of `getOperations` is a MULTIPLY with exactly
two inputs, each the name of a matrix in `getMatrices`, and an output that also names one. -/
theorem missing_reference_is_fatal :
    (∀ (p : Parser) (decls : List DeclarationMatch) (pre post : List MultiplyMatch)
        (s : MultiplyMatch),
        (((Parser.new.parseMatrixDeclarations decls).2.parseMatrixOperations pre).2.hasMatrix
              s.inputName1 = false
          ∨ ((Parser.new.parseMatrixDeclarations decls).2.parseMatrixOperations pre).2.hasMatrix
              s.inputName2 = false) →
        (p.parseFile (some (decls, pre ++ s :: post))).1 = false)
    ∧ (∀ (p : Parser) (decls : List DeclarationMatch) (pre post : List MultiplyMatch)
        (s : MultiplyMatch),
        ((s.inputName1 ∉ decls.map DeclarationMatch.name
            ∧ s.inputName1 ∉ pre.map MultiplyMatch.outputName)
          ∨ (s.inputName2 ∉ decls.map DeclarationMatch.name
            ∧ s.inputName2 ∉ pre.map MultiplyMatch.outputName)) →
        (p.parseFile (some (decls, pre ++ s :: post))).1 = false)
    ∧ (Parser.new.parseFile (some ([⟨"A", 3, 2⟩], [⟨"C", "A", "B"⟩]))).1 = false
    ∧ (∀ (p : Parser) (src : Option (List DeclarationMatch × List MultiplyMatch)),
        (p.parseFile src).1 = true →
        ∀ op ∈ (p.parseFile src).2.getOperations,
          op.type = OperationType.MULTIPLY
          ∧ ∃ i1 i2, op.inputs = [i1, i2]
              ∧ (∃ mi ∈ (p.parseFile src).2.getMatrices, mi.name = i1)
              ∧ (∃ mi ∈ (p.parseFile src).2.getMatrices, mi.name = i2)
              ∧ (∃ mi ∈ (p.parseFile src).2.getMatrices, mi.name = op.output)) := by
  refine ⟨parseFile_missing_input, ?_, by decide, ?_⟩
  · intro p decls pre post s h
    have hnot : ∀ k : String, k ∉ decls.map DeclarationMatch.name →
        k ∉ pre.map MultiplyMatch.outputName →
        ((Parser.new.parseMatrixDeclarations decls).2.parseMatrixOperations pre).2.hasMatrix k
          = false := by
      intro k hd ho
      cases hk : ((Parser.new.parseMatrixDeclarations decls).2.parseMatrixOperations
          pre).2.hasMatrix k with
      | false => rfl
      | true =>
        exfalso
        rcases hasMatrix_of_parseMatrixOperations pre k _ hk with a | a
        · rcases hasMatrix_of_parseMatrixDeclarations decls k _ a with b | b
          · cases b
          · exact hd b
        · exact ho a
    apply parseFile_missing_input
    rcases h with ⟨a, b⟩ | ⟨a, b⟩
    · exact Or.inl (hnot _ a b)
    · exact Or.inr (hnot _ a b)
  · intro p src h op hop
    have hw := wellReferenced_parseFile p src h
    obtain ⟨ht, i1, i2, hi, a1, a2, a3⟩ := hw.2 op hop
    exact ⟨ht, i1, i2, hi, exists_getMatrices_of_hasMatrix _ hw i1 a1,
      exists_getMatrices_of_hasMatrix _ hw i2 a2,
      exists_getMatrices_of_hasMatrix _ hw op.output a3⟩

end Frontend

namespace MemoryMap

/-- The body of `getRowAddress` on a bound name. -/
theorem getRowAddress_of_lookup (m : MemoryMapper) (name : String) (start : Nat)
    (dims : MatrixDimensions) (row : Nat)
    (h : m.matrixMap_.lookup name = some (start, dims)) :
    m.getRowAddress name row
      = if row ≥ dims.rows then .error (.out_of_range "Matrix row index out of range")
        else if dims.cols = 0 then .error .division_by_zero
        else if (min (256 / dims.cols) 1) % 2 ^ 16 = 0 then .error .division_by_zero
        else .ok ((start + (row / ((min (256 / dims.cols) 1) % 2 ^ 16)) % 2 ^ 16) % 2 ^ 16) := by
  simp only [MemoryMapper.getRowAddress, isMatrixMapped_of_lookup m name start dims h, h]
  rfl

/-- On a matrix with no column or with more than 256 columns, `getRowAddress` divides by
zero on every row of the matrix. -/
theorem getRowAddress_of_wide (m : MemoryMapper) (name : String) (start : Nat)
    (dims : MatrixDimensions) (row : Nat)
    (h : m.matrixMap_.lookup name = some (start, dims)) (hr : row < dims.rows)
    (hc : dims.cols = 0 ∨ dims.cols > 256) :
    m.getRowAddress name row = .error .division_by_zero := by
  rw [getRowAddress_of_lookup m name start dims row h, if_neg (by omega)]
  by_cases h0 : dims.cols = 0
  · rw [if_pos h0]
  · have hq : 256 / dims.cols = 0 := Nat.div_eq_of_lt (by omega)
    rw [if_neg h0, hq, if_pos (by decide)]

/-- On a matrix with 1 to 256 columns, the divisor of `getRowAddress` is 1 and the address is
the start address plus the row index. -/
theorem getRowAddress_of_narrow (m : MemoryMapper) (name : String) (start : Nat)
    (dims : MatrixDimensions) (row : Nat)
    (h : m.matrixMap_.lookup name = some (start, dims)) (hr : row < dims.rows)
    (h1 : 1 ≤ dims.cols) (h2 : dims.cols ≤ 256) :
    m.getRowAddress name row = .ok ((start + row % 2 ^ 16) % 2 ^ 16) := by
  have hq : 1 ≤ 256 / dims.cols := (Nat.one_le_div_iff (by omega)).mpr h2
  have hmin : min (256 / dims.cols) 1 = 1 := Nat.min_eq_right hq
  rw [getRowAddress_of_lookup m name start dims row h, if_neg (by omega), if_neg (by omega),
    hmin, if_neg (by decide)]
  have e : (1 : Nat) % 2 ^ 16 = 1 := by decide
  rw [e, Nat.div_one]

/-- C31. Row address, at inputs where the code divides by zero: a 2 x 300 matrix and a 2 x 0
matrix are both mapped by `mapMatrix` on a fresh mapper, and `getRowAddress` on a row of
either has the divisor `min(256 / cols, 1)` = 0, respectively the division `256 / cols` by 0,
where the claim has a divisor of at least 1 and an address. In general `getRowAddress` divides
by zero on every row of a mapped matrix with cols = 0 or cols > 256, and returns
start + row on a mapped matrix with 1 <= cols <= 256. -/
theorem getRowAddress_divides_by_zero :
    (MemoryMapper.new.mapMatrix "A" ⟨2, 300⟩).1 = .ok 0
    ∧ (MemoryMapper.new.mapMatrix "A" ⟨2, 300⟩).2.isMatrixMapped "A" = true
    ∧ (MemoryMapper.new.mapMatrix "A" ⟨2, 300⟩).2.getRowAddress "A" 0
        = .error .division_by_zero
    ∧ min (256 / 300) 1 = 0
    ∧ max 1 (256 / 300) = 1
    ∧ (MemoryMapper.new.mapMatrix "Z" ⟨2, 0⟩).1 = .ok 0
    ∧ (MemoryMapper.new.mapMatrix "Z" ⟨2, 0⟩).2.getRowAddress "Z" 1
        = .error .division_by_zero
    ∧ (∀ (m : MemoryMapper) (name : String) (start : Nat) (dims : MatrixDimensions)
        (row : Nat), m.matrixMap_.lookup name = some (start, dims) → row < dims.rows →
        (dims.cols = 0 ∨ dims.cols > 256) →
        m.getRowAddress name row = .error .division_by_zero)
    ∧ (∀ (m : MemoryMapper) (name : String) (start : Nat) (dims : MatrixDimensions)
        (row : Nat), m.matrixMap_.lookup name = some (start, dims) → row < dims.rows →
        1 ≤ dims.cols → dims.cols ≤ 256 →
        m.getRowAddress name row = .ok ((start + row % 2 ^ 16) % 2 ^ 16)) := by
  refine ⟨by decide, by decide, by decide, by decide, by decide, by decide, by decide,
    getRowAddress_of_wide, getRowAddress_of_narrow⟩

/-- The size of a matrix with at most 131072 elements is the ceiling of its number of
elements over 256, and at least 1: no conversion wraps. -/
theorem calculateMatrixSize_of_le (dims : MatrixDimensions)
    (h : dims.rows * dims.cols ≤ 131072) :
    calculateMatrixSize dims = max ((dims.rows * dims.cols + 255) / 256) 1 := by
  have h1 : dims.rows * dims.cols % 2 ^ 32 = dims.rows * dims.cols :=
    Nat.mod_eq_of_lt (by omega)
  have h2 : (dims.rows * dims.cols + 255) / 256 % 2 ^ 16 = (dims.rows * dims.cols + 255) / 256 :=
    Nat.mod_eq_of_lt (by omega)
  simp only [calculateMatrixSize]
  rw [h1, h2]

/-- C33. Element addresses stay inside the allocation of the matrix: in every state reached
from construction, for every mapped matrix with rows * cols <= 131072 and every row < rows,
col < cols, `getElementAddress(name, row, col)` returns an address between the startAddress
and the endAddress of `getMatrixAddressRange(name)`, which is at most 511 and lies in the
range of no other mapped matrix. -/
theorem element_address_in_range (calls : List Call) (name : String) (start : Nat)
    (dims : MatrixDimensions) (row col : Nat)
    (h : (MemoryMapper.new.run calls).matrixMap_.lookup name = some (start, dims))
    (hsize : dims.rows * dims.cols ≤ 131072) (hr : row < dims.rows) (hc : col < dims.cols) :
    ∃ (a : Nat) (range : AddressRange),
      (MemoryMapper.new.run calls).getElementAddress name row col = .ok a
      ∧ (MemoryMapper.new.run calls).getMatrixAddressRange name = .ok range
      ∧ range.startAddress = start
      ∧ range.startAddress ≤ a ∧ a ≤ range.endAddress ∧ a ≤ 511
      ∧ ∀ (other : String) (otherRange : AddressRange), other ≠ name →
          (MemoryMapper.new.run calls).getMatrixAddressRange other = .ok otherRange →
          ¬ (otherRange.startAddress ≤ a ∧ a ≤ otherRange.endAddress) := by
  obtain ⟨hcur, hin, hdis⟩ := allocated_run calls MemoryMapper.new allocated_new
  have hend := hin name start dims h
  have hpos := calculateMatrixSize_pos dims
  have hcalc := calculateMatrixSize_of_le dims hsize
  have hmul : (row + 1) * dims.cols ≤ dims.rows * dims.cols := Nat.mul_le_mul_right _ hr
  have hexp : (row + 1) * dims.cols = row * dims.cols + dims.cols := by ring
  have hoff : row * dims.cols / 256 < (dims.rows * dims.cols + 255) / 256 := by omega
  have hle : (dims.rows * dims.cols + 255) / 256 ≤ calculateMatrixSize dims := by
    rw [hcalc]; exact Nat.le_max_left _ _
  have e1 : row * dims.cols % 2 ^ 32 = row * dims.cols := Nat.mod_eq_of_lt (by omega)
  have e2 : row * dims.cols / 256 % 2 ^ 16 = row * dims.cols / 256 :=
    Nat.mod_eq_of_lt (by omega)
  have e3 : (start + row * dims.cols / 256) % 2 ^ 16 = start + row * dims.cols / 256 :=
    Nat.mod_eq_of_lt (by omega)
  have e4 : (start + calculateMatrixSize dims - 1) % 2 ^ 16
      = start + calculateMatrixSize dims - 1 := Nat.mod_eq_of_lt (by omega)
  refine ⟨start + row * dims.cols / 256,
    { startAddress := start, endAddress := start + calculateMatrixSize dims - 1 }, ?_, ?_, rfl,
    ?_, ?_, ?_, ?_⟩
  · rw [getElementAddress_of_lookup _ name start dims row col h, if_neg (by omega), e1, e2, e3]
  · rw [getMatrixAddressRange_of_lookup _ name start dims h, e4]
  · exact Nat.le_add_right _ _
  · show start + row * dims.cols / 256 ≤ start + calculateMatrixSize dims - 1
    omega
  · omega
  · intro other otherRange hne ho
    obtain ⟨s2, d2, hl2, hr2⟩ := getMatrixAddressRange_ok _ other otherRange ho
    have hend2 := hin other s2 d2 hl2
    have hpos2 := calculateMatrixSize_pos d2
    have e5 : (s2 + calculateMatrixSize d2 - 1) % 2 ^ 16 = s2 + calculateMatrixSize d2 - 1 :=
      Nat.mod_eq_of_lt (by omega)
    have hd := hdis other name s2 start d2 dims hne hl2 h
    subst hr2
    dsimp only
    rw [e5]
    omega

/-- The element (2, 99) of a 3 x 100 matrix mapped after a 3 x 2 matrix. -/
theorem element_address_in_range_witness :
    ∃ (a : Nat) (range : AddressRange),
      (MemoryMapper.new.run [Call.mapMatrix "A" ⟨3, 2⟩,
          Call.mapMatrix "B" ⟨3, 100⟩]).getElementAddress "B" 2 99 = .ok a
      ∧ (MemoryMapper.new.run [Call.mapMatrix "A" ⟨3, 2⟩,
          Call.mapMatrix "B" ⟨3, 100⟩]).getMatrixAddressRange "B" = .ok range
      ∧ range.startAddress = 1
      ∧ range.startAddress ≤ a ∧ a ≤ range.endAddress ∧ a ≤ 511
      ∧ ∀ (other : String) (otherRange : AddressRange), other ≠ "B" →
          (MemoryMapper.new.run [Call.mapMatrix "A" ⟨3, 2⟩,
            Call.mapMatrix "B" ⟨3, 100⟩]).getMatrixAddressRange other = .ok otherRange →
          ¬ (otherRange.startAddress ≤ a ∧ a ≤ otherRange.endAddress) :=
  element_address_in_range [Call.mapMatrix "A" ⟨3, 2⟩, Call.mapMatrix "B" ⟨3, 100⟩] "B" 1
    ⟨3, 100⟩ 2 99 (by decide) (by decide) (by decide) (by decide)

/-- C34. Row addresses, at inputs where the code leaves the allocation of the matrix: with a
3 x 2 matrix A mapped at row 0 (range [0, 0]) and a 1 x 1 matrix B mapped after it (range
[1, 1]), `getRowAddress("A", 1)` returns 1, which is past the endAddress of A and inside the
range of B; for a 600 x 1 matrix T mapped at row 0 (range [0, 2]), `getRowAddress("T", 599)`
returns 599, above 511. In general, in every state reached from construction, a row index
from the size of the matrix on (within a matrix of 1 to 256 columns) gets an address past the
endAddress. -/
theorem getRowAddress_leaves_range :
    ((MemoryMapper.new.mapMatrix "A" ⟨3, 2⟩).2.mapMatrix "B" ⟨1, 1⟩).1 = .ok 1
    ∧ ((MemoryMapper.new.mapMatrix "A" ⟨3, 2⟩).2.mapMatrix "B" ⟨1, 1⟩).2.getMatrixAddressRange
        "A" = .ok ⟨0, 0⟩
    ∧ ((MemoryMapper.new.mapMatrix "A" ⟨3, 2⟩).2.mapMatrix "B" ⟨1, 1⟩).2.getMatrixAddressRange
        "B" = .ok ⟨1, 1⟩
    ∧ ((MemoryMapper.new.mapMatrix "A" ⟨3, 2⟩).2.mapMatrix "B" ⟨1, 1⟩).2.getRowAddress "A" 1
        = .ok 1
    ∧ (MemoryMapper.new.mapMatrix "T" ⟨600, 1⟩).1 = .ok 0
    ∧ (MemoryMapper.new.mapMatrix "T" ⟨600, 1⟩).2.getMatrixAddressRange "T" = .ok ⟨0, 2⟩
    ∧ (MemoryMapper.new.mapMatrix "T" ⟨600, 1⟩).2.getRowAddress "T" 599 = .ok 599
    ∧ (∀ (calls : List Call) (name : String) (start : Nat) (dims : MatrixDimensions)
        (row : Nat),
        (MemoryMapper.new.run calls).matrixMap_.lookup name = some (start, dims) →
        1 ≤ dims.cols → dims.cols ≤ 256 → calculateMatrixSize dims ≤ row → row < dims.rows →
        row ≤ 65000 →
        ∃ (a : Nat) (range : AddressRange),
          (MemoryMapper.new.run calls).getRowAddress name row = .ok a
          ∧ (MemoryMapper.new.run calls).getMatrixAddressRange name = .ok range
          ∧ a = start + row ∧ range.endAddress < a) := by
  refine ⟨by decide, by decide, by decide, by decide, by decide, by decide, by decide, ?_⟩
  intro calls name start dims row h h1 h2 hs hr hbig
  obtain ⟨hcur, hin, _⟩ := allocated_run calls MemoryMapper.new allocated_new
  have hend := hin name start dims h
  have hpos := calculateMatrixSize_pos dims
  have e1 : row % 2 ^ 16 = row := Nat.mod_eq_of_lt (by omega)
  have e2 : (start + row) % 2 ^ 16 = start + row := Nat.mod_eq_of_lt (by omega)
  have e4 : (start + calculateMatrixSize dims - 1) % 2 ^ 16
      = start + calculateMatrixSize dims - 1 := Nat.mod_eq_of_lt (by omega)
  refine ⟨start + row,
    { startAddress := start, endAddress := start + calculateMatrixSize dims - 1 }, ?_, ?_, rfl,
    ?_⟩
  · rw [getRowAddress_of_narrow _ name start dims row h hr h1 h2, e1, e2]
  · rw [getMatrixAddressRange_of_lookup _ name start dims h, e4]
  · show start + calculateMatrixSize dims - 1 < start + row
    omega

end MemoryMap

namespace PIM_ISA

/-- C36. The textual form drops the read pointer of a memory access: for every rowAddress
<= 511, every flags (read, write) with at least one set, and every two pointers p1, p2 <= 63,
`createMemoryInstruction` returns for both pointers, the two instructions have the same
`toString`, and their `toBinary` values differ whenever p1 != p2 (so the instructions differ
and `toString` is not injective on valid instructions). -/
theorem toString_drops_read_pointer (p1 p2 rowAddress : Nat) (read write : Bool)
    (h1 : p1 ≤ 63) (h2 : p2 ≤ 63) (ha : rowAddress ≤ 511)
    (hf : read = true ∨ write = true) :
    ∃ i1 i2 : Instruction,
      createMemoryInstruction p1 read write rowAddress = .ok i1
      ∧ createMemoryInstruction p2 read write rowAddress = .ok i2
      ∧ i1.toString = i2.toString
      ∧ (p1 ≠ p2 → i1.toBinary ≠ i2.toBinary)
      ∧ (p1 ≠ p2 → i1 ≠ i2) := by
  have hbin : p1 ≠ p2 →
      (Instruction.mkExeEnd InstructionType.EXE p1 read write rowAddress).toBinary
        ≠ (Instruction.mkExeEnd InstructionType.EXE p2 read write rowAddress).toBinary := by
    intro hne heq
    rw [toBinary_eq, toBinary_eq] at heq
    simp only [Instruction.mkExeEnd, if_true] at heq
    omega
  refine ⟨Instruction.mkExeEnd InstructionType.EXE p1 read write rowAddress,
    Instruction.mkExeEnd InstructionType.EXE p2 read write rowAddress, ?_, ?_, ?_, hbin, ?_⟩
  · unfold createMemoryInstruction
    rw [if_neg (by omega), if_neg (by omega)]
  · unfold createMemoryInstruction
    rw [if_neg (by omega), if_neg (by omega)]
  · rcases hf with hr | hw
    · subst hr
      cases write <;> rfl
    · subst hw
      cases read <;> rfl
  · intro hne heq
    exact hbin hne (by rw [heq])

/-- Two reads of row 300 through the pointers 0 and 63: one text, two words. -/
theorem toString_drops_read_pointer_witness :
    ∃ i1 i2 : Instruction,
      createMemoryInstruction 0 true false 300 = .ok i1
      ∧ createMemoryInstruction 63 true false 300 = .ok i2
      ∧ i1.toString = i2.toString
      ∧ ((0 : Nat) ≠ 63 → i1.toBinary ≠ i2.toBinary)
      ∧ ((0 : Nat) ≠ 63 → i1 ≠ i2) :=
  toString_drops_read_pointer 0 63 300 true false (by decide) (by decide) (by decide)
    (Or.inl rfl)

end PIM_ISA

namespace Optimizer

open PIM_ISA Frontend

set_option linter.dupNamespace false

/-- The erase-remove idiom with a predicate that is false everywhere removes nothing. -/
theorem eraseRemoveIf_false {α : Type} (v : List α) : eraseRemoveIf (fun _ => false) v = v := by
  unfold eraseRemoveIf
  exact List.filter_eq_self.mpr (fun _ _ => rfl)

/-- At every stored level, `optimizeOperations` returns its argument. -/
theorem optimizeOperations_eq (o : Optimizer) (ops : List MatrixOperation) :
    o.optimizeOperations ops = ops := by
  unfold Optimizer.optimizeOperations
  by_cases h0 : o.optimizationLevel_ = 0
  · rw [if_pos h0]
  · rw [if_neg h0]
    by_cases h1 : o.optimizationLevel_ ≥ 1
    · simp only [if_pos h1]
      exact eraseRemoveIf_false ops
    · simp only [if_neg h1]

/-- At every stored level, `optimizeInstructions` returns its argument. -/
theorem optimizeInstructions_eq (o : Optimizer) (instrs : List Instruction) :
    o.optimizeInstructions instrs = instrs := by
  unfold Optimizer.optimizeInstructions
  by_cases h0 : o.optimizationLevel_ = 0
  · rw [if_pos h0]
  · rw [if_neg h0]
    by_cases h1 : o.optimizationLevel_ ≥ 1 <;> by_cases h2 : o.optimizationLevel_ ≥ 2
      <;> by_cases h3 : o.optimizationLevel_ ≥ 3
      <;> simp only [h1, h2, h3, if_true, if_false, Optimizer.applyInstructionReordering,
        Optimizer.applyMemoryAccessOptimization, Optimizer.applyInstructionScheduling,
        Optimizer.applyLoopUnrolling]

/-- C37. The optimizer is the identity at every level: for every stored optimization level
1, 2 and 3, set through `setOptimizationLevel`, and either verbosity,
`optimizeOperations(ops)` = ops and `optimizeInstructions(instrs)` = instrs, with the same
length and the same element at every index, so the result of every level equals the result
of level 0. -/
theorem optimizer_is_identity (o : Optimizer) (level : Int) (verbose : Bool)
    (ops : List MatrixOperation) (instrs : List Instruction)
    (h : level = 1 ∨ level = 2 ∨ level = 3) :
    ((o.setOptimizationLevel level).setVerbose verbose).optimizationLevel_ = level
    ∧ ((o.setOptimizationLevel level).setVerbose verbose).verbose_ = verbose
    ∧ ((o.setOptimizationLevel level).setVerbose verbose).optimizeOperations ops = ops
    ∧ ((o.setOptimizationLevel level).setVerbose verbose).optimizeInstructions instrs = instrs
    ∧ (((o.setOptimizationLevel level).setVerbose verbose).optimizeOperations ops).length
        = ops.length
    ∧ (((o.setOptimizationLevel level).setVerbose verbose).optimizeInstructions instrs).length
        = instrs.length
    ∧ (∀ k : Nat,
        (((o.setOptimizationLevel level).setVerbose verbose).optimizeOperations ops)[k]?
          = ops[k]?)
    ∧ (∀ k : Nat,
        (((o.setOptimizationLevel level).setVerbose verbose).optimizeInstructions instrs)[k]?
          = instrs[k]?)
    ∧ ((o.setOptimizationLevel level).setVerbose verbose).optimizeOperations ops
        = ((o.setOptimizationLevel 0).setVerbose verbose).optimizeOperations ops
    ∧ ((o.setOptimizationLevel level).setVerbose verbose).optimizeInstructions instrs
        = ((o.setOptimizationLevel 0).setVerbose verbose).optimizeInstructions instrs := by
  have hl : ¬ (level < 0 ∨ level > 3) := by omega
  have hlevel : ((o.setOptimizationLevel level).setVerbose verbose).optimizationLevel_
      = level := by
    simp only [Optimizer.setVerbose, Optimizer.setOptimizationLevel, if_neg hl]
  refine ⟨hlevel, rfl, optimizeOperations_eq _ ops, optimizeInstructions_eq _ instrs, ?_, ?_,
    ?_, ?_, ?_, ?_⟩
  · rw [optimizeOperations_eq]
  · rw [optimizeInstructions_eq]
  · intro k; rw [optimizeOperations_eq]
  · intro k; rw [optimizeInstructions_eq]
  · rw [optimizeOperations_eq, optimizeOperations_eq]
  · rw [optimizeInstructions_eq, optimizeInstructions_eq]

/-- Level 3 with verbose output, on one operation and two instructions. -/
theorem optimizer_is_identity_witness :
    ((Optimizer.new.setOptimizationLevel 3).setVerbose true).optimizationLevel_ = 3
    ∧ ((Optimizer.new.setOptimizationLevel 3).setVerbose true).optimizeOperations
        [⟨OperationType.MULTIPLY, ["A", "B"], "C"⟩] = [⟨OperationType.MULTIPLY, ["A", "B"], "C"⟩]
    ∧ ((Optimizer.new.setOptimizationLevel 3).setVerbose true).optimizeInstructions
        [Instruction.mkExeEnd InstructionType.EXE 0 true false 7, createEndInstruction]
      = [Instruction.mkExeEnd InstructionType.EXE 0 true false 7, createEndInstruction] :=
  have hw := optimizer_is_identity Optimizer.new 3 true
    [⟨OperationType.MULTIPLY, ["A", "B"], "C"⟩]
    [Instruction.mkExeEnd InstructionType.EXE 0 true false 7, createEndInstruction]
    (Or.inr (Or.inr rfl))
  ⟨hw.1, hw.2.2.1, hw.2.2.2.1⟩

end Optimizer

namespace StdString

/-- A scan that begins past index 0 does not return index 0. -/
theorem findFrom_ne_zero (pattern : List Char) (s : List Char) :
    ∀ i : Nat, 0 < i → findFrom pattern s i ≠ 0 := by
  induction s with
  | nil =>
    intro i hi
    unfold findFrom
    by_cases hp : pattern.isEmpty = true
    · rw [if_pos hp]; omega
    · rw [if_neg hp]; decide
  | cons c cs ih =>
    intro i hi
    unfold findFrom
    by_cases hp : pattern.isPrefixOf (c :: cs) = true
    · rw [if_pos hp]; omega
    · rw [if_neg hp]; exact ih (i + 1) (by omega)

end StdString

namespace PimSimulator

open StdString

/-- A line that starts with `PROG` is classified PROG. -/
theorem parseAssemblyLine_prog (line : String) (rest : List Char)
    (h : line.data = 'P' :: 'R' :: 'O' :: 'G' :: rest) :
    parseAssemblyLine line
      = some { type := InstructionType.PROG, params := line, cycles := 10 } := by
  simp [parseAssemblyLine, h, find, findFrom, List.isPrefixOf]

/-- A line that starts with `EXE Read` is classified EXE_READ. -/
theorem parseAssemblyLine_read (line : String) (rest : List Char)
    (h : line.data = 'E' :: 'X' :: 'E' :: ' ' :: 'R' :: 'e' :: 'a' :: 'd' :: rest) :
    parseAssemblyLine line
      = some { type := InstructionType.EXE_READ, params := line, cycles := 2 } := by
  simp [parseAssemblyLine, h, find, findFrom, List.isPrefixOf, findFrom_ne_zero]

/-- A line that starts with `EXE Write` is classified EXE_WRITE. -/
theorem parseAssemblyLine_write (line : String) (rest : List Char)
    (h : line.data = 'E' :: 'X' :: 'E' :: ' ' :: 'W' :: 'r' :: 'i' :: 't' :: 'e' :: rest) :
    parseAssemblyLine line
      = some { type := InstructionType.EXE_WRITE, params := line, cycles := 2 } := by
  simp [parseAssemblyLine, h, find, findFrom, List.isPrefixOf, findFrom_ne_zero]

/-- A line that starts with `EXE CorePtr` is classified EXE_COMPUTE. -/
theorem parseAssemblyLine_compute (line : String) (rest : List Char)
    (h : line.data
      = 'E' :: 'X' :: 'E' :: ' ' :: 'C' :: 'o' :: 'r' :: 'e' :: 'P' :: 't' :: 'r' :: rest) :
    parseAssemblyLine line
      = some { type := InstructionType.EXE_COMPUTE, params := line, cycles := 1 } := by
  simp [parseAssemblyLine, h, find, findFrom, List.isPrefixOf, findFrom_ne_zero]

/-- A line that starts with `END` is classified END. -/
theorem parseAssemblyLine_end (line : String) (rest : List Char)
    (h : line.data = 'E' :: 'N' :: 'D' :: rest) :
    parseAssemblyLine line
      = some { type := InstructionType.END, params := line, cycles := 1 } := by
  simp [parseAssemblyLine, h, find, findFrom, List.isPrefixOf, findFrom_ne_zero]

/-- The first characters of the text of a PROG instruction. -/
theorem toString_prog_data (i : PIM_ISA.Instruction) (h : i.type = .PROG) :
    ∃ rest, i.toString.data = 'P' :: 'R' :: 'O' :: 'G' :: rest := by
  simp only [PIM_ISA.Instruction.toString, h]
  exact ⟨_, rfl⟩

/-- The first characters of the text of an EXE instruction, by its flags. -/
theorem toString_exe_data (i : PIM_ISA.Instruction) (h : i.type = .EXE) :
    (i.read = true →
      ∃ rest, i.toString.data = 'E' :: 'X' :: 'E' :: ' ' :: 'R' :: 'e' :: 'a' :: 'd' :: rest)
    ∧ (i.read = false → i.write = true →
      ∃ rest, i.toString.data
        = 'E' :: 'X' :: 'E' :: ' ' :: 'W' :: 'r' :: 'i' :: 't' :: 'e' :: rest)
    ∧ (i.read = false → i.write = false →
      ∃ rest, i.toString.data
        = 'E' :: 'X' :: 'E' :: ' ' :: 'C' :: 'o' :: 'r' :: 'e' :: 'P' :: 't' :: 'r' :: rest) := by
  simp only [PIM_ISA.Instruction.toString, h]
  refine ⟨?_, ?_, ?_⟩
  · intro hr
    cases hw : i.write
    · simp only [hr, hw]; exact ⟨_, rfl⟩
    · simp only [hr, hw]; exact ⟨_, rfl⟩
  · intro hr hw
    simp only [hr, hw]; exact ⟨_, rfl⟩
  · intro hr hw
    simp only [hr, hw]; exact ⟨_, rfl⟩

/-- The type under which the simulator counts an instruction of the compiler, by its opcode
and flags. -/
theorem parseAssemblyLine_toString (i : PIM_ISA.Instruction) :
    ∃ instr : Instruction,
      parseAssemblyLine i.toString = some instr
      ∧ instr.params = i.toString
      ∧ (i.type = .PROG → instr.type = .PROG ∧ instr.cycles = 10)
      ∧ (i.type = .EXE → i.read = true → instr.type = .EXE_READ ∧ instr.cycles = 2)
      ∧ (i.type = .EXE → i.read = false → i.write = true →
          instr.type = .EXE_WRITE ∧ instr.cycles = 2)
      ∧ (i.type = .EXE → i.read = false → i.write = false →
          instr.type = .EXE_COMPUTE ∧ instr.cycles = 1)
      ∧ (i.type = .END → instr.type = .END ∧ instr.cycles = 1)
      ∧ instr.type ≠ .UNKNOWN := by
  cases ht : i.type with
  | PROG =>
    obtain ⟨rest, hd⟩ := toString_prog_data i ht
    refine ⟨_, parseAssemblyLine_prog _ rest hd, rfl, ?_⟩
    simp
  | END =>
    have hd : i.toString.data = 'E' :: 'N' :: 'D' :: [] := by
      simp only [PIM_ISA.Instruction.toString, ht]
    refine ⟨_, parseAssemblyLine_end _ [] hd, rfl, ?_⟩
    simp
  | EXE =>
    obtain ⟨h1, h2, h3⟩ := toString_exe_data i ht
    cases hr : i.read with
    | true =>
      obtain ⟨rest, hd⟩ := h1 hr
      refine ⟨_, parseAssemblyLine_read _ rest hd, rfl, ?_⟩
      simp
    | false =>
      cases hw : i.write with
      | true =>
        obtain ⟨rest, hd⟩ := h2 hr hw
        refine ⟨_, parseAssemblyLine_write _ rest hd, rfl, ?_⟩
        simp
      | false =>
        obtain ⟨rest, hd⟩ := h3 hr hw
        refine ⟨_, parseAssemblyLine_compute _ rest hd, rfl, ?_⟩
        simp

/-- No line of a program written by `toString` is skipped by `parseAssembly`. -/
theorem parseAssembly_toString (l : List PIM_ISA.Instruction) :
    (parseAssembly (some (l.map PIM_ISA.Instruction.toString))).map Instruction.params
        = l.map PIM_ISA.Instruction.toString
    ∧ ∀ instr ∈ parseAssembly (some (l.map PIM_ISA.Instruction.toString)),
        instr.type ≠ .UNKNOWN := by
  induction l with
  | nil => exact ⟨rfl, fun instr h => by simp [parseAssembly] at h⟩
  | cons i rest ih =>
    obtain ⟨instr, hp, hparams, _, _, _, _, _, hu⟩ := parseAssemblyLine_toString i
    have hcons : parseAssembly (some ((i :: rest).map PIM_ISA.Instruction.toString))
        = instr :: parseAssembly (some (rest.map PIM_ISA.Instruction.toString)) := by
      simp only [parseAssembly, List.map_cons]
      rw [List.filterMap_cons_some hp]
    rw [hcons]
    refine ⟨?_, ?_⟩
    · rw [List.map_cons, List.map_cons, hparams, ih.1]
    · intro x hx
      rcases List.mem_cons.mp hx with hx | hx
      · rw [hx]; exact hu
      · exact ih.2 x hx

/-- C32. Wire vocabulary agrees with the simulator: for every instruction of the compiler, in
particular every one produced by the four factory functions, the line `toString(instr)` is
not skipped by the `parseAssembly` of `pim_simulator` (it is non-empty and begins with neither
a slash nor a space) and is classified PROG for a PROG instruction, EXE_READ for an EXE with
read set, EXE_WRITE for an EXE with write set and read clear, EXE_COMPUTE for an EXE with both
flags clear, and END for END; it is never classified UNKNOWN, and a file with one such line
per instruction gives one simulator instruction per line, in order. -/
theorem toString_classified_by_simulator :
    (∀ i : PIM_ISA.Instruction,
      i.toString.data ≠ []
      ∧ i.toString.data.head? ≠ some '/' ∧ i.toString.data.head? ≠ some ' '
      ∧ ∃ instr : Instruction,
          parseAssemblyLine i.toString = some instr
          ∧ instr.params = i.toString
          ∧ (i.type = .PROG → instr.type = .PROG ∧ instr.cycles = 10)
          ∧ (i.type = .EXE → i.read = true → instr.type = .EXE_READ ∧ instr.cycles = 2)
          ∧ (i.type = .EXE → i.read = false → i.write = true →
              instr.type = .EXE_WRITE ∧ instr.cycles = 2)
          ∧ (i.type = .EXE → i.read = false → i.write = false →
              instr.type = .EXE_COMPUTE ∧ instr.cycles = 1)
          ∧ (i.type = .END → instr.type = .END ∧ instr.cycles = 1)
          ∧ instr.type ≠ .UNKNOWN)
    ∧ (∀ l : List PIM_ISA.Instruction,
        (parseAssembly (some (l.map PIM_ISA.Instruction.toString))).map Instruction.params
            = l.map PIM_ISA.Instruction.toString
        ∧ ∀ instr ∈ parseAssembly (some (l.map PIM_ISA.Instruction.toString)),
            instr.type ≠ .UNKNOWN)
    ∧ (∀ i : PIM_ISA.Instruction, PIM_ISA.FactoryMade i →
        ∃ instr : Instruction,
          parseAssemblyLine i.toString = some instr ∧ instr.type ≠ .UNKNOWN)
    ∧ parseAssembly (some ["PROG Core0 MULTIPLIER [0x00, 0x01]", "EXE Read RowAddress0",
          "EXE ReadWrite RowAddress7", "EXE Write RowAddress2", "EXE CorePtr2 RowAddress0",
          "END", "", "// comment", " EXE Read RowAddress0", "NOP"])
        = [⟨.PROG, "PROG Core0 MULTIPLIER [0x00, 0x01]", 10⟩,
            ⟨.EXE_READ, "EXE Read RowAddress0", 2⟩, ⟨.EXE_READ, "EXE ReadWrite RowAddress7", 2⟩,
            ⟨.EXE_WRITE, "EXE Write RowAddress2", 2⟩,
            ⟨.EXE_COMPUTE, "EXE CorePtr2 RowAddress0", 1⟩, ⟨.END, "END", 1⟩,
            ⟨.UNKNOWN, "NOP", 0⟩] := by
  refine ⟨?_, parseAssembly_toString, ?_, by decide⟩
  · intro i
    have hfirst : ∃ c rest, i.toString.data = c :: rest ∧ c ≠ '/' ∧ c ≠ ' ' := by
      cases ht : i.type with
      | PROG =>
        obtain ⟨rest, hd⟩ := toString_prog_data i ht
        exact ⟨_, _, hd, by decide, by decide⟩
      | END =>
        refine ⟨'E', ['N', 'D'], ?_, by decide, by decide⟩
        simp only [PIM_ISA.Instruction.toString, ht]
      | EXE =>
        refine ⟨'E', i.toString.data.tail, ?_, by decide, by decide⟩
        simp only [PIM_ISA.Instruction.toString, ht]
        rfl
    obtain ⟨c, rest, hd, hc1, hc2⟩ := hfirst
    refine ⟨?_, ?_, ?_, parseAssemblyLine_toString i⟩
    · rw [hd]; exact List.cons_ne_nil _ _
    · rw [hd]
      intro h
      exact hc1 (Option.some.inj h)
    · rw [hd]
      intro h
      exact hc2 (Option.some.inj h)
  · intro i _
    obtain ⟨instr, hp, _, _, _, _, _, _, hu⟩ := parseAssemblyLine_toString i
    exact ⟨instr, hp, hu⟩

end PimSimulator

namespace StdString

/-- The scan for one character passes over characters that differ from it. -/
theorem findFrom_skip (c : Char) (a rest : List Char) (h : c ∉ a) :
    ∀ i : Nat, findFrom [c] (a ++ c :: rest) i = i + a.length := by
  induction a with
  | nil => intro i; simp [findFrom, List.isPrefixOf]
  | cons x xs ih =>
    intro i
    have hx : c ≠ x := fun e => h (by rw [e]; exact List.mem_cons_self _ _)
    have hxs : c ∉ xs := fun e => h (List.mem_cons_of_mem _ e)
    have hb : (c == x) = false := by simpa using hx
    simp only [List.cons_append, findFrom, List.isPrefixOf, hb, Bool.false_and]
    show findFrom [c] (xs ++ c :: rest) (i + 1) = _
    rw [ih hxs (i + 1), List.length_cons]
    omega

/-- The scan for one character that does not occur finds nothing. -/
theorem findFrom_absent (c : Char) (a : List Char) (h : c ∉ a) :
    ∀ i : Nat, findFrom [c] a i = npos := by
  induction a with
  | nil => intro i; simp [findFrom]
  | cons x xs ih =>
    intro i
    have hx : c ≠ x := fun e => h (by rw [e]; exact List.mem_cons_self _ _)
    have hxs : c ∉ xs := fun e => h (List.mem_cons_of_mem _ e)
    have hb : (c == x) = false := by simpa using hx
    simp only [findFrom, List.isPrefixOf, hb, Bool.false_and]
    exact ih hxs (i + 1)

/-- Member `find` for one character, from a position on: the characters up to the first
occurrence are passed over. -/
theorem find_skip (pre a rest : List Char) (c : Char) (h : c ∉ a) :
    find (pre ++ (a ++ c :: rest)) [c] pre.length = pre.length + a.length := by
  unfold find
  rw [if_neg (by rw [List.length_append]; omega), List.drop_left]
  exact findFrom_skip c a rest h pre.length

/-- Member `find` for one character that does not occur from a position on. -/
theorem find_absent (pre a : List Char) (c : Char) (h : c ∉ a) :
    find (pre ++ a) [c] pre.length = npos := by
  unfold find
  rw [if_neg (by rw [List.length_append]; omega), List.drop_left]
  exact findFrom_absent c a h pre.length

/-- Member `substr` on the middle part of a string. -/
theorem substr_mid (pre a rest : List Char) :
    substr (pre ++ (a ++ rest)) pre.length a.length = .ok a := by
  unfold substr
  rw [if_neg (by rw [List.length_append]; omega), List.drop_left, List.take_left]

end StdString

namespace LutVisualizer

open StdString PIM_ISA

/-- The line of a PROG instruction with a non-empty configuration, read back. -/
theorem parseProgLine_shape (line : String) (D N H : List Char)
    (hline : line.data
      = ['P', 'R', 'O', 'G', ' ', 'C', 'o', 'r', 'e']
          ++ (D ++ ' ' :: (N ++ ' ' :: '[' :: (H ++ [']']))))
    (hD1 : ' ' ∉ D) (hD2 : '[' ∉ D) (hD3 : ']' ∉ D)
    (hN1 : ' ' ∉ N) (hN2 : '[' ∉ N) (hN3 : ']' ∉ N) (hH : ']' ∉ H)
    (hlen : line.data.length < 2 ^ 63) :
    parseProgLine line
      = (match stoi D with
        | .error e => .error e
        | .ok value =>
          match readLutData (getlineAll ',' H []) with
          | .error e => .error e
          | .ok lutData =>
            .ok (some { coreId := (value % 2 ^ 8).toNat, coreType := String.mk N,
                        lutData := lutData })) := by
  have hl : line.data.length = 9 + D.length + 1 + N.length + 2 + H.length + 1 := by
    rw [hline]; simp only [List.length_append, List.length_cons, List.length_nil]; omega
  have f0 : find line.data "PROG Core".data 0 = 0 := by
    simp [hline, find, findFrom, List.isPrefixOf]
  have f2 : find line.data "Core".data 0 = 5 := by
    simp [hline, find, findFrom, List.isPrefixOf]
  have f3 : find line.data " ".data 9 = 9 + D.length := by
    rw [hline]
    exact find_skip ['P', 'R', 'O', 'G', ' ', 'C', 'o', 'r', 'e'] D _ ' ' hD1
  have s3 : substr line.data 9 D.length = .ok D := by
    rw [hline]
    exact substr_mid ['P', 'R', 'O', 'G', ' ', 'C', 'o', 'r', 'e'] D _
  have e4 : line.data
      = (['P', 'R', 'O', 'G', ' ', 'C', 'o', 'r', 'e'] ++ D ++ [' '])
          ++ (N ++ ' ' :: '[' :: (H ++ [']'])) := by
    rw [hline]; simp
  have l4 : (['P', 'R', 'O', 'G', ' ', 'C', 'o', 'r', 'e'] ++ D ++ [' ']).length
      = 9 + D.length + 1 := by simp; omega
  have f4 : find line.data " ".data (9 + D.length + 1) = 9 + D.length + 1 + N.length := by
    rw [e4, ← l4]
    exact find_skip _ N _ ' ' hN1
  have s4 : substr line.data (9 + D.length + 1) N.length = .ok N := by
    rw [e4, ← l4]
    exact substr_mid _ N _
  have e5 : line.data
      = [] ++ ((['P', 'R', 'O', 'G', ' ', 'C', 'o', 'r', 'e'] ++ D ++ ' ' :: N ++ [' '])
          ++ '[' :: (H ++ [']'])) := by
    rw [hline]; simp
  have f5 : find line.data "[".data 0 = 9 + D.length + 1 + N.length + 1 := by
    rw [e5]
    have h := find_skip [] (['P', 'R', 'O', 'G', ' ', 'C', 'o', 'r', 'e'] ++ D ++ ' ' :: N ++ [' '])
      (H ++ [']']) '[' (by simp [hD2, hN2])
    exact h.trans (by simp; omega)
  have e6 : line.data
      = [] ++ ((['P', 'R', 'O', 'G', ' ', 'C', 'o', 'r', 'e'] ++ D ++ ' ' :: N ++ ' ' :: '[' :: H)
          ++ ']' :: []) := by
    rw [hline]; simp
  have f6 : find line.data "]".data 0 = 9 + D.length + 1 + N.length + 2 + H.length := by
    rw [e6]
    have h := find_skip []
      (['P', 'R', 'O', 'G', ' ', 'C', 'o', 'r', 'e'] ++ D ++ ' ' :: N ++ ' ' :: '[' :: H)
      [] ']' (by simp [hD3, hN3, hH])
    exact h.trans (by simp; omega)
  have e7 : line.data
      = (['P', 'R', 'O', 'G', ' ', 'C', 'o', 'r', 'e'] ++ D ++ ' ' :: N ++ [' ', '['])
          ++ (H ++ [']']) := by
    rw [hline]; simp
  have l7 : (['P', 'R', 'O', 'G', ' ', 'C', 'o', 'r', 'e'] ++ D ++ ' ' :: N ++ [' ', '[']).length
      = 9 + D.length + 1 + N.length + 2 := by simp; omega
  have s6 : substr line.data (9 + D.length + 1 + N.length + 2) H.length = .ok H := by
    rw [e7, ← l7]
    exact substr_mid _ H _
  have hne : line.data ≠ [] := by rw [hline]; simp
  have c0 : (line.data.isEmpty || line.data.headD (Char.ofNat 0) == '/'
      || line.data.headD (Char.ofNat 0) == Char.ofNat 10) = false := by
    rw [hline]; rfl
  have n0 : ¬ ((0 : Nat) = npos) := by decide
  have n9 : (5 + 4) % 2 ^ 64 = 9 := by decide
  have hnpos : npos = 2 ^ 64 - 1 := rfl
  have c1 : 9 ≠ npos ∧ 9 + D.length ≠ npos := by
    rw [hnpos]; omega
  have a3 : (9 + D.length + 2 ^ 64 - 9) % 2 ^ 64 = D.length := by omega
  have p4 : (9 + D.length + 1) % 2 ^ 64 = 9 + D.length + 1 := by omega
  have c4 : 9 + D.length + 1 ≠ npos ∧ 9 + D.length + 1 + N.length ≠ npos := by
    rw [hnpos]; omega
  have a4 : (9 + D.length + 1 + N.length + 2 ^ 64 - (9 + D.length + 1)) % 2 ^ 64
      = N.length := by omega
  have c5 : 9 + D.length + 1 + N.length + 1 ≠ npos
      ∧ 9 + D.length + 1 + N.length + 2 + H.length ≠ npos := by
    rw [hnpos]; omega
  have p5 : (9 + D.length + 1 + N.length + 1 + 1) % 2 ^ 64
      = 9 + D.length + 1 + N.length + 2 := by omega
  have a6 : (9 + D.length + 1 + N.length + 2 + H.length + 2 ^ 64
      - (9 + D.length + 1 + N.length + 1) + 2 ^ 64 - 1) % 2 ^ 64 = H.length := by omega
  unfold parseProgLine
  rw [c0]
  simp only [f0, f2, n9, f3, a3, s3, p4, f4, a4, s4, f5, f6, p5, a6, s6, n0, c1, c4, c5,
    Bool.false_eq_true, if_false, if_true, and_self, ne_eq, not_false_eq_true,
    Backend.bind_ok, Backend.pure_ok]
  cases stoi D with
  | error e => rfl
  | ok value => cases readLutData (getlineAll ',' H []) <;> rfl

/-- The line of a PROG instruction without configuration, read back: no space follows the
name of the operation, so the core type stays empty. -/
theorem parseProgLine_shape_empty (line : String) (D N : List Char)
    (hline : line.data = ['P', 'R', 'O', 'G', ' ', 'C', 'o', 'r', 'e'] ++ (D ++ ' ' :: N))
    (hD1 : ' ' ∉ D) (hD2 : '[' ∉ D) (hN1 : ' ' ∉ N) (hN2 : '[' ∉ N)
    (hlen : line.data.length < 2 ^ 63) :
    parseProgLine line
      = (match stoi D with
        | .error e => .error e
        | .ok value =>
          .ok (some { coreId := (value % 2 ^ 8).toNat, coreType := "", lutData := [] })) := by
  have hl : line.data.length = 9 + D.length + 1 + N.length := by
    rw [hline]; simp only [List.length_append, List.length_cons, List.length_nil]; omega
  have f0 : find line.data "PROG Core".data 0 = 0 := by
    simp [hline, find, findFrom, List.isPrefixOf]
  have f2 : find line.data "Core".data 0 = 5 := by
    simp [hline, find, findFrom, List.isPrefixOf]
  have f3 : find line.data " ".data 9 = 9 + D.length := by
    rw [hline]
    exact find_skip ['P', 'R', 'O', 'G', ' ', 'C', 'o', 'r', 'e'] D _ ' ' hD1
  have s3 : substr line.data 9 D.length = .ok D := by
    rw [hline]
    exact substr_mid ['P', 'R', 'O', 'G', ' ', 'C', 'o', 'r', 'e'] D _
  have e4 : line.data = (['P', 'R', 'O', 'G', ' ', 'C', 'o', 'r', 'e'] ++ D ++ [' ']) ++ N := by
    rw [hline]; simp
  have l4 : (['P', 'R', 'O', 'G', ' ', 'C', 'o', 'r', 'e'] ++ D ++ [' ']).length
      = 9 + D.length + 1 := by simp; omega
  have f4 : find line.data " ".data (9 + D.length + 1) = npos := by
    rw [e4, ← l4]
    exact find_absent _ N ' ' hN1
  have e5 : line.data = [] ++ (['P', 'R', 'O', 'G', ' ', 'C', 'o', 'r', 'e'] ++ D ++ ' ' :: N) := by
    rw [hline]; simp
  have f5 : find line.data "[".data 0 = npos := by
    rw [e5]
    exact find_absent [] _ '[' (by simp [hD2, hN2])
  have c0 : (line.data.isEmpty || line.data.headD (Char.ofNat 0) == '/'
      || line.data.headD (Char.ofNat 0) == Char.ofNat 10) = false := by
    rw [hline]; rfl
  have n0 : ¬ ((0 : Nat) = npos) := by decide
  have n9 : (5 + 4) % 2 ^ 64 = 9 := by decide
  have hnpos : npos = 2 ^ 64 - 1 := rfl
  have c1 : 9 ≠ npos ∧ 9 + D.length ≠ npos := by
    rw [hnpos]; omega
  have a3 : (9 + D.length + 2 ^ 64 - 9) % 2 ^ 64 = D.length := by omega
  have p4 : (9 + D.length + 1) % 2 ^ 64 = 9 + D.length + 1 := by omega
  unfold parseProgLine
  rw [c0]
  simp only [f0, f2, n9, f3, a3, s3, p4, f4, f5, n0, c1,
    Bool.false_eq_true, if_false, if_true, and_self, ne_eq, not_false_eq_true, not_true_eq_false,
    and_false, false_and, Backend.bind_ok, Backend.pure_ok]
  cases stoi D <;> rfl

/-- The decimal digits of a core pointer, read back by `std::stoi`. -/
theorem renderDec_facts : ∀ n : Fin 64,
    ' ' ∉ (renderDec n.val).data ∧ '[' ∉ (renderDec n.val).data
    ∧ ']' ∉ (renderDec n.val).data ∧ stoi (renderDec n.val).data = .ok (n.val : Int)
    ∧ (renderDec n.val).data.length ≤ 2 := by
  decide

/-- The names of the core operations hold neither a space nor a bracket. -/
theorem coreOpName_facts (op : CoreOpType) :
    ' ' ∉ (coreOpName (some op)).data ∧ '[' ∉ (coreOpName (some op)).data
    ∧ ']' ∉ (coreOpName (some op)).data ∧ (coreOpName (some op)).data.length ≤ 10 := by
  cases op <;> decide

set_option maxRecDepth 100000 in
/-- The token of a byte, first or later in the list, read back by the loop over the tokens. -/
theorem hexToken_facts : ∀ b : Fin 256,
    parseHexToken ('0' :: 'x' :: (renderHex2 b.val).data) = .ok b.val
    ∧ parseHexToken (' ' :: '0' :: 'x' :: (renderHex2 b.val).data) = .ok b.val
    ∧ ',' ∉ (renderHex2 b.val).data ∧ ']' ∉ (renderHex2 b.val).data
    ∧ (renderHex2 b.val).data.length = 2 := by
  decide

/-- The characters written for a byte that is not the first. -/
theorem renderLutConfig_data_succ (i b : Nat) (rest : List Nat) :
    (renderLutConfig (i + 1) (b :: rest)).data
      = ',' :: ' ' :: '0' :: 'x'
          :: ((renderHex2 b).data ++ (renderLutConfig (i + 2) rest).data) := by
  simp [renderLutConfig]

/-- The characters written for the first byte. -/
theorem renderLutConfig_data_zero (b : Nat) (rest : List Nat) :
    (renderLutConfig 0 (b :: rest)).data
      = '0' :: 'x' :: ((renderHex2 b).data ++ (renderLutConfig 1 rest).data) := by
  simp [renderLutConfig]

/-- The loop of `getline` passes over characters that differ from the delimiter. -/
theorem getlineAll_skip (delim : Char) (tok : List Char) (h : delim ∉ tok) :
    ∀ (s acc : List Char),
      getlineAll delim (tok ++ s) acc = getlineAll delim s (tok.reverse ++ acc) := by
  induction tok with
  | nil => intro s acc; rfl
  | cons x xs ih =>
    intro s acc
    have hx : delim ≠ x := fun e => h (by rw [e]; exact List.mem_cons_self _ _)
    have hxs : delim ∉ xs := fun e => h (List.mem_cons_of_mem _ e)
    have hb : (x == delim) = false := by
      simpa using fun e => hx e.symm
    rw [List.cons_append]
    simp only [getlineAll, hb]
    rw [if_neg (by decide), ih hxs s (x :: acc)]
    simp

/-- At a delimiter the loop of `getline` ends the token. -/
theorem getlineAll_delim (delim : Char) (s acc : List Char) :
    getlineAll delim (delim :: s) acc = acc.reverse :: getlineAll delim s [] := by
  simp [getlineAll]

/-- At the end of the stream the loop of `getline` returns the characters read. -/
theorem getlineAll_end (delim : Char) (acc : List Char) (h : acc ≠ []) :
    getlineAll delim [] acc = [acc.reverse] := by
  cases acc with
  | nil => exact absurd rfl h
  | cons c cs => rfl

/-- The tokens of the bytes that are not the first. -/
theorem getlineAll_config (cfg : List Nat) (hb : ∀ b ∈ cfg, b < 256) :
    ∀ (i : Nat) (acc : List Char), acc ≠ [] →
      getlineAll ',' (renderLutConfig (i + 1) cfg).data acc
        = acc.reverse :: cfg.map (fun b => ' ' :: '0' :: 'x' :: (renderHex2 b).data) := by
  induction cfg with
  | nil =>
    intro i acc h
    exact getlineAll_end ',' acc h
  | cons b rest ih =>
    intro i acc h
    have hlt : b < 256 := hb b (List.mem_cons_self _ _)
    have hrest : ∀ x ∈ rest, x < 256 := fun x hx => hb x (List.mem_cons_of_mem _ hx)
    obtain ⟨_, _, hcomma, _, _⟩ := hexToken_facts ⟨b, hlt⟩
    have htok : ',' ∉ ' ' :: '0' :: 'x' :: (renderHex2 b).data := by
      intro hm
      rcases List.mem_cons.mp hm with e | hm
      · exact absurd e (by decide)
      · rcases List.mem_cons.mp hm with e | hm
        · exact absurd e (by decide)
        · rcases List.mem_cons.mp hm with e | hm
          · exact absurd e (by decide)
          · exact hcomma hm
    have hdata : (renderLutConfig (i + 1) (b :: rest)).data
        = ',' :: ((' ' :: '0' :: 'x' :: (renderHex2 b).data)
            ++ (renderLutConfig (i + 1 + 1) rest).data) := by
      rw [renderLutConfig_data_succ]; rfl
    rw [hdata, getlineAll_delim, getlineAll_skip ',' _ htok,
      ih hrest (i + 1) _ (by simp), List.map_cons]
    simp

/-- The tokens of a non-empty configuration. -/
theorem getlineAll_config_zero (b : Nat) (rest : List Nat) (hb : ∀ x ∈ b :: rest, x < 256) :
    getlineAll ',' (renderLutConfig 0 (b :: rest)).data []
      = ('0' :: 'x' :: (renderHex2 b).data)
          :: rest.map (fun b => ' ' :: '0' :: 'x' :: (renderHex2 b).data) := by
  have hlt : b < 256 := hb b (List.mem_cons_self _ _)
  have hrest : ∀ x ∈ rest, x < 256 := fun x hx => hb x (List.mem_cons_of_mem _ hx)
  obtain ⟨_, _, hcomma, _, _⟩ := hexToken_facts ⟨b, hlt⟩
  have htok : ',' ∉ '0' :: 'x' :: (renderHex2 b).data := by
    intro hm
    rcases List.mem_cons.mp hm with e | hm
    · exact absurd e (by decide)
    · rcases List.mem_cons.mp hm with e | hm
      · exact absurd e (by decide)
      · exact hcomma hm
  have hdata : (renderLutConfig 0 (b :: rest)).data
      = ('0' :: 'x' :: (renderHex2 b).data) ++ (renderLutConfig (0 + 1) rest).data := by
    rw [renderLutConfig_data_zero]; rfl
  rw [hdata, getlineAll_skip ',' _ htok, getlineAll_config rest hrest 0 _ (by simp)]
  simp

/-- The tokens of the later bytes give the bytes back. -/
theorem readLutData_tokens (rest : List Nat) (hb : ∀ x ∈ rest, x < 256) :
    readLutData (rest.map (fun b => ' ' :: '0' :: 'x' :: (renderHex2 b).data)) = .ok rest := by
  induction rest with
  | nil => rfl
  | cons b r ih =>
    have hlt : b < 256 := hb b (List.mem_cons_self _ _)
    have hr : ∀ x ∈ r, x < 256 := fun x hx => hb x (List.mem_cons_of_mem _ hx)
    obtain ⟨_, h2, _, _, _⟩ := hexToken_facts ⟨b, hlt⟩
    rw [List.map_cons]
    unfold readLutData
    rw [h2, ih hr]

/-- The rendered configuration holds no closing bracket. -/
theorem renderLutConfig_no_bracket (cfg : List Nat) (hb : ∀ b ∈ cfg, b < 256) :
    ∀ i : Nat, ']' ∉ (renderLutConfig i cfg).data := by
  induction cfg with
  | nil => intro i; simp [renderLutConfig]
  | cons b rest ih =>
    intro i
    have hlt : b < 256 := hb b (List.mem_cons_self _ _)
    have hrest : ∀ x ∈ rest, x < 256 := fun x hx => hb x (List.mem_cons_of_mem _ hx)
    obtain ⟨_, _, _, hbr, _⟩ := hexToken_facts ⟨b, hlt⟩
    cases i with
    | zero =>
      rw [renderLutConfig_data_zero]
      have := ih hrest 1
      simp [hbr, this]
    | succ j =>
      rw [renderLutConfig_data_succ]
      have := ih hrest (j + 2)
      simp [hbr, this]

/-- The rendered configuration takes at most six characters per byte. -/
theorem renderLutConfig_length (cfg : List Nat) (hb : ∀ b ∈ cfg, b < 256) :
    ∀ i : Nat, (renderLutConfig i cfg).data.length ≤ 6 * cfg.length := by
  induction cfg with
  | nil => intro i; simp [renderLutConfig]
  | cons b rest ih =>
    intro i
    have hlt : b < 256 := hb b (List.mem_cons_self _ _)
    have hrest : ∀ x ∈ rest, x < 256 := fun x hx => hb x (List.mem_cons_of_mem _ hx)
    obtain ⟨_, _, _, _, hlen⟩ := hexToken_facts ⟨b, hlt⟩
    cases i with
    | zero =>
      rw [renderLutConfig_data_zero]
      have := ih hrest 1
      simp only [List.length_cons, List.length_append, hlen]
      omega
    | succ j =>
      rw [renderLutConfig_data_succ]
      have := ih hrest (j + 2)
      simp only [List.length_cons, List.length_append, hlen]
      omega

/-- The characters of the text of a PROG instruction with a non-empty configuration. -/
theorem toString_prog_nonempty_data (corePtr : Nat) (op : CoreOpType) (b : Nat)
    (rest : List Nat) :
    (Instruction.mkProg corePtr op (b :: rest)).toString.data
      = ['P', 'R', 'O', 'G', ' ', 'C', 'o', 'r', 'e']
          ++ ((renderDec corePtr).data ++ ' ' :: ((coreOpName (some op)).data
            ++ ' ' :: '[' :: ((renderLutConfig 0 (b :: rest)).data ++ [']']))) := by
  simp [Instruction.toString, Instruction.mkProg]

/-- The characters of the text of a PROG instruction without configuration. -/
theorem toString_prog_empty_data (corePtr : Nat) (op : CoreOpType) :
    (Instruction.mkProg corePtr op []).toString.data
      = ['P', 'R', 'O', 'G', ' ', 'C', 'o', 'r', 'e']
          ++ ((renderDec corePtr).data ++ ' ' :: (coreOpName (some op)).data) := by
  simp [Instruction.toString, Instruction.mkProg]

/-- What the visualizer reads from the line of a PROG instruction with a non-empty
configuration: the arguments of the instruction. -/
theorem parseProgLine_nonempty (corePtr : Nat) (op : CoreOpType) (b : Nat) (rest : List Nat)
    (hp : corePtr ≤ 63) (hb : ∀ x ∈ b :: rest, x < 256) (hlen : (b :: rest).length < 2 ^ 60) :
    parseProgLine (Instruction.mkProg corePtr op (b :: rest)).toString
      = .ok (some { coreId := corePtr, coreType := coreOpName (some op),
                    lutData := b :: rest }) := by
  obtain ⟨hD1, hD2, hD3, hstoi, hDl⟩ := renderDec_facts ⟨corePtr, by omega⟩
  dsimp only at hD1 hD2 hD3 hstoi hDl
  obtain ⟨hN1, hN2, hN3, hNl⟩ := coreOpName_facts op
  have hH := renderLutConfig_no_bracket (b :: rest) hb 0
  have hHl := renderLutConfig_length (b :: rest) hb 0
  have hdata := toString_prog_nonempty_data corePtr op b rest
  have hlt : b < 256 := hb b (List.mem_cons_self _ _)
  have hrest : ∀ x ∈ rest, x < 256 := fun x hx => hb x (List.mem_cons_of_mem _ hx)
  obtain ⟨h1, _, _, _, _⟩ := hexToken_facts ⟨b, hlt⟩
  have hll : (Instruction.mkProg corePtr op (b :: rest)).toString.data.length < 2 ^ 63 := by
    rw [hdata]
    simp only [List.length_append, List.length_cons, List.length_nil] at hlen hHl ⊢
    omega
  rw [parseProgLine_shape _ _ _ _ hdata hD1 hD2 hD3 hN1 hN2 hN3 hH hll]
  dsimp only at h1
  rw [hstoi, getlineAll_config_zero b rest hb]
  unfold readLutData
  rw [h1, readLutData_tokens rest hrest]
  have hv : ((corePtr : Int) % 2 ^ 8).toNat = corePtr := by omega
  simp only [hv]

/-- What the visualizer reads from the line of a PROG instruction without configuration:
the core id, an empty core type and no data. -/
theorem parseProgLine_empty (corePtr : Nat) (op : CoreOpType) (hp : corePtr ≤ 63) :
    parseProgLine (Instruction.mkProg corePtr op []).toString
      = .ok (some { coreId := corePtr, coreType := "", lutData := [] }) := by
  obtain ⟨hD1, hD2, hD3, hstoi, hDl⟩ := renderDec_facts ⟨corePtr, by omega⟩
  dsimp only at hD1 hD2 hD3 hstoi hDl
  obtain ⟨hN1, hN2, hN3, hNl⟩ := coreOpName_facts op
  have hdata := toString_prog_empty_data corePtr op
  have hll : (Instruction.mkProg corePtr op []).toString.data.length < 2 ^ 63 := by
    rw [hdata]
    simp only [List.length_append, List.length_cons, List.length_nil]
    omega
  rw [parseProgLine_shape_empty _ _ _ hdata hD1 hD2 hN1 hN2 hll]
  rw [hstoi]
  have hv : ((corePtr : Int) % 2 ^ 8).toNat = corePtr := by omega
  simp only [hv]

/-- C35. The LUT visualizer, at the input where it leaves the instruction model: the PROG
instruction `createProgInstruction(5, ADDER, {})`, with an empty lutConfig, is rendered as
"PROG Core5 ADDER", and the PROG-line parser of `visualizeLUTProgramming` extracts from
that line the core id 5 and no LUT data, but the empty string as core type where the rendered
name is "ADDER": the type is read up to the next space, and no space follows the name when
there is no configuration. The same holds for every core pointer and operation with an empty
lutConfig. With a non-empty lutConfig the parser extracts core id = corePtr, core type = the
rendered name of coreOp and LUT data = lutConfig, the same bytes in the same order. -/
theorem visualizer_drops_core_type_without_config :
    createProgInstruction 5 CoreOpType.ADDER [] = .ok (Instruction.mkProg 5 CoreOpType.ADDER [])
    ∧ (Instruction.mkProg 5 CoreOpType.ADDER []).toString = "PROG Core5 ADDER"
    ∧ parseProgLine "PROG Core5 ADDER"
        = .ok (some { coreId := 5, coreType := "", lutData := [] })
    ∧ coreOpName (some CoreOpType.ADDER) = "ADDER"
    ∧ parseProgLine "PROG Core2 MAC [0x00, 0xab, 0x05]"
        = .ok (some { coreId := 2, coreType := "MAC", lutData := [0, 171, 5] })
    ∧ (∀ (corePtr : Nat) (op : CoreOpType) (i : Instruction),
        createProgInstruction corePtr op [] = .ok i →
        parseProgLine i.toString
            = .ok (some { coreId := corePtr, coreType := "", lutData := [] })
        ∧ coreOpName (some op) ≠ "")
    ∧ (∀ (corePtr : Nat) (op : CoreOpType) (cfg : List Nat) (i : Instruction),
        cfg ≠ [] → (∀ b ∈ cfg, b < 256) → cfg.length < 2 ^ 60 →
        createProgInstruction corePtr op cfg = .ok i →
        parseProgLine i.toString
          = .ok (some { coreId := corePtr, coreType := coreOpName (some op),
                        lutData := cfg })) := by
  refine ⟨by decide, by decide, by decide, by decide, by decide, ?_, ?_⟩
  · intro corePtr op i h
    obtain ⟨hp, hi⟩ := createProgInstruction_ok corePtr op [] i h
    subst hi
    exact ⟨parseProgLine_empty corePtr op hp, by cases op <;> decide⟩
  · intro corePtr op cfg i hne hb hlen h
    obtain ⟨hp, hi⟩ := createProgInstruction_ok corePtr op cfg i h
    subst hi
    cases cfg with
    | nil => exact absurd rfl hne
    | cons b rest => exact parseProgLine_nonempty corePtr op b rest hp hb hlen

end LutVisualizer

namespace CpuBenchmark

/-- A value in the range of `int` is not changed by the reduction. -/
theorem wrapInt_of_range (x : Int) (h1 : -2147483648 ≤ x) (h2 : x ≤ 2147483647) :
    wrapInt x = x := by
  unfold wrapInt; omega

/-- Reducing a summand first does not change the reduced sum. -/
theorem wrapInt_add_wrapInt (x y : Int) : wrapInt (x + wrapInt y) = wrapInt (x + y) := by
  unfold wrapInt; omega

/-- Reducing the other summand first does not change the reduced sum. -/
theorem wrapInt_wrapInt_add (x y : Int) : wrapInt (wrapInt x + y) = wrapInt (x + y) := by
  unfold wrapInt; omega

/-- The reduction is idempotent. -/
theorem wrapInt_idem (x : Int) : wrapInt (wrapInt x) = wrapInt x := by
  unfold wrapInt; omega

/-- The cells of a row lie inside the matrix. -/
theorem cell_lt (R C i k : Nat) (hi : i < R) (hk : k < C) : i * C + k < R * C := by
  have h1 : (i + 1) * C ≤ R * C := Nat.mul_le_mul_right C hi
  have h2 : (i + 1) * C = i * C + C := by ring
  omega

/-- Two cells with the same index are the same cell. -/
theorem cell_inj (C i k i2 k2 : Nat) (hk : k < C) (hk2 : k2 < C)
    (h : i * C + k = i2 * C + k2) : i = i2 ∧ k = k2 := by
  have hC : 0 < C := by omega
  have d1 : (k + i * C) / C = i := by
    rw [Nat.add_mul_div_right _ _ hC, Nat.div_eq_of_lt hk]; omega
  have d2 : (k2 + i2 * C) / C = i2 := by
    rw [Nat.add_mul_div_right _ _ hC, Nat.div_eq_of_lt hk2]; omega
  have e : k + i * C = k2 + i2 * C := by omega
  have hi : i = i2 := by rw [← d1, ← d2, e]
  subst hi
  exact ⟨rfl, by omega⟩

/-- The dimensions of a well-formed matrix as natural numbers. -/
theorem wellFormed_nat (m : Matrix) (h : m.WellFormed) :
    ∃ R C : Nat, m.rows_ = (R : Int) ∧ m.cols_ = (C : Int) ∧ R ≤ 2147483647
      ∧ C ≤ 2147483647 ∧ R * C ≤ 2147483647 ∧ m.data_.length = R * C := by
  obtain ⟨h1, h2, h3, h4, h5, h6⟩ := h
  obtain ⟨R, hR⟩ := Int.eq_ofNat_of_zero_le h1
  obtain ⟨C, hC⟩ := Int.eq_ofNat_of_zero_le h3
  have e : ((R * C : Nat) : Int) = (R : Int) * (C : Int) := by push_cast; rfl
  rw [hR, hC] at h5 h6
  rw [hR] at h2
  rw [hC] at h4
  refine ⟨R, C, hR, hC, by omega, by omega, by omega, by omega⟩

/-- Conversion to `size_t` of a value that is not negative. -/
theorem toSizeT_natCast (n : Nat) (h : n < 18446744073709551616) : toSizeT (n : Int) = n := by
  unfold toSizeT
  omega

/-- The index computed by `operator()` for a cell of the matrix. -/
theorem index_eq (m : Matrix) (R C : Nat) (hc : m.cols_ = (C : Int))
    (hsize : R * C ≤ 2147483647) (i k : Nat) (hi : i < R) (hk : k < C) :
    m.index (i : Int) (k : Int) = i * C + k := by
  have hlt := cell_lt R C i k hi hk
  have e : (i : Int) * (C : Int) = ((i * C : Nat) : Int) := by push_cast; rfl
  have e2 : ((i * C : Nat) : Int) + (k : Int) = ((i * C + k : Nat) : Int) := by push_cast; rfl
  have w1 : wrapInt ((i * C : Nat) : Int) = ((i * C : Nat) : Int) :=
    wrapInt_of_range _ (by omega) (by omega)
  have w2 : wrapInt ((i * C + k : Nat) : Int) = ((i * C + k : Nat) : Int) :=
    wrapInt_of_range _ (by omega) (by omega)
  unfold Matrix.index
  rw [hc, e, w1, e2, w2, toSizeT_natCast _ (by omega)]

/-- Reading a cell of the matrix through `operator()`. -/
theorem get_eq_entry (m : Matrix) (R C : Nat) (hc : m.cols_ = (C : Int))
    (hsize : R * C ≤ 2147483647) (hlen : m.data_.length = R * C) (i k : Nat) (hi : i < R)
    (hk : k < C) : m.get (i : Int) (k : Int) = .ok (m.entry i k) := by
  have hlt : i * C + k < m.data_.length := by rw [hlen]; exact cell_lt R C i k hi hk
  unfold Matrix.get Matrix.entry
  rw [index_eq m R C hc hsize i k hi hk, hc, Int.toNat_natCast, List.getElem?_eq_getElem hlt,
    List.getD_eq_getElem _ _ hlt]

/-- The cell written through `operator()` holds the value; the other cells keep theirs. -/
theorem set_entry (m : Matrix) (R C : Nat) (hr : m.rows_ = (R : Int)) (hc : m.cols_ = (C : Int))
    (hsize : R * C ≤ 2147483647) (hlen : m.data_.length = R * C) (i k : Nat) (hi : i < R)
    (hk : k < C) (value : Int) :
    ∃ m2 : Matrix, m.set (i : Int) (k : Int) value = .ok m2 ∧ m2.rows_ = (R : Int)
      ∧ m2.cols_ = (C : Int) ∧ m2.data_.length = R * C
      ∧ ∀ i2 k2 : Nat, i2 < R → k2 < C →
          m2.entry i2 k2 = if i2 = i ∧ k2 = k then value else m.entry i2 k2 := by
  have hlt : i * C + k < m.data_.length := by rw [hlen]; exact cell_lt R C i k hi hk
  refine ⟨{ m with data_ := m.data_.set (i * C + k) value }, ?_, hr, hc, ?_, ?_⟩
  · unfold Matrix.set
    rw [index_eq m R C hc hsize i k hi hk, if_pos hlt]
  · simp only [List.length_set]; exact hlen
  · intro i2 k2 hi2 hk2
    unfold Matrix.entry
    simp only [hc, Int.toNat_natCast]
    by_cases h : i2 = i ∧ k2 = k
    · obtain ⟨e1, e2⟩ := h
      subst e1 e2
      simp [List.getD_eq_getElem?_getD, hlt]
    · rw [if_neg h]
      have hne : i * C + k ≠ i2 * C + k2 := by
        intro e
        have := cell_inj C i k i2 k2 hk hk2 e
        exact h ⟨this.1.symm, this.2.symm⟩
      simp [List.getD_eq_getElem?_getD, List.getElem?_set_ne hne]

/-- The increment of a loop counter below the largest `int`. -/
theorem wrapInt_succ (k : Nat) (h : k + 1 ≤ 2147483647) :
    wrapInt ((k : Int) + 1) = ((k + 1 : Nat) : Int) := by
  have e : (k : Int) + 1 = ((k + 1 : Nat) : Int) := by push_cast; rfl
  rw [e]
  exact wrapInt_of_range _ (by omega) (by omega)

/-- The sum over the first n + 1 indices splits off the first term. -/
theorem sum_range_succ_shift (F : Nat → Int) (n : Nat) :
    ((List.range (n + 1)).map F).sum = F 0 + ((List.range n).map (fun t => F (t + 1))).sum := by
  rw [List.range_succ_eq_map, List.map_cons, List.sum_cons, List.map_map]
  rfl

/-- The inner loop adds the products of the cells it passes, reducing as it goes. -/
theorem sumLoop_eq (A B : Matrix) (R M P : Nat) (hAc : A.cols_ = (M : Int))
    (hAs : R * M ≤ 2147483647) (hAl : A.data_.length = R * M)
    (hBc : B.cols_ = (P : Int)) (hBs : M * P ≤ 2147483647) (hBl : B.data_.length = M * P)
    (hM : M ≤ 2147483647) (i j : Nat) (hi : i < R) (hj : j < P) :
    ∀ (n k : Nat) (sum : Int), k + n ≤ M → wrapInt sum = sum →
      sumLoop A B (i : Int) (j : Int) n (k : Int) sum
        = .ok (wrapInt (sum
            + ((List.range n).map (fun t => A.entry i (k + t) * B.entry (k + t) j)).sum)) := by
  intro n
  induction n with
  | zero =>
    intro k sum _ hs
    simp only [sumLoop, List.range_zero, List.map_nil, List.sum_nil, add_zero, hs]
  | succ n ih =>
    intro k sum hk
    have hk1 : k < M := by omega
    have hk2 : k + 1 + n ≤ M := by omega
    have hk3 : k + 1 ≤ 2147483647 := by omega
    have e : ∀ t : Nat, k + 1 + t = k + (t + 1) := fun t => by omega
    intro hs
    unfold sumLoop
    rw [get_eq_entry A R M hAc hAs hAl i k hi hk1, get_eq_entry B M P hBc hBs hBl k j hk1 hj]
    simp only []
    rw [wrapInt_succ k hk3, ih (k + 1) _ hk2 (wrapInt_idem _),
      sum_range_succ_shift (fun t => A.entry i (k + t) * B.entry (k + t) j) n]
    simp only [Nat.add_zero, e]
    rw [wrapInt_wrapInt_add, add_assoc]
    generalize A.entry i k * B.entry k j = X
    generalize ((List.range n).map
      (fun t => A.entry i (k + (t + 1)) * B.entry (k + (t + 1)) j)).sum = S
    have e1 : sum + (wrapInt X + S) = (sum + S) + wrapInt X := by ring
    have e2 : sum + (X + S) = (sum + S) + X := by ring
    rw [e1, e2, wrapInt_add_wrapInt]

/-- The loop over the columns fills the cells of row i from column j0 on and leaves the
other cells as they are. -/
theorem colLoop_eq (A B : Matrix) (R M P : Nat) (hAc : A.cols_ = (M : Int))
    (hAs : R * M ≤ 2147483647) (hAl : A.data_.length = R * M)
    (hBc : B.cols_ = (P : Int)) (hBs : M * P ≤ 2147483647) (hBl : B.data_.length = M * P)
    (hM : M ≤ 2147483647) (hP : P ≤ 2147483647) (hCs : R * P ≤ 2147483647)
    (i : Nat) (hi : i < R) :
    ∀ (n j0 : Nat) (C : Matrix), j0 + n ≤ P → C.rows_ = (R : Int) → C.cols_ = (P : Int) →
      C.data_.length = R * P →
      ∃ C2 : Matrix, colLoop A B (i : Int) n (j0 : Int) C = .ok C2 ∧ C2.rows_ = (R : Int)
        ∧ C2.cols_ = (P : Int) ∧ C2.data_.length = R * P
        ∧ ∀ i2 j2 : Nat, i2 < R → j2 < P →
            C2.entry i2 j2
              = if i2 = i ∧ j0 ≤ j2 ∧ j2 < j0 + n then wrapInt (dotProduct A B i j2 M)
                else C.entry i2 j2 := by
  intro n
  induction n with
  | zero =>
    intro j0 C _ hr hc hl
    refine ⟨C, rfl, hr, hc, hl, ?_⟩
    intro i2 j2 _ _
    rw [if_neg (by omega)]
  | succ n ih =>
    intro j0 C hj hr hc hl
    have hj1 : j0 < P := by omega
    have hj2 : j0 + 1 + n ≤ P := by omega
    have hj3 : j0 + 1 ≤ 2147483647 := by omega
    have hsum : sumLoop A B (i : Int) (j0 : Int) M 0 0
        = .ok (wrapInt (dotProduct A B i j0 M)) := by
      have h := sumLoop_eq A B R M P hAc hAs hAl hBc hBs hBl hM i j0 hi hj1 M 0 0
        (by omega) (wrapInt_of_range 0 (by omega) (by omega))
      simp only [Nat.cast_zero, zero_add] at h
      exact h
    have hcols : A.cols.toNat = M := by
      unfold Matrix.cols; rw [hAc, Int.toNat_natCast]
    obtain ⟨C1, hset, hr1, hc1, hl1, hent1⟩ := set_entry C R P hr hc hCs hl i j0 hi hj1
      (wrapInt (dotProduct A B i j0 M))
    obtain ⟨C2, hloop, hr2, hc2, hl2, hent2⟩ := ih (j0 + 1) C1 hj2 hr1 hc1 hl1
    refine ⟨C2, ?_, hr2, hc2, hl2, ?_⟩
    · unfold colLoop
      rw [hcols, hsum]
      simp only []
      rw [hset]
      simp only []
      rw [wrapInt_succ j0 hj3, hloop]
    · intro i2 j2 hi2 hj2
      rw [hent2 i2 j2 hi2 hj2, hent1 i2 j2 hi2 hj2]
      by_cases h1 : i2 = i ∧ j0 + 1 ≤ j2 ∧ j2 < j0 + 1 + n
      · rw [if_pos h1, if_pos ⟨h1.1, by omega, by omega⟩]
      · rw [if_neg h1]
        by_cases h2 : i2 = i ∧ j2 = j0
        · rw [if_pos h2, if_pos ⟨h2.1, by omega, by omega⟩, h2.2]
        · rw [if_neg h2, if_neg]
          intro h3
          by_cases h4 : j2 = j0
          · exact h2 ⟨h3.1, h4⟩
          · exact h1 ⟨h3.1, by omega, by omega⟩

/-- The loop over the rows fills the rows from i0 on and leaves the other cells as they
are. -/
theorem rowLoop_eq (A B : Matrix) (R M P : Nat) (hAc : A.cols_ = (M : Int))
    (hAs : R * M ≤ 2147483647) (hAl : A.data_.length = R * M)
    (hBc : B.cols_ = (P : Int)) (hBs : M * P ≤ 2147483647) (hBl : B.data_.length = M * P)
    (hR : R ≤ 2147483647) (hM : M ≤ 2147483647) (hP : P ≤ 2147483647)
    (hCs : R * P ≤ 2147483647) :
    ∀ (n i0 : Nat) (C : Matrix), i0 + n ≤ R → C.rows_ = (R : Int) → C.cols_ = (P : Int) →
      C.data_.length = R * P →
      ∃ C2 : Matrix, rowLoop A B n (i0 : Int) C = .ok C2 ∧ C2.rows_ = (R : Int)
        ∧ C2.cols_ = (P : Int) ∧ C2.data_.length = R * P
        ∧ ∀ i2 j2 : Nat, i2 < R → j2 < P →
            C2.entry i2 j2
              = if i0 ≤ i2 ∧ i2 < i0 + n then wrapInt (dotProduct A B i2 j2 M)
                else C.entry i2 j2 := by
  intro n
  induction n with
  | zero =>
    intro i0 C _ hr hc hl
    refine ⟨C, rfl, hr, hc, hl, ?_⟩
    intro i2 j2 _ _
    rw [if_neg (by omega)]
  | succ n ih =>
    intro i0 C hi hr hc hl
    have hi1 : i0 < R := by omega
    have hi2 : i0 + 1 + n ≤ R := by omega
    have hi3 : i0 + 1 ≤ 2147483647 := by omega
    have hcols : B.cols.toNat = P := by
      unfold Matrix.cols; rw [hBc, Int.toNat_natCast]
    have hcolumn := colLoop_eq A B R M P hAc hAs hAl hBc hBs hBl hM hP hCs i0 hi1 P 0 C
      (by omega) hr hc hl
    simp only [Nat.cast_zero, zero_add] at hcolumn
    obtain ⟨C1, hcol, hr1, hc1, hl1, hent1⟩ := hcolumn
    obtain ⟨C2, hloop, hr2, hc2, hl2, hent2⟩ := ih (i0 + 1) C1 hi2 hr1 hc1 hl1
    refine ⟨C2, ?_, hr2, hc2, hl2, ?_⟩
    · unfold rowLoop
      rw [hcols, hcol]
      simp only []
      rw [wrapInt_succ i0 hi3, hloop]
    · intro i2 j2 hi2 hj2
      rw [hent2 i2 j2 hi2 hj2, hent1 i2 j2 hi2 hj2]
      by_cases h1 : i0 + 1 ≤ i2 ∧ i2 < i0 + 1 + n
      · rw [if_pos h1, if_pos ⟨by omega, by omega⟩]
      · rw [if_neg h1]
        by_cases h2 : i2 = i0
        · rw [if_pos ⟨h2, by omega, hj2⟩, if_pos ⟨by omega, by omega⟩, h2]
        · rw [if_neg (fun h3 => h2 h3.1), if_neg (by omega)]

/-- The constructor on dimensions that are not negative and whose product fits an `int`. -/
theorem new_of_nat (R P : Nat) (h : R * P ≤ 2147483647) :
    Matrix.new (R : Int) (P : Int)
      = .ok { rows_ := (R : Int), cols_ := (P : Int), data_ := List.replicate (R * P) 0 } := by
  have e : (R : Int) * (P : Int) = ((R * P : Nat) : Int) := by push_cast; rfl
  have w : wrapInt ((R * P : Nat) : Int) = ((R * P : Nat) : Int) :=
    wrapInt_of_range _ (by omega) (by omega)
  have t : toSizeT ((R * P : Nat) : Int) = R * P := toSizeT_natCast _ (by omega)
  have hmax : ¬ (R * P > vectorMaxSize) := by unfold vectorMaxSize; omega
  simp only [Matrix.new, e, w, t, if_neg hmax]

/-- The result of `multiply_cpu` on well-formed matrices whose inner dimensions agree. -/
theorem multiply_cpu_ok (A B : Matrix) (hA : A.WellFormed) (hB : B.WellFormed)
    (hC : A.rows * B.cols ≤ 2147483647) (hd : A.cols = B.rows) :
    ∃ C : Matrix, multiply_cpu A B = .ok C ∧ C.rows = A.rows ∧ C.cols = B.cols
      ∧ C.WellFormed
      ∧ ∀ i j : Nat, (i : Int) < A.rows → (j : Int) < B.cols →
          C.get (i : Int) (j : Int) = .ok (wrapInt (dotProduct A B i j A.cols.toNat))
          ∧ ∀ k : Nat, (k : Int) < A.cols →
              A.get (i : Int) (k : Int) = .ok (A.entry i k)
              ∧ B.get (k : Int) (j : Int) = .ok (B.entry k j) := by
  obtain ⟨R, M, hAr, hAc, hR, hM, hAs, hAl⟩ := wellFormed_nat A hA
  obtain ⟨M2, P, hBr, hBc, _, hP, hBs, hBl⟩ := wellFormed_nat B hB
  simp only [Matrix.rows, Matrix.cols] at hC hd ⊢
  have hMM : M2 = M := by
    rw [hAc, hBr] at hd
    exact (Int.ofNat_inj.mp hd).symm
  subst hMM
  have e : (R : Int) * (P : Int) = ((R * P : Nat) : Int) := by push_cast; rfl
  have hCs : R * P ≤ 2147483647 := by
    rw [hAr, hBc, e] at hC
    omega
  have hnew := new_of_nat R P hCs
  obtain ⟨C, hloop, hr, hc, hl, hent⟩ := rowLoop_eq A B R M2 P hAc hAs hAl hBc hBs hBl hR hM hP
    hCs R 0 { rows_ := (R : Int), cols_ := (P : Int), data_ := List.replicate (R * P) 0 }
    (by omega) rfl rfl (List.length_replicate _ _)
  simp only [Nat.cast_zero, zero_add] at hloop hent
  refine ⟨C, ?_, ?_, ?_, ?_, ?_⟩
  · unfold multiply_cpu
    simp only [Matrix.rows, Matrix.cols]
    rw [if_neg (by rw [hd]; exact fun h => h rfl), hAr, hBc, hnew]
    simp only [Int.toNat_natCast]
    exact hloop
  · rw [hr, hAr]
  · rw [hc, hBc]
  · refine ⟨by rw [hr]; omega, by rw [hr]; omega, by rw [hc]; omega, by rw [hc]; omega, ?_, ?_⟩
    · rw [hr, hc, e]; omega
    · rw [hr, hc, e, Int.toNat_natCast]; exact hl
  · intro i j hi hj
    have hi2 : i < R := by rw [hAr] at hi; omega
    have hj2 : j < P := by rw [hBc] at hj; omega
    refine ⟨?_, ?_⟩
    · rw [get_eq_entry C R P hc hCs hl i j hi2 hj2, hent i j hi2 hj2,
        if_pos ⟨by omega, hi2⟩, hAc, Int.toNat_natCast]
    · intro k hk
      have hk2 : k < M2 := by rw [hAc] at hk; omega
      exact ⟨get_eq_entry A R M2 hAc hAs hAl i k hi2 hk2,
        get_eq_entry B M2 P hBc hBs hBl k j hk2 hj2⟩

/-- C38, as amended. For matrices A and B with dimensions that are not negative, and with
`A.rows() * A.cols()`, `B.rows() * B.cols()` and `A.rows() * B.cols()` within the range of
`int`, `multiply_cpu(A, B)` raises `invalid_argument` if and only if
`A.cols() != B.rows()`; otherwise it returns a matrix C with `A.rows()` rows and `B.cols()`
columns such that for every i < `A.rows()` and j < `B.cols()`, C(i, j) is the sum over
k < `A.cols()` of A(i, k) * B(k, j) reduced to 32-bit two's complement. A and B are passed
by `const` reference and are not changed. -/
theorem multiply_cpu_spec (A B : Matrix) (hA : A.WellFormed) (hB : B.WellFormed)
    (hC : A.rows * B.cols ≤ 2147483647) :
    ((∃ msg, multiply_cpu A B = .error (.invalid_argument msg)) ↔ A.cols ≠ B.rows)
    ∧ (A.cols ≠ B.rows → multiply_cpu A B
        = .error (.invalid_argument "Matrix dimensions don't match for multiplication"))
    ∧ (A.cols = B.rows →
        ∃ C : Matrix, multiply_cpu A B = .ok C ∧ C.rows = A.rows ∧ C.cols = B.cols
          ∧ C.WellFormed
          ∧ ∀ i j : Nat, (i : Int) < A.rows → (j : Int) < B.cols →
              C.get (i : Int) (j : Int) = .ok (wrapInt (dotProduct A B i j A.cols.toNat))
              ∧ ∀ k : Nat, (k : Int) < A.cols →
                  A.get (i : Int) (k : Int) = .ok (A.entry i k)
                  ∧ B.get (k : Int) (j : Int) = .ok (B.entry k j)) := by
  have hne : A.cols ≠ B.rows → multiply_cpu A B
      = .error (.invalid_argument "Matrix dimensions don't match for multiplication") := by
    intro h
    unfold multiply_cpu
    rw [if_pos h]
  refine ⟨⟨?_, fun h => ⟨_, hne h⟩⟩, hne, multiply_cpu_ok A B hA hB hC⟩
  rintro ⟨msg, hmsg⟩ heq
  obtain ⟨C, hok, _⟩ := multiply_cpu_ok A B hA hB hC heq
  rw [hok] at hmsg
  cases hmsg

/-- A 2 x 3 matrix times a 3 x 2 matrix, and a product that leaves the range of `int`. -/
theorem multiply_cpu_spec_witness :
    ((∃ msg, multiply_cpu ⟨2, 3, [1, 2, 3, 4, 5, 6]⟩ ⟨3, 2, [1, 0, 0, 1, 1, 1]⟩
        = .error (.invalid_argument msg))
      ↔ (⟨2, 3, [1, 2, 3, 4, 5, 6]⟩ : Matrix).cols ≠ (⟨3, 2, [1, 0, 0, 1, 1, 1]⟩ : Matrix).rows)
    ∧ multiply_cpu ⟨2, 3, [1, 2, 3, 4, 5, 6]⟩ ⟨3, 2, [1, 0, 0, 1, 1, 1]⟩
        = .ok ⟨2, 2, [4, 5, 10, 11]⟩
    ∧ multiply_cpu ⟨2, 3, [1, 2, 3, 4, 5, 6]⟩ ⟨2, 2, [1, 0, 0, 1]⟩
        = .error (.invalid_argument "Matrix dimensions don't match for multiplication")
    ∧ multiply_cpu ⟨1, 1, [65536]⟩ ⟨1, 1, [65536]⟩ = .ok ⟨1, 1, [0]⟩ :=
  ⟨(multiply_cpu_spec ⟨2, 3, [1, 2, 3, 4, 5, 6]⟩ ⟨3, 2, [1, 0, 0, 1, 1, 1]⟩
      ⟨by decide, by decide, by decide, by decide, by decide, by decide⟩
      ⟨by decide, by decide, by decide, by decide, by decide, by decide⟩ (by decide)).1,
    by decide, by decide, by decide⟩

/-- C38, at inputs where the call neither raises `invalid_argument` nor returns: for
A = Matrix(2, 0) and B = Matrix(0, -3), both built by the constructor, `A.cols()` =
`B.rows()` = 0, and the construction of C = Matrix(2, -3) inside `multiply_cpu` asks for a
vector of (size_t)(-6) elements, which throws `std::length_error`. -/
theorem multiply_cpu_negative_dimension :
    ∃ A B : Matrix, Matrix.new 2 0 = .ok A ∧ Matrix.new 0 (-3) = .ok B
      ∧ A.cols = B.rows
      ∧ multiply_cpu A B
          = .error (.length_error "cannot create std::vector larger than max_size()")
      ∧ (∀ msg, multiply_cpu A B ≠ .error (.invalid_argument msg))
      ∧ (∀ C, multiply_cpu A B ≠ .ok C) := by
  have h : multiply_cpu ⟨2, 0, []⟩ ⟨0, -3, []⟩
      = .error (.length_error "cannot create std::vector larger than max_size()") := by
    decide
  refine ⟨⟨2, 0, []⟩, ⟨0, -3, []⟩, by decide, by decide, by decide, h, ?_, ?_⟩
  · intro msg hm
    rw [h] at hm
    cases hm
  · intro C hm
    rw [h] at hm
    cases hm

end CpuBenchmark
